import Mathlib

/-!
# mGBA memory subsystem: bus, DMA engine and BIOS HLE routines

A shallow embedding of `src/gba/gba-memory.c` and `src/gba/gba-bios.c`.

Conventions of the embedding

* `uint32_t` addresses and values are `Nat`, reduced with `% 2 ^ 32` wherever the C
  arithmetic can wrap; `int32_t`, `int16_t` and `int8_t` values are `Int`, produced by
  `toInt32`, `toInt16`, `toInt8` from the stored bit pattern.
* A RAM or ROM buffer is a function from byte offsets to bytes (`Buf`).  Offsets are
  `Int` because `_unLz77` does raw pointer arithmetic on the destination buffer; offsets
  outside `0 .. SIZE - 1` stand for host memory next to the buffer.  The bus functions
  always index inside the buffer.  The host is little-endian, as the C code assumes
  when it views the `uint32_t` buffers as halfwords and bytes.
* The bus functions receive the whole machine (`GBA`), which is what the C code reaches
  through `memory->p`.
-/

namespace Mgba

/-! ## Constants of `gba-memory.h` and `gba-io.h` -/

/-- Modelled from the spec: `BASE_OFFSET` of gba-memory.h (the header is not among the
sources); the region tag of an address is `addr >> 24`. -/
def BASE_OFFSET : Nat := 24

/-- Modelled from the spec: `OFFSET_MASK` of gba-memory.h, the offset part of an address. -/
def OFFSET_MASK : Nat := 0x00FFFFFF

/-- Modelled from the spec: base address of region 0x2 (WRAM). -/
def BASE_WORKING_RAM : Nat := 0x02000000
/-- Modelled from the spec: base address of region 0x3 (IWRAM). -/
def BASE_WORKING_IRAM : Nat := 0x03000000
/-- Modelled from the spec: base address of region 0x4 (I/O). -/
def BASE_IO : Nat := 0x04000000
/-- Modelled from the spec: base address of region 0x8 (CART0). -/
def BASE_CART0 : Nat := 0x08000000
/-- Modelled from the spec: base address of region 0x9 (CART0 mirror). -/
def BASE_CART0_EX : Nat := 0x09000000
/-- Modelled from the spec: base address of region 0xA (CART1). -/
def BASE_CART1 : Nat := 0x0A000000
/-- Modelled from the spec: base address of region 0xB (CART1 mirror). -/
def BASE_CART1_EX : Nat := 0x0B000000
/-- Modelled from the spec: base address of region 0xC (CART2). -/
def BASE_CART2 : Nat := 0x0C000000
/-- Modelled from the spec: base address of region 0xD (CART2 mirror). -/
def BASE_CART2_EX : Nat := 0x0D000000

/-- Modelled from the spec: WRAM is 256 KiB. -/
def SIZE_WORKING_RAM : Nat := 0x40000
/-- Modelled from the spec: IWRAM is 32 KiB. -/
def SIZE_WORKING_IRAM : Nat := 0x8000
/-- Modelled from the spec: the I/O window is 1 KiB. -/
def SIZE_IO : Nat := 0x400
/-- Modelled from the spec: VRAM is 96 KiB. -/
def SIZE_VRAM : Nat := 0x18000
/-- Modelled from the spec: a cartridge window is 32 MiB. -/
def SIZE_CART0 : Nat := 0x02000000

/-- Modelled from the spec: `REG_DMA0CNT_HI` of gba-io.h (not among the sources), the
offset of the DMA0 control register in the I/O window of the fixed address-space map. -/
def REG_DMA0CNT_HI : Nat := 0xBA
/-- Modelled from the spec: `REG_DMA1CNT_HI` of gba-io.h, the offset of the DMA1 control
register; the control registers of successive channels are 12 bytes apart. -/
def REG_DMA1CNT_HI : Nat := 0xC6

/-- Modelled from the spec: interrupt line of DMA channel 0 (`IRQ_DMA0` of gba.h, not among
the sources); the lines of channels 1 to 3 follow it. -/
def IRQ_DMA0 : Nat := 8
/-- Modelled from the spec: interrupt line of DMA channel 1. -/
def IRQ_DMA1 : Nat := 9
/-- Modelled from the spec: interrupt line of DMA channel 2. -/
def IRQ_DMA2 : Nat := 10
/-- Modelled from the spec: interrupt line of DMA channel 3. -/
def IRQ_DMA3 : Nat := 11

/-- Modelled from the spec: `enum DMATiming`, immediate. -/
def DMA_TIMING_NOW : Nat := 0
/-- Modelled from the spec: `enum DMATiming`, VBlank. -/
def DMA_TIMING_VBLANK : Nat := 1
/-- Modelled from the spec: `enum DMATiming`, HBlank. -/
def DMA_TIMING_HBLANK : Nat := 2
/-- Modelled from the spec: `enum DMATiming`, special. -/
def DMA_TIMING_CUSTOM : Nat := 3
/-- Modelled from the spec: `enum DMAControl`, increment-with-reload. -/
def DMA_INCREMENT_RELOAD : Nat := 3

/-- Table `DMA_OFFSET` of gba-memory.c: `{ 1, -1, 0, 1 }`. -/
def DMA_OFFSET (control : Nat) : Int :=
  if control = 0 then 1 else if control = 1 then -1 else if control = 2 then 0 else 1

/-- Value of `INT_MAX` for a 32-bit `int`. -/
def INT_MAX : Int := 2147483647

/-! ## Machine integers -/

/-- Conversion of a 32-bit pattern to `int32_t`. -/
def toInt32 (u : Nat) : Int :=
  if u % 4294967296 < 2147483648 then (u % 4294967296 : Nat) else (u % 4294967296 : Nat) - 4294967296

/-- Conversion of a 16-bit pattern to `int16_t`. -/
def toInt16 (u : Nat) : Int :=
  if u % 65536 < 32768 then (u % 65536 : Nat) else (u % 65536 : Nat) - 65536

/-- Conversion of an 8-bit pattern to `int8_t`. -/
def toInt8 (u : Nat) : Int :=
  if u % 256 < 128 then (u % 256 : Nat) else (u % 256 : Nat) - 256

/-- Bit pattern of an integer converted to `uint32_t`. -/
def truncate32 (v : Int) : Nat := (v % 4294967296).toNat

/-- Bit pattern of an integer converted to `uint16_t`. -/
def truncate16 (v : Int) : Nat := (v % 65536).toNat

/-- Bit pattern of an integer converted to `uint8_t`. -/
def truncate8 (v : Int) : Nat := (v % 256).toNat

/-- Wrap-around of `int32_t` arithmetic. -/
def wrapInt32 (v : Int) : Int := toInt32 (truncate32 v)

/-! ## Byte buffers -/

/-- Byte buffer: the byte stored at each offset from the start of the buffer. -/
abbrev Buf := Int → Nat

/-- Byte at offset `i`. -/
def loadByte (b : Buf) (i : Int) : Nat := b i % 256

/-- Little-endian halfword at byte offset `i`. -/
def loadHalf (b : Buf) (i : Int) : Nat := loadByte b i + 256 * loadByte b (i + 1)

/-- Little-endian word at byte offset `i`. -/
def loadWord (b : Buf) (i : Int) : Nat :=
  loadByte b i + 256 * loadByte b (i + 1) + 65536 * loadByte b (i + 2)
    + 16777216 * loadByte b (i + 3)

/-- Buffer with the byte at offset `i` replaced by the low byte of `v`. -/
def storeByte (b : Buf) (i : Int) (v : Nat) : Buf := fun j => if j = i then v % 256 else b j

/-- Buffer with the little-endian halfword at byte offset `i` replaced. -/
def storeHalf (b : Buf) (i : Int) (v : Nat) : Buf :=
  storeByte (storeByte b i v) (i + 1) (v / 256)

/-- Buffer with the little-endian word at byte offset `i` replaced. -/
def storeWord (b : Buf) (i : Int) (v : Nat) : Buf :=
  storeByte (storeByte (storeByte (storeByte b i v) (i + 1) (v / 256)) (i + 2) (v / 65536))
    (i + 3) (v / 16777216)

/-! ## Data model -/

/-- Record `struct GBADMA`.  The control bit-fields alias `packed`; they are read through
the accessors below. -/
structure GBADMA where
  packed : Nat
  source : Nat
  dest : Nat
  count : Int
  nextSource : Nat
  nextDest : Nat
  nextCount : Int
  nextIRQ : Int

/-- Modelled from the spec: bit-field `dstControl` of `struct GBADMA` (gba-memory.h is not
among the sources), bits 5-6 of the control word. -/
def GBADMA.dstControl (d : GBADMA) : Nat := d.packed / 32 % 4
/-- Modelled from the spec: bit-field `srcControl`, bits 7-8 of the control word. -/
def GBADMA.srcControl (d : GBADMA) : Nat := d.packed / 128 % 4
/-- Modelled from the spec: bit-field `repeat`, bit 9 of the control word. -/
def GBADMA.repeat_ (d : GBADMA) : Nat := d.packed / 512 % 2
/-- Modelled from the spec: bit-field `width`, bit 10 of the control word. -/
def GBADMA.width (d : GBADMA) : Nat := d.packed / 1024 % 2
/-- Modelled from the spec: bit-field `drq`, bit 11 of the control word. -/
def GBADMA.drq (d : GBADMA) : Nat := d.packed / 2048 % 2
/-- Modelled from the spec: bit-field `timing`, bits 12-13 of the control word. -/
def GBADMA.timing (d : GBADMA) : Nat := d.packed / 4096 % 4
/-- Modelled from the spec: bit-field `doIrq`, bit 14 of the control word. -/
def GBADMA.doIrq (d : GBADMA) : Nat := d.packed / 16384 % 2
/-- Modelled from the spec: bit-field `enable`, bit 15 of the control word. -/
def GBADMA.enable (d : GBADMA) : Nat := d.packed / 32768 % 2

/-- Assignment `info->enable = 0`: bit 15 of the control word is cleared. -/
def GBADMA.clearEnable (d : GBADMA) : GBADMA :=
  { d with packed := d.packed - 32768 * (d.packed / 32768 % 2) }

/-- Record `struct GBAMemory`. -/
structure GBAMemory where
  wram : Buf
  iwram : Buf
  rom : Buf
  io : Nat → Nat
  dma : Fin 4 → GBADMA
  waitstates16 : Nat → Int
  waitstatesSeq16 : Nat → Int
  waitstates32 : Nat → Int
  waitstatesSeq32 : Nat → Int
  activeRegion : Nat
  activePrefetchCycles32 : Int
  activePrefetchCycles16 : Int

/-- Call received by the I/O register file. -/
inductive IOEvent where
  | write16 (address : Nat) (value : Nat)
  | write32 (address : Nat) (value : Nat)

/-- Machine `struct GBA`, as far as the memory subsystem reaches into it.

The register file (gba-io.c), the interrupt controller and the logger are collaborators
outside the sources.  The register file is represented by the list of writes it has
received and by `ioModel`, the value a read returns after a given history; raised
interrupt lines and stub-log calls are appended to `irqs` and `stubs`. -/
structure GBA where
  gprs : Nat → Nat
  cycles : Int
  memory : GBAMemory
  vram : Buf
  ioModel : List IOEvent → Nat → Nat
  ioEvents : List IOEvent
  irqs : List Nat
  halted : Bool
  stubs : List Int
  powfModel : Nat → Nat → Nat → Nat

/-- Collaborator `GBAIORead`: the 16-bit value the register file returns. -/
def GBAIORead (gba : GBA) (address : Nat) : Nat := gba.ioModel gba.ioEvents address % 65536

/-- Collaborator `GBAIOWrite`: a 16-bit register write. -/
def GBAIOWrite (gba : GBA) (address : Nat) (value : Nat) : GBA :=
  { gba with ioEvents := gba.ioEvents ++ [IOEvent.write16 address value] }

/-- Collaborator `GBAIOWrite32`: a 32-bit register write. -/
def GBAIOWrite32 (gba : GBA) (address : Nat) (value : Nat) : GBA :=
  { gba with ioEvents := gba.ioEvents ++ [IOEvent.write32 address value] }

/-- Collaborator `GBARaiseIRQ`. -/
def GBARaiseIRQ (gba : GBA) (irq : Nat) : GBA := { gba with irqs := gba.irqs ++ [irq] }

/-- Collaborator `GBAHalt`. -/
def GBAHalt (gba : GBA) : GBA := { gba with halted := true }

/-! ## Bus access layer (`gba-memory.c`) -/

/-- Switch selector `address & ~OFFSET_MASK`. -/
def regionBase (address : Nat) : Nat := address &&& (0xFFFFFFFF ^^^ OFFSET_MASK)

/-- Test for the six `case BASE_CART*` labels that share one body. -/
def isCart (r : Nat) : Prop :=
  r = BASE_CART0 ∨ r = BASE_CART0_EX ∨ r = BASE_CART1 ∨ r = BASE_CART1_EX ∨ r = BASE_CART2
    ∨ r = BASE_CART2_EX

instance (r : Nat) : Decidable (isCart r) := by unfold isCart; infer_instance

/-- Function `GBALoad32`.  The cases that only `break` fall to the final `0`. -/
def GBALoad32 (gba : GBA) (address : Nat) : Int :=
  if regionBase address = BASE_WORKING_RAM then
    toInt32 (loadWord gba.memory.wram
      ((4 * ((address &&& (SIZE_WORKING_RAM - 1)) >>> 2) : Nat) : Int))
  else if regionBase address = BASE_WORKING_IRAM then
    toInt32 (loadWord gba.memory.iwram
      ((4 * ((address &&& (SIZE_WORKING_IRAM - 1)) >>> 2) : Nat) : Int))
  else if regionBase address = BASE_IO then
    toInt32 (GBAIORead gba (address &&& ( SIZE_IO - 1))
      ||| (GBAIORead gba ((address &&& ( SIZE_IO - 1)) ||| 2) <<< 16))
  else if isCart (regionBase address) then
    toInt32 (loadWord gba.memory.rom ((4 * ((address &&& (SIZE_CART0 - 1)) >>> 2) : Nat) : Int))
  else 0

/-- Function `GBALoad16`. -/
def GBALoad16 (gba : GBA) (address : Nat) : Int :=
  if regionBase address = BASE_WORKING_RAM then
    toInt16 (loadHalf gba.memory.wram
      ((2 * ((address &&& (SIZE_WORKING_RAM - 1)) >>> 1) : Nat) : Int))
  else if regionBase address = BASE_WORKING_IRAM then
    toInt16 (loadHalf gba.memory.iwram
      ((2 * ((address &&& (SIZE_WORKING_IRAM - 1)) >>> 1) : Nat) : Int))
  else if regionBase address = BASE_IO then
    toInt16 (GBAIORead gba (address &&& ( SIZE_IO - 1)))
  else if isCart (regionBase address) then
    toInt16 (loadHalf gba.memory.rom ((2 * ((address &&& (SIZE_CART0 - 1)) >>> 1) : Nat) : Int))
  else 0

/-- Function `GBALoadU16`. -/
def GBALoadU16 (gba : GBA) (address : Nat) : Nat :=
  if regionBase address = BASE_WORKING_RAM then
    loadHalf gba.memory.wram ((2 * ((address &&& (SIZE_WORKING_RAM - 1)) >>> 1) : Nat) : Int)
  else if regionBase address = BASE_WORKING_IRAM then
    loadHalf gba.memory.iwram ((2 * ((address &&& (SIZE_WORKING_IRAM - 1)) >>> 1) : Nat) : Int)
  else if regionBase address = BASE_IO then
    GBAIORead gba (address &&& ( SIZE_IO - 1))
  else if isCart (regionBase address) then
    loadHalf gba.memory.rom ((2 * ((address &&& (SIZE_CART0 - 1)) >>> 1) : Nat) : Int)
  else 0

/-- Function `GBALoad8`.  The I/O case only breaks. -/
def GBALoad8 (gba : GBA) (address : Nat) : Int :=
  if regionBase address = BASE_WORKING_RAM then
    toInt8 (loadByte gba.memory.wram ((address &&& (SIZE_WORKING_RAM - 1) : Nat) : Int))
  else if regionBase address = BASE_WORKING_IRAM then
    toInt8 (loadByte gba.memory.iwram ((address &&& (SIZE_WORKING_IRAM - 1) : Nat) : Int))
  else if isCart (regionBase address) then
    toInt8 (loadByte gba.memory.rom ((address &&& (SIZE_CART0 - 1) : Nat) : Int))
  else 0

/-- Function `GBALoadU8`. -/
def GBALoadU8 (gba : GBA) (address : Nat) : Nat :=
  if regionBase address = BASE_WORKING_RAM then
    loadByte gba.memory.wram ((address &&& (SIZE_WORKING_RAM - 1) : Nat) : Int)
  else if regionBase address = BASE_WORKING_IRAM then
    loadByte gba.memory.iwram ((address &&& (SIZE_WORKING_IRAM - 1) : Nat) : Int)
  else if regionBase address = BASE_IO then
    (GBAIORead gba (address &&& 0xFFFE) >>> ((address &&& 0x0001) <<< 3)) &&& 0xFF
  else if isCart (regionBase address) then
    loadByte gba.memory.rom ((address &&& (SIZE_CART0 - 1) : Nat) : Int)
  else 0

/-- Function `GBAStore32`. -/
def GBAStore32 (gba : GBA) (address : Nat) (value : Int) : GBA :=
  if regionBase address = BASE_WORKING_RAM then
    { gba with memory := { gba.memory with
        wram := storeWord gba.memory.wram
          ((4 * ((address &&& (SIZE_WORKING_RAM - 1)) >>> 2) : Nat) : Int) (truncate32 value) } }
  else if regionBase address = BASE_WORKING_IRAM then
    { gba with memory := { gba.memory with
        iwram := storeWord gba.memory.iwram
          ((4 * ((address &&& (SIZE_WORKING_IRAM - 1)) >>> 2) : Nat) : Int) (truncate32 value) } }
  else if regionBase address = BASE_IO then
    GBAIOWrite32 gba (address &&& ( SIZE_IO - 1)) (truncate32 value)
  else gba

/-- Function `GBAStore16`. -/
def GBAStore16 (gba : GBA) (address : Nat) (value : Int) : GBA :=
  if regionBase address = BASE_WORKING_RAM then
    { gba with memory := { gba.memory with
        wram := storeHalf gba.memory.wram
          ((2 * ((address &&& (SIZE_WORKING_RAM - 1)) >>> 1) : Nat) : Int) (truncate16 value) } }
  else if regionBase address = BASE_WORKING_IRAM then
    { gba with memory := { gba.memory with
        iwram := storeHalf gba.memory.iwram
          ((2 * ((address &&& (SIZE_WORKING_IRAM - 1)) >>> 1) : Nat) : Int) (truncate16 value) } }
  else if regionBase address = BASE_IO then
    GBAIOWrite gba (address &&& ( SIZE_IO - 1)) (truncate16 value)
  else gba

/-- Function `GBAStore8`. -/
def GBAStore8 (gba : GBA) (address : Nat) (value : Int) : GBA :=
  if regionBase address = BASE_WORKING_RAM then
    { gba with memory := { gba.memory with
        wram := storeByte gba.memory.wram
          ((address &&& (SIZE_WORKING_RAM - 1) : Nat) : Int) (truncate8 value) } }
  else if regionBase address = BASE_WORKING_IRAM then
    { gba with memory := { gba.memory with
        iwram := storeByte gba.memory.iwram
          ((address &&& (SIZE_WORKING_IRAM - 1) : Nat) : Int) (truncate8 value) } }
  else gba

/-! ## DMA engine (`gba-memory.c`) -/

/-- Function `GBAMemoryWriteDMASAD`. -/
def GBAMemoryWriteDMASAD (gba : GBA) (dma : Fin 4) (address : Nat) : GBA :=
  { gba with memory := { gba.memory with
      dma := Function.update gba.memory.dma dma
        { gba.memory.dma dma with source := address &&& 0xFFFFFFFE } } }

/-- Function `GBAMemoryWriteDMADAD`. -/
def GBAMemoryWriteDMADAD (gba : GBA) (dma : Fin 4) (address : Nat) : GBA :=
  { gba with memory := { gba.memory with
      dma := Function.update gba.memory.dma dma
        { gba.memory.dma dma with dest := address &&& 0xFFFFFFFE } } }

/-- Function `GBAMemoryWriteDMACNT_LO`; `count` is a `uint16_t`. -/
def GBAMemoryWriteDMACNT_LO (gba : GBA) (dma : Fin 4) (count : Nat) : GBA :=
  { gba with memory := { gba.memory with
      dma := Function.update gba.memory.dma dma
        { gba.memory.dma dma with
          count := if count % 65536 ≠ 0 then ((count % 65536 : Nat) : Int)
                   else (if dma.val = 3 then 0x10000 else 0x4000) } } }

/-- Number of times the body of `while (wordsRemaining--)` runs: the loop stops when the
counter reads zero, so a non-negative counter gives that many rounds; a negative
counter is taken to wrap around as a 32-bit integer. -/
def dmaIterations (wordsRemaining : Int) : Nat := truncate32 wordsRemaining

/-- One round of the 32-bit transfer loop of `GBAMemoryServiceDMA`, on the triple
(machine, source cursor, destination cursor). -/
def dmaStep32 (sourceOffset destOffset : Int) (s : GBA × Nat × Nat) : GBA × Nat × Nat :=
  (GBAStore32 s.1 s.2.2 (GBALoad32 s.1 s.2.1),
   truncate32 ((s.2.1 : Int) + sourceOffset), truncate32 ((s.2.2 : Int) + destOffset))

/-- One round of the 16-bit transfer loop of `GBAMemoryServiceDMA`. -/
def dmaStep16 (sourceOffset destOffset : Int) (s : GBA × Nat × Nat) : GBA × Nat × Nat :=
  (GBAStore16 s.1 s.2.2 (GBALoadU16 s.1 s.2.1 : Nat),
   truncate32 ((s.2.1 : Int) + sourceOffset), truncate32 ((s.2.2 : Int) + destOffset))

/-- Transfer loops of `GBAMemoryServiceDMA` (lines 548-566): machine and cursors after
the loop. -/
def dmaTransfer (gba : GBA) (info : GBADMA) : GBA × Nat × Nat :=
  let width : Nat := if info.width ≠ 0 then 4 else 2
  let sourceOffset : Int := DMA_OFFSET info.srcControl * width
  let destOffset : Int := DMA_OFFSET info.dstControl * width
  if width = 4 then
    (dmaStep32 sourceOffset destOffset)^[dmaIterations info.nextCount]
      (gba, info.nextSource &&& 0xFFFFFFFC, info.nextDest &&& 0xFFFFFFFC)
  else
    (dmaStep16 sourceOffset destOffset)^[dmaIterations info.nextCount]
      (gba, info.nextSource, info.nextDest)

/-- Completion delay stored into `nextIRQ` (lines 569-573). -/
def dmaNextIRQ (gba : GBA) (info : GBADMA) : Int :=
  let sourceRegion := info.nextSource >>> BASE_OFFSET
  let destRegion := info.nextDest >>> BASE_OFFSET
  if info.width ≠ 0 then
    wrapInt32 (gba.cycles + 2
      + (gba.memory.waitstates32 sourceRegion + gba.memory.waitstates32 destRegion)
      + (info.count - 1)
        * (gba.memory.waitstatesSeq32 sourceRegion + gba.memory.waitstatesSeq32 destRegion))
  else
    wrapInt32 (gba.cycles + 2
      + (gba.memory.waitstates16 sourceRegion + gba.memory.waitstates16 destRegion)
      + (info.count - 1)
        * (gba.memory.waitstatesSeq16 sourceRegion + gba.memory.waitstatesSeq16 destRegion))

/-- Function `GBAMemoryScheduleDMA`, with the service routine it dispatches to as a
parameter.  The special-timing cases only log or do nothing. -/
def GBAMemoryScheduleDMA (service : GBA → Fin 4 → Option GBA) (gba : GBA) (number : Fin 4)
    (info : GBADMA) : Option GBA :=
  if info.timing = DMA_TIMING_NOW then service gba number else some gba

/-- Function `GBAMemoryServiceDMA`.  A repeating channel with immediate timing is
scheduled again from inside the routine, so the embedding carries fuel for the nested
calls: `none` means the fuel ran out before the call chain returned.  In the
non-repeat branch the counter left by `while (wordsRemaining--)` is `-1`. -/
def GBAMemoryServiceDMA : Nat → GBA → Fin 4 → Option GBA
  | 0, _, _ => none
  | fuel + 1, gba, number =>
    let info := gba.memory.dma number
    if info.enable = 0 then some gba
    else
      let r := dmaTransfer gba info
      let gba1 := r.1
      let info1 : GBADMA :=
        { info with
          nextIRQ := if info.doIrq ≠ 0 then dmaNextIRQ gba1 info else info.nextIRQ
          nextSource := r.2.1
          nextDest := r.2.2
          nextCount := -1 }
      if info1.repeat_ = 0 then
        let idx := (REG_DMA0CNT_HI + number.val * (REG_DMA1CNT_HI - REG_DMA0CNT_HI)) >>> 1
        some { gba1 with memory := { gba1.memory with
                dma := Function.update gba1.memory.dma number info1.clearEnable
                io := Function.update gba1.memory.io idx (gba1.memory.io idx &&& 0x7FE0) } }
      else
        let info2 : GBADMA :=
          { info1 with
            nextCount := info1.count
            nextDest := if info1.dstControl = DMA_INCREMENT_RELOAD then info1.dest
                        else info1.nextDest }
        GBAMemoryScheduleDMA (GBAMemoryServiceDMA fuel)
          { gba1 with memory := { gba1.memory with
              dma := Function.update gba1.memory.dma number info2 } } number info2

/-- Function `GBAMemoryWriteDMACNT_HI`: the machine after the write and the returned
control word; `none` when the service it triggers does not return within the fuel.
The stub log of a set `drq` bit is recorded in `stubs`. -/
def GBAMemoryWriteDMACNT_HI (fuel : Nat) (gba : GBA) (dma : Fin 4) (control : Nat) :
    Option (GBA × Nat) :=
  let currentDma := gba.memory.dma dma
  let wasEnabled := currentDma.enable
  let dma1 : GBADMA := { currentDma with packed := control % 65536, nextIRQ := 0 }
  let gba1 : GBA :=
    { gba with
      memory := { gba.memory with dma := Function.update gba.memory.dma dma dma1 }
      stubs := if dma1.drq ≠ 0 then gba.stubs ++ [-1] else gba.stubs }
  if wasEnabled = 0 ∧ dma1.enable ≠ 0 then
    let dma2 : GBADMA :=
      { dma1 with nextSource := dma1.source, nextDest := dma1.dest, nextCount := dma1.count }
    let gba2 : GBA :=
      { gba1 with memory := { gba1.memory with dma := Function.update gba1.memory.dma dma dma2 } }
    match GBAMemoryScheduleDMA (GBAMemoryServiceDMA fuel) gba2 dma dma2 with
    | none => none
    | some gba3 => some (gba3, (gba3.memory.dma dma).packed)
  else some (gba1, (gba1.memory.dma dma).packed)

/-- One of the four per-channel blocks of `GBAMemoryProcessEvents` (lines 405-447), on
the pair (machine, `test`). -/
def processChannel (cycles : Int) (number : Fin 4) (irq : Nat) (s : GBA × Int) : GBA × Int :=
  let dma := s.1.memory.dma number
  let nextIRQ := wrapInt32 (dma.nextIRQ - cycles)
  let setIRQ (v : Int) : GBA :=
    { s.1 with memory := { s.1.memory with
        dma := Function.update s.1.memory.dma number { dma with nextIRQ := v } } }
  if dma.enable ≠ 0 ∧ dma.doIrq ≠ 0 ∧ nextIRQ ≠ 0 then
    if nextIRQ ≤ 0 then (GBARaiseIRQ (setIRQ INT_MAX) irq, s.2)
    else if nextIRQ < s.2 then (setIRQ nextIRQ, nextIRQ)
    else (setIRQ nextIRQ, s.2)
  else (setIRQ nextIRQ, s.2)

/-- Function `GBAMemoryProcessEvents`: the machine afterwards and the returned horizon. -/
def GBAMemoryProcessEvents (gba : GBA) (cycles : Int) : GBA × Int :=
  processChannel cycles 3 IRQ_DMA3
    (processChannel cycles 2 IRQ_DMA2
      (processChannel cycles 1 IRQ_DMA1
        (processChannel cycles 0 IRQ_DMA0 (gba, INT_MAX))))

/-! ## BIOS HLE (`gba-bios.c`) -/

/-- Fill loop `for (i = 0; i < count; ++i) GBAStore32(dest + (i << 2), word)`. -/
def fillLoop32 (dest : Nat) (word : Int) (count : Nat) (gba : GBA) : GBA :=
  (List.range count).foldl (fun g i => GBAStore32 g ((dest + (i <<< 2)) % 4294967296) word) gba

/-- Fill loop `for (i = 0; i < count; ++i) GBAStore16(dest + (i << 1), word)`. -/
def fillLoop16 (dest : Nat) (word : Nat) (count : Nat) (gba : GBA) : GBA :=
  (List.range count).foldl
    (fun g i => GBAStore16 g ((dest + (i <<< 1)) % 4294967296) (word : Nat)) gba

/-- Copy loop of `int32_t` elements: each round loads from `source + (i << 2)` and stores
to `dest + (i << 2)`. -/
def copyLoop32 (source dest : Nat) (count : Nat) (gba : GBA) : GBA :=
  (List.range count).foldl
    (fun g i => GBAStore32 g ((dest + (i <<< 2)) % 4294967296)
      (GBALoad32 g ((source + (i <<< 2)) % 4294967296))) gba

/-- Copy loop of `uint16_t` elements: each round loads from `source + (i << 1)` with
`GBALoad16` into a `uint16_t` and stores to `dest + (i << 1)`. -/
def copyLoop16 (source dest : Nat) (count : Nat) (gba : GBA) : GBA :=
  (List.range count).foldl
    (fun g i => GBAStore16 g ((dest + (i <<< 1)) % 4294967296)
      (truncate16 (GBALoad16 g ((source + (i <<< 1)) % 4294967296)) : Nat)) gba

/-- Function `_CpuSet`. -/
def _CpuSet (gba : GBA) : GBA :=
  let source := gba.gprs 0
  let dest := gba.gprs 1
  let mode := gba.gprs 2
  let count := mode &&& 0x000FFFFF
  let fill := mode &&& 0x01000000
  let wordsize : Nat := if mode &&& 0x04000000 ≠ 0 then 4 else 2
  if fill ≠ 0 then
    if wordsize = 4 then
      fillLoop32 (dest &&& 0xFFFFFFFC) (GBALoad32 gba (source &&& 0xFFFFFFFC)) count gba
    else
      fillLoop16 (dest &&& 0xFFFFFFFE) (truncate16 (GBALoad16 gba (source &&& 0xFFFFFFFE)))
        count gba
  else
    if wordsize = 4 then
      copyLoop32 (source &&& 0xFFFFFFFC) (dest &&& 0xFFFFFFFC) count gba
    else
      copyLoop16 (source &&& 0xFFFFFFFE) (dest &&& 0xFFFFFFFE) count gba

/-- Function `_FastCpuSet`. -/
def _FastCpuSet (gba : GBA) : GBA :=
  let source := gba.gprs 0 &&& 0xFFFFFFFC
  let dest := gba.gprs 1 &&& 0xFFFFFFFC
  let mode := gba.gprs 2
  let count := (((mode &&& 0x000FFFFF) + 7) >>> 3) <<< 3
  if mode &&& 0x01000000 ≠ 0 then
    fillLoop32 dest (GBALoad32 gba source) count gba
  else
    copyLoop32 source dest count gba

/-- Function `_MidiKey2Freq`.  The single-precision expression is not computed here: its
value is supplied by `powfModel` from the key and the two register arguments. -/
def _MidiKey2Freq (gba : GBA) : GBA :=
  let key := truncate32 (GBALoad32 gba ((gba.gprs 0 + 4) % 4294967296))
  { gba with gprs := Function.update gba.gprs 0 (gba.powfModel key (gba.gprs 1) (gba.gprs 2)) }

/-- Buffer a destination pointer of `_unLz77` points into: `gba->memory.wram` for SWI 0x11,
`gba->video.vram` for SWI 0x12. -/
inductive LzTarget where
  | wram
  | vram

/-- Read `*p` of a pointer into the destination buffer. -/
def lzLoad (gba : GBA) (t : LzTarget) (p : Int) : Nat :=
  match t with
  | LzTarget.wram => loadByte gba.memory.wram p
  | LzTarget.vram => loadByte gba.vram p

/-- Write `*p = v` through a pointer into the destination buffer. -/
def lzStore (gba : GBA) (t : LzTarget) (p : Int) (v : Nat) : GBA :=
  match t with
  | LzTarget.wram => { gba with memory := { gba.memory with wram := storeByte gba.memory.wram p v } }
  | LzTarget.vram => { gba with vram := storeByte gba.vram p v }

/-- Locals of `_unLz77` that live across rounds of its outer loop. -/
structure LzState where
  gba : GBA
  sPointer : Nat
  dPointer : Int
  remaining : Nat
  blockheader : Nat
  blocksRemaining : Nat

/-- Inner loop `while (bytes-- && remaining)` of `_unLz77` (lines 126-131): the machine,
`dPointer` and `remaining` afterwards. -/
def lzCopy (t : LzTarget) : Nat → GBA → Int → Int → Nat → GBA × Int × Nat
  | 0, gba, _, dPointer, remaining => (gba, dPointer, remaining)
  | bytes + 1, gba, disp, dPointer, remaining =>
    if remaining = 0 then (gba, dPointer, remaining)
    else lzCopy t bytes (lzStore gba t dPointer (lzLoad gba t disp)) (disp + 1) (dPointer + 1)
      (remaining - 1)

/-- Body of the outer loop of `_unLz77` (lines 119-143). -/
def lzStep (t : LzTarget) (s : LzState) : LzState :=
  if s.blocksRemaining ≠ 0 then
    if s.blockheader &&& 0x80 ≠ 0 then
      let block := GBALoadU8 s.gba s.sPointer
        ||| (GBALoadU8 s.gba ((s.sPointer + 1) % 4294967296) <<< 8)
      let disp : Int :=
        s.dPointer - ((((block &&& 0x000F) <<< 8) ||| ((block &&& 0xFF00) >>> 8) : Nat) : Int) - 1
      let bytes := ((block &&& 0x00F0) >>> 4) + 3
      let r := lzCopy t bytes s.gba disp s.dPointer s.remaining
      { gba := r.1
        sPointer := (s.sPointer + 2) % 4294967296
        dPointer := r.2.1
        remaining := r.2.2
        blockheader := s.blockheader <<< 1
        blocksRemaining := s.blocksRemaining - 1 }
    else
      { gba := lzStore s.gba t s.dPointer (GBALoadU8 s.gba s.sPointer)
        sPointer := (s.sPointer + 1) % 4294967296
        dPointer := s.dPointer + 1
        remaining := s.remaining - 1
        blockheader := s.blockheader <<< 1
        blocksRemaining := s.blocksRemaining - 1 }
  else
    { s with
      blockheader := GBALoadU8 s.gba s.sPointer
      sPointer := (s.sPointer + 1) % 4294967296
      blocksRemaining := 8 }

/-- Outer loop `while (remaining > 0)` of `_unLz77`, run for at most `fuel` rounds. -/
def lzLoop (t : LzTarget) : Nat → LzState → LzState
  | 0, s => s
  | fuel + 1, s => if s.remaining > 0 then lzLoop t fuel (lzStep t s) else s

/-- Locals of `_unLz77` when its outer loop starts (lines 109-114). -/
def lzInit (gba : GBA) (source : Nat) (dest : Int) : LzState :=
  { gba := gba
    sPointer := (source + 4) % 4294967296
    dPointer := dest
    remaining := (truncate32 (GBALoad32 gba source) &&& 0xFFFFFF00) >>> 8
    blockheader := 0
    blocksRemaining := 0 }

/-- Locals of `_unLz77` when its outer loop ends.  The loop is given `2 * remaining`
rounds: every second round at least writes one byte, so the loop always leaves
through its own condition (`lzLoop_spec`). -/
def unLz77Final (gba : GBA) (source : Nat) (t : LzTarget) (dest : Int) : LzState :=
  lzLoop t (2 * (lzInit gba source dest).remaining) (lzInit gba source dest)

/-- Function `_unLz77`; `dest` is the offset of the destination pointer inside buffer `t`. -/
def _unLz77 (gba : GBA) (source : Nat) (t : LzTarget) (dest : Int) : GBA :=
  (unLz77Final gba source t dest).gba

/-- Function `GBASwi16`. -/
def GBASwi16 (gba : GBA) (immediate : Int) : GBA :=
  if immediate = 0x2 then GBAHalt gba
  else if immediate = 0xB then _CpuSet gba
  else if immediate = 0xC then _FastCpuSet gba
  else if immediate = 0x11 then
    _unLz77 gba (gba.gprs 0) LzTarget.wram ((gba.gprs 1 &&& (SIZE_WORKING_RAM - 1) : Nat) : Int)
  else if immediate = 0x12 then
    _unLz77 gba (gba.gprs 0) LzTarget.vram ((gba.gprs 1 &&& (SIZE_VRAM - 1) : Nat) : Int)
  else if immediate = 0x1F then _MidiKey2Freq gba
  else { gba with stubs := gba.stubs ++ [immediate] }

/-! ## Fixtures for the concrete scenarios -/

/-- Buffer holding the listed bytes from offset 0 on and zero elsewhere. -/
def bufOfList (l : List Nat) : Buf := fun i => if 0 ≤ i then l.getD i.toNat 0 else 0

/-- Machine with zeroed RAM, no DMA programmed, and the given cartridge image. -/
def blankGBA (rom : Buf) : GBA :=
  { gprs := fun _ => 0
    cycles := 0
    memory :=
      { wram := fun _ => 0
        iwram := fun _ => 0
        rom := rom
        io := fun _ => 0
        dma := fun _ =>
          { packed := 0, source := 0, dest := 0, count := 0, nextSource := 0, nextDest := 0,
            nextCount := 0, nextIRQ := 0 }
        waitstates16 := fun _ => 0
        waitstatesSeq16 := fun _ => 0
        waitstates32 := fun _ => 0
        waitstatesSeq32 := fun _ => 0
        activeRegion := 0
        activePrefetchCycles32 := 0
        activePrefetchCycles16 := 0 }
    vram := fun _ => 0
    ioModel := fun _ _ => 0
    ioEvents := []
    irqs := []
    halted := false
    stubs := []
    powfModel := fun _ _ _ => 0 }

/-- Machine `gba` with CPU registers r0, r1, r2 set. -/
def withRegs (gba : GBA) (r0 r1 r2 : Nat) : GBA :=
  { gba with gprs := fun i => if i = 0 then r0 else if i = 1 then r1 else if i = 2 then r2
                              else gba.gprs i }

/-! ## Vocabulary of the statements -/

/-- The two RAM buffers the bus can write. -/
inductive RamBank where
  | wram
  | iwram

/-- Value of `address & ~OFFSET_MASK` that selects the bank. -/
def RamBank.base : RamBank → Nat
  | RamBank.wram => BASE_WORKING_RAM
  | RamBank.iwram => BASE_WORKING_IRAM

/-- Size of the bank in bytes. -/
def RamBank.size : RamBank → Nat
  | RamBank.wram => SIZE_WORKING_RAM
  | RamBank.iwram => SIZE_WORKING_IRAM

/-- Buffer of the bank in a machine. -/
def RamBank.buf : RamBank → GBA → Buf
  | RamBank.wram, gba => gba.memory.wram
  | RamBank.iwram, gba => gba.memory.iwram

/-- Machine with the buffer of the bank replaced. -/
def RamBank.setBuf : RamBank → GBA → Buf → GBA
  | RamBank.wram, gba, b => { gba with memory := { gba.memory with wram := b } }
  | RamBank.iwram, gba, b => { gba with memory := { gba.memory with iwram := b } }

/-- Address `a` decodes to the bank: its region tag is the bank's. -/
def RamBank.holds (k : RamBank) (a : Nat) : Prop := regionBase a = k.base

instance (k : RamBank) (a : Nat) : Decidable (k.holds a) := by unfold RamBank.holds; infer_instance

/-- Machine of scenario 3: zeroed RAM except the word 0xAA55AA55 at IWRAM offset 0,
r0 = 0x03000000, r1 = 0x03000100 and the given r2. -/
def cpuSetFillGBA (r2 : Nat) : GBA :=
  withRegs
    { blankGBA (fun _ => 0) with
      memory := { (blankGBA (fun _ => 0)).memory with iwram := bufOfList [0x55, 0xAA, 0x55, 0xAA] } }
    0x03000000 0x03000100 r2

/-- Address the bus reads from a buffer: WRAM, IWRAM or one of the cartridge windows. -/
@[reducible] def Readable (a : Nat) : Prop :=
  RamBank.wram.holds a ∨ RamBank.iwram.holds a ∨ isCart (regionBase a)

/-- Machine for the CpuSet copy scenario: WRAM starts with the bytes 1 .. 16, r0 = 0x02000000,
r1 = 0x03000040 and the given r2. -/
def cpuSetCopyGBA (r2 : Nat) : GBA :=
  withRegs
    { blankGBA (fun _ => 0) with
      memory := { (blankGBA (fun _ => 0)).memory with
        wram := bufOfList [1, 2, 3, 4, 5, 6, 7, 8, 9, 10, 11, 12, 13, 14, 15, 16] } }
    0x02000000 0x03000040 r2

/-- Machine with DMA channel 3 programmed as in scenario 5 (source 0x08000000, dest
0x02000000, count 4) and its control word already holding `control`; the cartridge
holds the bytes 1 .. 16. -/
def dma3GBA (control : Nat) : GBA :=
  { blankGBA (bufOfList [1, 2, 3, 4, 5, 6, 7, 8, 9, 10, 11, 12, 13, 14, 15, 16]) with
    memory := { (blankGBA (bufOfList [1, 2, 3, 4, 5, 6, 7, 8, 9, 10, 11, 12, 13, 14, 15, 16])).memory with
      io := fun _ => 0xFFFF
      dma := fun i =>
        if i = 3 then
          { packed := control, source := 0x08000000, dest := 0x02000000, count := 4,
            nextSource := 0x08000000, nextDest := 0x02000000, nextCount := 4, nextIRQ := 0 }
        else
          { packed := 0, source := 0, dest := 0, count := 0, nextSource := 0, nextDest := 0,
            nextCount := 0, nextIRQ := 0 } } }

/-- Record of channel `dma` when `GBAMemoryWriteDMACNT_HI` latches the cursors (lines
467-477): the control word is stored, `nextIRQ` is cleared and the cursors are loaded
from the programmed values. -/
def latchedDMA (gba : GBA) (dma : Fin 4) (control : Nat) : GBADMA :=
  { gba.memory.dma dma with
    packed := control % 65536
    nextIRQ := 0
    nextSource := (gba.memory.dma dma).source
    nextDest := (gba.memory.dma dma).dest
    nextCount := (gba.memory.dma dma).count }

/-- Machine at the call of `GBAMemoryScheduleDMA` inside `GBAMemoryWriteDMACNT_HI`. -/
def latchedGBA (gba : GBA) (dma : Fin 4) (control : Nat) : GBA :=
  { gba with
    memory := { gba.memory with
      dma := Function.update gba.memory.dma dma (latchedDMA gba dma control) }
    stubs := if control % 65536 / 2048 % 2 ≠ 0 then gba.stubs ++ [-1] else gba.stubs }

/-- Machine after successive `GBAMemoryProcessEvents` calls with the listed cycle counts. -/
def runEvents (cycles : List Int) (gba : GBA) : GBA :=
  cycles.foldl (fun g c => (GBAMemoryProcessEvents g c).1) gba

/-- Interrupt line of DMA channel `n`. -/
def irqOfChannel (n : Fin 4) : Nat := IRQ_DMA0 + n.val

/-- Buffer of an `_unLz77` destination in a machine. -/
def LzTarget.buf : LzTarget → GBA → Buf
  | LzTarget.wram, gba => gba.memory.wram
  | LzTarget.vram, gba => gba.vram

/-- Machine with the buffer of an `_unLz77` destination replaced. -/
def LzTarget.setBuf : LzTarget → GBA → Buf → GBA
  | LzTarget.wram, gba, b => { gba with memory := { gba.memory with wram := b } }
  | LzTarget.vram, gba, b => { gba with vram := b }

/-- Size in bytes of the buffer of an `_unLz77` destination: the masks `GBASwi16` applies
to r1 are `SIZE_WORKING_RAM - 1` and `SIZE_VRAM - 1`. -/
def LzTarget.size : LzTarget → Nat
  | LzTarget.wram => SIZE_WORKING_RAM
  | LzTarget.vram => SIZE_VRAM

/-- Upper bound on the rounds the outer loop of `_unLz77` still runs: none when nothing
remains, else two per remaining byte, less one when a flag byte is already loaded. -/
def lzRounds (s : LzState) : Nat :=
  if s.remaining = 0 then 0
  else if s.blocksRemaining = 0 then 2 * s.remaining else 2 * s.remaining - 1

/-- Machine for the LZ77 scenarios: zeroed RAM, the given cartridge bytes, r0 = 0x08000000
and the given r1. -/
def lzGBA (rom : List Nat) (r1 : Nat) : GBA := withRegs (blankGBA (bufOfList rom)) 0x08000000 r1 0

/-- Invariant of `_unLz77` on a literal-only stream for output `b` at `r0`, after `k`
bytes are written: the locals are where the layout of the stream puts them, and the
destination holds `b[0..k)` and is otherwise as in the initial machine `gba0`. -/
def LitInv (gba0 : GBA) (r0 : Nat) (t : LzTarget) (dest : Int) (b : List Nat) (s : LzState)
    (k : Nat) : Prop :=
  k ≤ b.length ∧ s.remaining = b.length - k ∧ s.dPointer = dest + (k : Int) ∧
  ((s.blocksRemaining = 0 ∧ k % 8 = 0 ∧ s.sPointer = (r0 + 4 + 9 * (k / 8)) % 4294967296) ∨
    (0 < s.blocksRemaining ∧ s.blocksRemaining + k % 8 = 8 ∧ s.blockheader = 0 ∧
      s.sPointer = (r0 + 4 + (9 * (k / 8) + 1 + k % 8)) % 4294967296)) ∧
  s.gba = t.setBuf gba0 (t.buf s.gba) ∧
  (∀ x : Int, (x < dest ∨ dest + (k : Int) ≤ x) → t.buf s.gba x = t.buf gba0 x) ∧
  (∀ j, j < k → loadByte (t.buf s.gba) (dest + (j : Int)) = b.getD j 0)

/-- Table `GBA_BASE_WAITSTATES` of gba-memory.c; the sixteenth entry has no initialiser. -/
def GBA_BASE_WAITSTATES (i : Nat) : Int :=
  ([0, 0, 2, 0, 0, 0, 0, 0, 4, 4, 4, 4, 4, 4, 4, 0] : List Int).getD i 0

/-- Table `GBA_BASE_WAITSTATES_SEQ` of gba-memory.c; the sixteenth entry has no initialiser. -/
def GBA_BASE_WAITSTATES_SEQ (i : Nat) : Int :=
  ([0, 0, 2, 0, 0, 0, 0, 0, 2, 2, 4, 4, 8, 8, 4, 0] : List Int).getD i 0

/-- Table `GBA_ROM_WAITSTATES` of gba-memory.c. -/
def GBA_ROM_WAITSTATES (i : Nat) : Int := ([4, 3, 2, 8] : List Int).getD i 0

/-- Table `GBA_ROM_WAITSTATES_SEQ` of gba-memory.c. -/
def GBA_ROM_WAITSTATES_SEQ (i : Nat) : Int := ([2, 1, 4, 1, 8, 1] : List Int).getD i 0

/-- Modelled from the spec: region tag of CART0 (`REGION_CART0` of gba-memory.h, not among
the sources). -/
def REGION_CART0 : Nat := 0x8
/-- Modelled from the spec: region tag of the CART0 mirror. -/
def REGION_CART0_EX : Nat := 0x9
/-- Modelled from the spec: region tag of CART1. -/
def REGION_CART1 : Nat := 0xA
/-- Modelled from the spec: region tag of the CART1 mirror. -/
def REGION_CART1_EX : Nat := 0xB
/-- Modelled from the spec: region tag of CART2. -/
def REGION_CART2 : Nat := 0xC
/-- Modelled from the spec: region tag of the CART2 mirror. -/
def REGION_CART2_EX : Nat := 0xD
/-- Modelled from the spec: region tag of the cartridge SRAM. -/
def REGION_CART_SRAM : Nat := 0xE

/-- Record all of whose fields are zero, as `memset` leaves a `struct GBADMA`. -/
def zeroDMA : GBADMA :=
  { packed := 0, source := 0, dest := 0, count := 0, nextSource := 0, nextDest := 0,
    nextCount := 0, nextIRQ := 0 }

/-- Function `GBAMemoryInit`, on the fields of the embedding.  Both `mmap` calls are taken
to succeed and give zero-filled buffers; the cleared ROM pointer is represented by the
all-zero image.  Entries of the four tables from 256 on are not part of the C arrays and
are left as they are. -/
def GBAMemoryInit (memory : GBAMemory) : GBAMemory :=
  { memory with
    wram := fun _ => 0
    iwram := fun _ => 0
    rom := fun _ => 0
    io := fun _ => 0
    dma := fun _ => zeroDMA
    waitstates16 := fun i =>
      if i < 16 then GBA_BASE_WAITSTATES i else if i < 256 then 0 else memory.waitstates16 i
    waitstatesSeq16 := fun i =>
      if i < 16 then GBA_BASE_WAITSTATES_SEQ i else if i < 256 then 0
      else memory.waitstatesSeq16 i
    waitstates32 := fun i =>
      if i < 16 then GBA_BASE_WAITSTATES i + GBA_BASE_WAITSTATES_SEQ i + 1
      else if i < 256 then 0 else memory.waitstates32 i
    waitstatesSeq32 := fun i =>
      if i < 16 then GBA_BASE_WAITSTATES_SEQ i + GBA_BASE_WAITSTATES_SEQ i + 1
      else if i < 256 then 0 else memory.waitstatesSeq32 i
    activeRegion := 0
    activePrefetchCycles32 := 0
    activePrefetchCycles16 := 0 }

/-- Function `GBAAdjustWaitstates`; `parameters` is a `uint16_t`.  The assignments are made
in the order of the source, a chained assignment `a[x] = a[y] = v` writing `a[y]` first. -/
def GBAAdjustWaitstates (memory : GBAMemory) (parameters : Nat) : GBAMemory :=
  let sram := parameters &&& 0x0003
  let ws0 := (parameters &&& 0x000C) >>> 2
  let ws0seq := (parameters &&& 0x0010) >>> 4
  let ws1 := (parameters &&& 0x0060) >>> 5
  let ws1seq := (parameters &&& 0x0080) >>> 7
  let ws2 := (parameters &&& 0x0300) >>> 8
  let ws2seq := (parameters &&& 0x0400) >>> 10
  let w16a := Function.update memory.waitstates16 REGION_CART_SRAM (GBA_ROM_WAITSTATES sram)
  let s16a := Function.update memory.waitstatesSeq16 REGION_CART_SRAM (GBA_ROM_WAITSTATES sram)
  let w32a := Function.update memory.waitstates32 REGION_CART_SRAM
    (2 * GBA_ROM_WAITSTATES sram + 1)
  let s32a := Function.update memory.waitstatesSeq32 REGION_CART_SRAM
    (2 * GBA_ROM_WAITSTATES sram + 1)
  let w16b := Function.update (Function.update w16a REGION_CART0_EX (GBA_ROM_WAITSTATES ws0))
    REGION_CART0 (GBA_ROM_WAITSTATES ws0)
  let w16c := Function.update (Function.update w16b REGION_CART1_EX (GBA_ROM_WAITSTATES ws1))
    REGION_CART1 (GBA_ROM_WAITSTATES ws1)
  let w16 := Function.update (Function.update w16c REGION_CART2_EX (GBA_ROM_WAITSTATES ws2))
    REGION_CART2 (GBA_ROM_WAITSTATES ws2)
  let s16b := Function.update
    (Function.update s16a REGION_CART0_EX (GBA_ROM_WAITSTATES_SEQ ws0seq))
    REGION_CART0 (GBA_ROM_WAITSTATES_SEQ ws0seq)
  let s16c := Function.update
    (Function.update s16b REGION_CART1_EX (GBA_ROM_WAITSTATES_SEQ (ws1seq + 2)))
    REGION_CART1 (GBA_ROM_WAITSTATES_SEQ (ws1seq + 2))
  let s16 := Function.update
    (Function.update s16c REGION_CART2_EX (GBA_ROM_WAITSTATES_SEQ (ws2seq + 4)))
    REGION_CART2 (GBA_ROM_WAITSTATES_SEQ (ws2seq + 4))
  let w32b := Function.update
    (Function.update w32a REGION_CART0_EX (w16 REGION_CART0 + 1 + s16 REGION_CART0))
    REGION_CART0 (w16 REGION_CART0 + 1 + s16 REGION_CART0)
  let w32c := Function.update
    (Function.update w32b REGION_CART1_EX (w16 REGION_CART1 + 1 + s16 REGION_CART1))
    REGION_CART1 (w16 REGION_CART1 + 1 + s16 REGION_CART1)
  let w32 := Function.update
    (Function.update w32c REGION_CART2_EX (w16 REGION_CART2 + 1 + s16 REGION_CART2))
    REGION_CART2 (w16 REGION_CART2 + 1 + s16 REGION_CART2)
  let s32b := Function.update
    (Function.update s32a (REGION_CART0 + 1) (2 * s16 REGION_CART0 + 1))
    REGION_CART0 (2 * s16 REGION_CART0 + 1)
  let s32c := Function.update
    (Function.update s32b (REGION_CART1 + 1) (2 * s16 REGION_CART1 + 1))
    REGION_CART1 (2 * s16 REGION_CART1 + 1)
  let s32 := Function.update
    (Function.update s32c (REGION_CART2 + 1) (2 * s16 REGION_CART2 + 1))
    REGION_CART2 (2 * s16 REGION_CART2 + 1)
  { memory with
    waitstates16 := w16
    waitstatesSeq16 := s16
    waitstates32 := w32
    waitstatesSeq32 := s32
    activePrefetchCycles32 := w32 memory.activeRegion
    activePrefetchCycles16 := w16 memory.activeRegion }

/-- Function `GBASwi32`.  The body calls `GBASwi32` again, so the embedding carries fuel
for the nested calls: `none` means the fuel ran out before the call chain returned. -/
def GBASwi32 : Nat → GBA → Int → Option GBA
  | 0, _, _ => none
  | fuel + 1, gba, immediate => GBASwi32 fuel gba (immediate >>> 16)

/-- Loop body shared by `GBAMemoryRunHblankDMAs` and `GBAMemoryRunVblankDMAs`: channel `i`
is serviced when it is enabled with the given timing. -/
def runTimedDMA (fuel : Nat) (timing : Nat) (i : Fin 4) (gba : Option GBA) : Option GBA :=
  match gba with
  | none => none
  | some g =>
    if (g.memory.dma i).enable ≠ 0 ∧ (g.memory.dma i).timing = timing then
      GBAMemoryServiceDMA fuel g i
    else some g

/-- Function `GBAMemoryRunHblankDMAs`. -/
def GBAMemoryRunHblankDMAs (fuel : Nat) (gba : GBA) : Option GBA :=
  runTimedDMA fuel DMA_TIMING_HBLANK 3
    (runTimedDMA fuel DMA_TIMING_HBLANK 2
      (runTimedDMA fuel DMA_TIMING_HBLANK 1
        (runTimedDMA fuel DMA_TIMING_HBLANK 0 (some gba))))

/-- Function `GBAMemoryRunVblankDMAs`. -/
def GBAMemoryRunVblankDMAs (fuel : Nat) (gba : GBA) : Option GBA :=
  runTimedDMA fuel DMA_TIMING_VBLANK 3
    (runTimedDMA fuel DMA_TIMING_VBLANK 2
      (runTimedDMA fuel DMA_TIMING_VBLANK 1
        (runTimedDMA fuel DMA_TIMING_VBLANK 0 (some gba))))

/-- Machine whose register file returns 0x1234 for the register at offset 0x200 and 0
elsewhere (scenario 2). -/
def ioGBA : GBA :=
  { blankGBA (fun _ => 0) with ioModel := fun _ a => if a = 0x200 then 0x1234 else 0 }

/-- Completion delay as the spec states it: `2 + W[s] + W[d] + (count - 1) * (S[s] + S[d])`,
with `s`, `d` the top bytes of the cursors at entry and `W`, `S` the non-sequential and
sequential tables of the transfer width. -/
def specDelay (gba : GBA) (info : GBADMA) : Int :=
  let s := info.nextSource >>> 24
  let d := info.nextDest >>> 24
  if info.width ≠ 0 then
    2 + gba.memory.waitstates32 s + gba.memory.waitstates32 d
      + (info.count - 1) * (gba.memory.waitstatesSeq32 s + gba.memory.waitstatesSeq32 d)
  else
    2 + gba.memory.waitstates16 s + gba.memory.waitstates16 d
      + (info.count - 1) * (gba.memory.waitstatesSeq16 s + gba.memory.waitstatesSeq16 d)

/-- Machine of scenario 5 with channel 3 enabled (control 0xC400), the CPU cycle counter
at 100, and the waitstate tables as `GBAMemoryInit` leaves them. -/
def dma3TimedGBA : GBA :=
  { dma3GBA 0xC400 with
    cycles := 100
    memory := { (dma3GBA 0xC400).memory with
      waitstates16 := (GBAMemoryInit (dma3GBA 0xC400).memory).waitstates16
      waitstatesSeq16 := (GBAMemoryInit (dma3GBA 0xC400).memory).waitstatesSeq16
      waitstates32 := (GBAMemoryInit (dma3GBA 0xC400).memory).waitstates32
      waitstatesSeq32 := (GBAMemoryInit (dma3GBA 0xC400).memory).waitstatesSeq32 } }

/-- Condition under which a channel block of `GBAMemoryProcessEvents` raises the
interrupt: `enable && doIrq && nextIRQ` with `nextIRQ` already decremented, and
`nextIRQ <= 0`. -/
def chanRaises (d : GBADMA) (cycles : Int) : Prop :=
  d.enable ≠ 0 ∧ d.doIrq ≠ 0 ∧ wrapInt32 (d.nextIRQ - cycles) ≠ 0 ∧ wrapInt32 (d.nextIRQ - cycles) ≤ 0

instance (d : GBADMA) (cycles : Int) : Decidable (chanRaises d cycles) := by
  unfold chanRaises; infer_instance

/-- Value of `nextIRQ` after a channel block of `GBAMemoryProcessEvents`. -/
def chanNext (d : GBADMA) (cycles : Int) : Int :=
  if chanRaises d cycles then INT_MAX else wrapInt32 (d.nextIRQ - cycles)

/-- Interrupts raised by one `GBAMemoryProcessEvents` call, in the order raised. -/
def raisedBy (gba : GBA) (cycles : Int) : List Nat :=
  (GBAMemoryProcessEvents gba cycles).1.irqs.drop gba.irqs.length

/-- Machine with channels 0 and 1 enabled with `doIrq` (control 0xE200: enable, IRQ, HBlank
timing, repeat) and completion interrupts pending in 8 and in 3 cycles. -/
def twoChannelGBA : GBA :=
  { blankGBA (fun _ => 0) with
    memory := { (blankGBA (fun _ => 0)).memory with
      dma := fun i =>
        if i = 0 then { zeroDMA with packed := 0xE200, nextIRQ := 8 }
        else if i = 1 then { zeroDMA with packed := 0xE200, nextIRQ := 3 }
        else zeroDMA } }

/-- Machine for the FastCpuSet counterexample: WRAM starts with the word 1, IWRAM is zero,
r0 = 0x02000000, r1 = 0x03000000, r2 = 0x2000 (copy of 8192 words, the size of IWRAM). -/
def fastCopyGBA : GBA :=
  withRegs
    { blankGBA (fun _ => 0) with
      memory := { (blankGBA (fun _ => 0)).memory with wram := bufOfList [1, 0, 0, 0] } }
    0x02000000 0x03000000 0x2000

/-- Output byte `i` of a decompression to offset `dest` of buffer `t`, as machine `gba`
holds it. -/
def lzOut (t : LzTarget) (gba : GBA) (dest : Int) (i : Nat) : Nat :=
  loadByte (t.buf gba) (dest + (i : Int))

/-- Relation the outer loop of `_unLz77` keeps between `blocksRemaining` and
`blockheader`: no token of the group is left, or `i < 8` tokens of the group are
consumed and the flag byte has been shifted left `i` times. -/
def LzHeaderInv (s : LzState) : Prop :=
  s.blocksRemaining = 0 ∨
    ∃ flag i, flag < 256 ∧ i < 8 ∧ s.blocksRemaining = 8 - i ∧ s.blockheader = flag <<< i

/-- Machine of the back-reference scenario: header 0x00000810 (length 8), flag byte 0x20,
literals 0xAA and 0xBB, then the reference bytes 0x30, 0x01 (length 6, two bytes back). -/
def lzRefGBA : GBA := lzGBA [0x10, 8, 0, 0, 0x20, 0xAA, 0xBB, 0x30, 0x01] 0x02000000

theorem and_shifted_mask (a k s : Nat) :
    a &&& ((2 ^ k - 1) <<< s) = a / 2 ^ s % 2 ^ k * 2 ^ s := by
  apply Nat.eq_of_testBit_eq
  intro i
  rw [Nat.testBit_and, Nat.testBit_shiftLeft, Nat.testBit_two_pow_sub_one, Nat.mul_comm,
    Nat.testBit_mul_pow_two, Nat.testBit_mod_two_pow, ← Nat.shiftRight_eq_div_pow,
    Nat.testBit_shiftRight]
  by_cases h : i ≥ s
  · have : s + (i - s) = i := by omega
    simp [h, this, Bool.and_comm]
  · simp [h]

theorem regionBase_eq (a : Nat) : regionBase a = a / 16777216 % 256 * 16777216 :=
  and_shifted_mask a 8 24

theorem and_wram_mask (a : Nat) : a &&& (SIZE_WORKING_RAM - 1) = a % 262144 :=
  Nat.and_pow_two_sub_one_eq_mod a 18

theorem and_iwram_mask (a : Nat) : a &&& (SIZE_WORKING_IRAM - 1) = a % 32768 :=
  Nat.and_pow_two_sub_one_eq_mod a 15

theorem and_cart_mask (a : Nat) : a &&& (SIZE_CART0 - 1) = a % 33554432 :=
  Nat.and_pow_two_sub_one_eq_mod a 25

theorem and_io_mask (a : Nat) : a &&& ( SIZE_IO - 1) = a % 1024 :=
  Nat.and_pow_two_sub_one_eq_mod a 10

theorem and_align4 (a : Nat) : a &&& 0xFFFFFFFC = a / 4 % 1073741824 * 4 :=
  and_shifted_mask a 30 2

theorem and_align2 (a : Nat) : a &&& 0xFFFFFFFE = a / 2 % 2147483648 * 2 :=
  and_shifted_mask a 31 1

theorem and_count_mask (a : Nat) : a &&& 0x000FFFFF = a % 1048576 :=
  Nat.and_pow_two_sub_one_eq_mod a 20

theorem and_fill_bit (a : Nat) : a &&& 0x01000000 = a / 16777216 % 2 * 16777216 :=
  and_shifted_mask a 1 24

theorem and_width_bit (a : Nat) : a &&& 0x04000000 = a / 67108864 % 2 * 67108864 :=
  and_shifted_mask a 1 26

theorem and_length_mask (a : Nat) : a &&& 0xFFFFFF00 = a / 256 % 16777216 * 256 :=
  and_shifted_mask a 24 8

theorem shr1 (a : Nat) : a >>> 1 = a / 2 := Nat.shiftRight_eq_div_pow a 1
theorem shr2 (a : Nat) : a >>> 2 = a / 4 := Nat.shiftRight_eq_div_pow a 2
theorem shr8 (a : Nat) : a >>> 8 = a / 256 := Nat.shiftRight_eq_div_pow a 8
theorem shl1 (a : Nat) : a <<< 1 = a * 2 := Nat.shiftLeft_eq a 1
theorem shl2 (a : Nat) : a <<< 2 = a * 4 := Nat.shiftLeft_eq a 2

/-! ## Buffers -/

theorem loadByte_storeByte (b : Buf) (i j : Int) (v : Nat) :
    loadByte (storeByte b i v) j = if j = i then v % 256 else loadByte b j := by
  unfold loadByte storeByte
  split <;> simp

theorem loadHalf_storeHalf_same (b : Buf) (i : Int) (v : Nat) :
    loadHalf (storeHalf b i v) i = v % 65536 := by
  simp only [loadHalf, storeHalf, loadByte_storeByte]
  have h1 : ¬ (i = i + 1) := by omega
  simp only [h1, if_true, if_false]
  omega

theorem loadWord_storeWord_same (b : Buf) (i : Int) (v : Nat) :
    loadWord (storeWord b i v) i = v % 4294967296 := by
  simp only [loadWord, storeWord, loadByte_storeByte]
  have h1 : ¬ (i = i + 1) := by omega
  have h2 : ¬ (i = i + 2) := by omega
  have h3 : ¬ (i = i + 3) := by omega
  have h4 : ¬ (i + 1 = i + 2) := by omega
  have h5 : ¬ (i + 1 = i + 3) := by omega
  have h6 : ¬ (i + 2 = i + 3) := by omega
  simp only [h1, h2, h3, h4, h5, h6, if_true, if_false]
  omega

theorem storeByte_other (b : Buf) (i x : Int) (v : Nat) (h : x ≠ i) : storeByte b i v x = b x := by
  simp [storeByte, h]

theorem storeHalf_outside (b : Buf) (i x : Int) (v : Nat) (h : x < i ∨ i + 2 ≤ x) :
    storeHalf b i v x = b x := by
  unfold storeHalf
  rw [storeByte_other _ _ _ _ (by omega), storeByte_other _ _ _ _ (by omega)]

theorem storeWord_outside (b : Buf) (i x : Int) (v : Nat) (h : x < i ∨ i + 4 ≤ x) :
    storeWord b i v x = b x := by
  unfold storeWord
  rw [storeByte_other _ _ _ _ (by omega), storeByte_other _ _ _ _ (by omega),
    storeByte_other _ _ _ _ (by omega), storeByte_other _ _ _ _ (by omega)]

theorem loadHalf_congr (b c : Buf) (i : Int) (h : ∀ x, i ≤ x → x < i + 2 → b x = c x) :
    loadHalf b i = loadHalf c i := by
  unfold loadHalf loadByte
  rw [h i (by omega) (by omega), h (i + 1) (by omega) (by omega)]

theorem loadWord_congr (b c : Buf) (i : Int) (h : ∀ x, i ≤ x → x < i + 4 → b x = c x) :
    loadWord b i = loadWord c i := by
  unfold loadWord loadByte
  rw [h i (by omega) (by omega), h (i + 1) (by omega) (by omega),
    h (i + 2) (by omega) (by omega), h (i + 3) (by omega) (by omega)]

theorem loadHalf_lt (b : Buf) (i : Int) : loadHalf b i < 65536 := by
  unfold loadHalf loadByte; omega

theorem loadWord_lt (b : Buf) (i : Int) : loadWord b i < 4294967296 := by
  unfold loadWord loadByte; omega

theorem truncate32_toInt32 (u : Nat) : truncate32 (toInt32 u) = u % 4294967296 := by
  unfold truncate32 toInt32; split <;> omega

theorem truncate16_toInt16 (u : Nat) : truncate16 (toInt16 u) = u % 65536 := by
  unfold truncate16 toInt16; split <;> omega

theorem truncate32_lt (v : Int) : truncate32 v < 4294967296 := by unfold truncate32; omega
theorem truncate16_lt (v : Int) : truncate16 v < 65536 := by unfold truncate16; omega
theorem truncate8_lt (v : Int) : truncate8 v < 256 := by unfold truncate8; omega

theorem truncate16_natCast (n : Nat) : truncate16 (n : Int) = n % 65536 := by
  unfold truncate16; omega

/-! ## The bus on a RAM bank -/

theorem toInt32_mod (u : Nat) : toInt32 (u % 4294967296) = toInt32 u := by
  unfold toInt32; simp

theorem toInt16_mod (u : Nat) : toInt16 (u % 65536) = toInt16 u := by
  unfold toInt16; simp

theorem toInt8_mod (u : Nat) : toInt8 (u % 256) = toInt8 u := by
  unfold toInt8; simp

theorem RamBank.base_ne (k : RamBank) :
    k.base ≠ BASE_IO ∧ ¬ isCart k.base := by
  cases k <;> simp [RamBank.base, isCart, BASE_WORKING_RAM, BASE_WORKING_IRAM, BASE_IO,
    BASE_CART0, BASE_CART0_EX, BASE_CART1, BASE_CART1_EX, BASE_CART2, BASE_CART2_EX]

theorem RamBank.buf_setBuf (k : RamBank) (g : GBA) (b : Buf) : k.buf (k.setBuf g b) = b := by
  cases k <;> rfl

theorem RamBank.buf_setBuf_ne (k k' : RamBank) (g : GBA) (b : Buf) (h : k ≠ k') :
    k'.buf (k.setBuf g b) = k'.buf g := by
  cases k <;> cases k' <;> first | rfl | exact absurd rfl h

theorem RamBank.holds_unique (k k' : RamBank) (a : Nat) (h : k.holds a) (h' : k'.holds a) :
    k = k' := by
  unfold RamBank.holds at h h'
  cases k <;> cases k' <;> first | rfl | (exfalso; simp [RamBank.base, BASE_WORKING_RAM, BASE_WORKING_IRAM] at h h'; omega)

theorem iwram_not_wram (a : Nat) (h : regionBase a = BASE_WORKING_IRAM) :
    ¬ regionBase a = BASE_WORKING_RAM := by rw [h]; decide

theorem GBAStore32_bank (k : RamBank) (g : GBA) (a : Nat) (v : Int) (h : k.holds a) :
    GBAStore32 g a v
      = k.setBuf g (storeWord (k.buf g) ((4 * (a % k.size / 4) : Nat) : Int) (truncate32 v)) := by
  cases k
  · have h' : regionBase a = BASE_WORKING_RAM := h
    unfold GBAStore32
    rw [if_pos h', and_wram_mask, shr2]; rfl
  · have h' : regionBase a = BASE_WORKING_IRAM := h
    unfold GBAStore32
    rw [if_neg (iwram_not_wram a h'), if_pos h', and_iwram_mask, shr2]; rfl

theorem GBAStore16_bank (k : RamBank) (g : GBA) (a : Nat) (v : Int) (h : k.holds a) :
    GBAStore16 g a v
      = k.setBuf g (storeHalf (k.buf g) ((2 * (a % k.size / 2) : Nat) : Int) (truncate16 v)) := by
  cases k
  · have h' : regionBase a = BASE_WORKING_RAM := h
    unfold GBAStore16
    rw [if_pos h', and_wram_mask, shr1]; rfl
  · have h' : regionBase a = BASE_WORKING_IRAM := h
    unfold GBAStore16
    rw [if_neg (iwram_not_wram a h'), if_pos h', and_iwram_mask, shr1]; rfl

theorem GBAStore8_bank (k : RamBank) (g : GBA) (a : Nat) (v : Int) (h : k.holds a) :
    GBAStore8 g a v
      = k.setBuf g (storeByte (k.buf g) ((a % k.size : Nat) : Int) (truncate8 v)) := by
  cases k
  · have h' : regionBase a = BASE_WORKING_RAM := h
    unfold GBAStore8
    rw [if_pos h', and_wram_mask]; rfl
  · have h' : regionBase a = BASE_WORKING_IRAM := h
    unfold GBAStore8
    rw [if_neg (iwram_not_wram a h'), if_pos h', and_iwram_mask]; rfl

theorem GBALoad32_bank (k : RamBank) (g : GBA) (a : Nat) (h : k.holds a) :
    GBALoad32 g a = toInt32 (loadWord (k.buf g) ((4 * (a % k.size / 4) : Nat) : Int)) := by
  cases k
  · have h' : regionBase a = BASE_WORKING_RAM := h
    unfold GBALoad32
    rw [if_pos h', and_wram_mask, shr2]; rfl
  · have h' : regionBase a = BASE_WORKING_IRAM := h
    unfold GBALoad32
    rw [if_neg (iwram_not_wram a h'), if_pos h', and_iwram_mask, shr2]; rfl

theorem GBALoad16_bank (k : RamBank) (g : GBA) (a : Nat) (h : k.holds a) :
    GBALoad16 g a = toInt16 (loadHalf (k.buf g) ((2 * (a % k.size / 2) : Nat) : Int)) := by
  cases k
  · have h' : regionBase a = BASE_WORKING_RAM := h
    unfold GBALoad16
    rw [if_pos h', and_wram_mask, shr1]; rfl
  · have h' : regionBase a = BASE_WORKING_IRAM := h
    unfold GBALoad16
    rw [if_neg (iwram_not_wram a h'), if_pos h', and_iwram_mask, shr1]; rfl

theorem GBALoadU16_bank (k : RamBank) (g : GBA) (a : Nat) (h : k.holds a) :
    GBALoadU16 g a = loadHalf (k.buf g) ((2 * (a % k.size / 2) : Nat) : Int) := by
  cases k
  · have h' : regionBase a = BASE_WORKING_RAM := h
    unfold GBALoadU16
    rw [if_pos h', and_wram_mask, shr1]; rfl
  · have h' : regionBase a = BASE_WORKING_IRAM := h
    unfold GBALoadU16
    rw [if_neg (iwram_not_wram a h'), if_pos h', and_iwram_mask, shr1]; rfl

theorem GBALoad8_bank (k : RamBank) (g : GBA) (a : Nat) (h : k.holds a) :
    GBALoad8 g a = toInt8 (loadByte (k.buf g) ((a % k.size : Nat) : Int)) := by
  cases k
  · have h' : regionBase a = BASE_WORKING_RAM := h
    unfold GBALoad8
    rw [if_pos h', and_wram_mask]; rfl
  · have h' : regionBase a = BASE_WORKING_IRAM := h
    unfold GBALoad8
    rw [if_neg (iwram_not_wram a h'), if_pos h', and_iwram_mask]; rfl

theorem GBALoadU8_bank (k : RamBank) (g : GBA) (a : Nat) (h : k.holds a) :
    GBALoadU8 g a = loadByte (k.buf g) ((a % k.size : Nat) : Int) := by
  cases k
  · have h' : regionBase a = BASE_WORKING_RAM := h
    unfold GBALoadU8
    rw [if_pos h', and_wram_mask]; rfl
  · have h' : regionBase a = BASE_WORKING_IRAM := h
    unfold GBALoadU8
    rw [if_neg (iwram_not_wram a h'), if_pos h', and_iwram_mask]; rfl

/-- Loads at an address outside bank `k` do not see the buffer of `k`. -/
theorem GBALoad32_setBuf (k : RamBank) (g : GBA) (b : Buf) (a : Nat) (h : ¬ k.holds a) :
    GBALoad32 (k.setBuf g b) a = GBALoad32 g a := by
  cases k
  · have h' : ¬ regionBase a = BASE_WORKING_RAM := h
    unfold GBALoad32
    rw [if_neg h', if_neg h']; rfl
  · have h' : ¬ regionBase a = BASE_WORKING_IRAM := h
    unfold GBALoad32
    rw [if_neg h', if_neg h']; rfl

theorem GBALoad16_setBuf (k : RamBank) (g : GBA) (b : Buf) (a : Nat) (h : ¬ k.holds a) :
    GBALoad16 (k.setBuf g b) a = GBALoad16 g a := by
  cases k
  · have h' : ¬ regionBase a = BASE_WORKING_RAM := h
    unfold GBALoad16
    rw [if_neg h', if_neg h']; rfl
  · have h' : ¬ regionBase a = BASE_WORKING_IRAM := h
    unfold GBALoad16
    rw [if_neg h', if_neg h']; rfl

theorem GBALoadU16_setBuf (k : RamBank) (g : GBA) (b : Buf) (a : Nat) (h : ¬ k.holds a) :
    GBALoadU16 (k.setBuf g b) a = GBALoadU16 g a := by
  cases k
  · have h' : ¬ regionBase a = BASE_WORKING_RAM := h
    unfold GBALoadU16
    rw [if_neg h', if_neg h']; rfl
  · have h' : ¬ regionBase a = BASE_WORKING_IRAM := h
    unfold GBALoadU16
    rw [if_neg h', if_neg h']; rfl

theorem GBALoadU8_setBuf (k : RamBank) (g : GBA) (b : Buf) (a : Nat) (h : ¬ k.holds a) :
    GBALoadU8 (k.setBuf g b) a = GBALoadU8 g a := by
  cases k
  · have h' : ¬ regionBase a = BASE_WORKING_RAM := h
    unfold GBALoadU8
    rw [if_neg h', if_neg h']; rfl
  · have h' : ¬ regionBase a = BASE_WORKING_IRAM := h
    unfold GBALoadU8
    rw [if_neg h', if_neg h']; rfl

theorem toInt32_truncate32_toInt32 (u : Nat) : toInt32 (truncate32 (toInt32 u)) = toInt32 u := by
  rw [truncate32_toInt32, toInt32_mod]

/-- A value returned by `GBALoad32` is an `int32_t`. -/
theorem toInt32_truncate32_GBALoad32 (g : GBA) (a : Nat) :
    toInt32 (truncate32 (GBALoad32 g a)) = GBALoad32 g a := by
  unfold GBALoad32
  split_ifs <;> first | exact toInt32_truncate32_toInt32 _ | rfl

/-- Conversion of the `int16_t` returned by `GBALoad16` to `uint16_t` gives what
`GBALoadU16` returns. -/
theorem truncate16_GBALoad16 (g : GBA) (a : Nat) :
    truncate16 (GBALoad16 g a) = GBALoadU16 g a := by
  unfold GBALoad16 GBALoadU16
  split_ifs
  · rw [truncate16_toInt16]; exact Nat.mod_eq_of_lt (loadHalf_lt _ _)
  · rw [truncate16_toInt16]; exact Nat.mod_eq_of_lt (loadHalf_lt _ _)
  · rw [truncate16_toInt16]; unfold GBAIORead; simp
  · rw [truncate16_toInt16]; exact Nat.mod_eq_of_lt (loadHalf_lt _ _)
  · rfl

theorem GBALoad16_eq_toInt16 (g : GBA) (a : Nat) :
    GBALoad16 g a = toInt16 (GBALoadU16 g a) := by
  unfold GBALoad16 GBALoadU16
  split_ifs <;> rfl

theorem GBALoadU16_lt (g : GBA) (a : Nat) : GBALoadU16 g a < 65536 := by
  rw [← truncate16_GBALoad16]; exact truncate16_lt _

theorem RamBank.holds_wram_iff (a : Nat) :
    RamBank.wram.holds a ↔ a / 16777216 % 256 = 2 := by
  show regionBase a = 0x02000000 ↔ _
  rw [regionBase_eq]; omega

theorem RamBank.holds_iwram_iff (a : Nat) :
    RamBank.iwram.holds a ↔ a / 16777216 % 256 = 3 := by
  show regionBase a = 0x03000000 ↔ _
  rw [regionBase_eq]; omega

/-- An address in `0x02000000 .. 0x03FFFFFF` decodes to one of the two RAM banks. -/
theorem exists_bank_of_range (a : Nat) (h : 0x02000000 ≤ a ∧ a < 0x04000000) :
    ∃ k : RamBank, k.holds a := by
  by_cases h3 : a < 0x03000000
  · exact ⟨RamBank.wram, (RamBank.holds_wram_iff a).2 (by omega)⟩
  · exact ⟨RamBank.iwram, (RamBank.holds_iwram_iff a).2 (by omega)⟩

/-- C1: on WRAM (0x02xxxxxx) and IWRAM (0x03xxxxxx), a store of `v` followed by a load of
the same width at the same aligned address returns `v` truncated to that width: the
32-bit load gives the whole stored word, the unsigned 16- and 8-bit loads give the
truncation zero-extended, the signed ones give it sign-extended. -/
theorem store_then_load_ram (gba : GBA) (a : Nat) (v : Int)
    (hregion : 0x02000000 ≤ a ∧ a < 0x04000000) :
    (a % 4 = 0 → GBALoad32 (GBAStore32 gba a v) a = toInt32 (v % 4294967296).toNat) ∧
    (a % 2 = 0 → GBALoadU16 (GBAStore16 gba a v) a = (v % 65536).toNat ∧
      GBALoad16 (GBAStore16 gba a v) a = toInt16 (v % 65536).toNat) ∧
    GBALoadU8 (GBAStore8 gba a v) a = (v % 256).toNat ∧
    GBALoad8 (GBAStore8 gba a v) a = toInt8 (v % 256).toNat := by
  obtain ⟨k, hk⟩ := exists_bank_of_range a hregion
  refine ⟨fun _ => ?_, fun _ => ⟨?_, ?_⟩, ?_, ?_⟩
  · rw [GBAStore32_bank k gba a v hk, GBALoad32_bank k _ a (by exact hk), RamBank.buf_setBuf,
      loadWord_storeWord_same, toInt32_mod]; rfl
  · rw [GBAStore16_bank k gba a v hk, GBALoadU16_bank k _ a (by exact hk), RamBank.buf_setBuf,
      loadHalf_storeHalf_same]
    exact Nat.mod_eq_of_lt (truncate16_lt v)
  · rw [GBAStore16_bank k gba a v hk, GBALoad16_bank k _ a (by exact hk), RamBank.buf_setBuf,
      loadHalf_storeHalf_same, toInt16_mod]; rfl
  · rw [GBAStore8_bank k gba a v hk, GBALoadU8_bank k _ a (by exact hk), RamBank.buf_setBuf,
      loadByte_storeByte, if_pos rfl]
    exact Nat.mod_eq_of_lt (truncate8_lt v)
  · rw [GBAStore8_bank k gba a v hk, GBALoad8_bank k _ a (by exact hk), RamBank.buf_setBuf,
      loadByte_storeByte, if_pos rfl, toInt8_mod]; rfl

/-- Scenario 1 of the spec as an instance of `store_then_load_ram`: a word store of
0xDEADBEEF at 0x02000000 reads back whole, and its bytes are little-endian. -/
theorem store_then_load_ram_witness :
    (0x02000000 ≤ 0x02000000 ∧ 0x02000000 < 0x04000000) ∧
    GBALoad32 (GBAStore32 (blankGBA (fun _ => 0)) 0x02000000 0xDEADBEEF) 0x02000000
      = toInt32 0xDEADBEEF ∧
    GBALoadU8 (GBAStore32 (blankGBA (fun _ => 0)) 0x02000000 0xDEADBEEF) 0x02000000 = 0xEF ∧
    GBALoadU8 (GBAStore32 (blankGBA (fun _ => 0)) 0x02000000 0xDEADBEEF) 0x02000003 = 0xDE :=
  ⟨by decide,
   (store_then_load_ram (blankGBA (fun _ => 0)) 0x02000000 0xDEADBEEF (by decide)).1 (by decide),
   by decide, by decide⟩

/-! ## Store followed by load at another address -/

theorem GBALoad32_GBAStore32 (k : RamBank) (g : GBA) (a b : Nat) (v : Int) (hk : k.holds a) :
    GBALoad32 (GBAStore32 g a v) b
      = if k.holds b ∧ b % k.size / 4 = a % k.size / 4 then toInt32 (truncate32 v)
        else GBALoad32 g b := by
  rw [GBAStore32_bank k g a v hk]
  by_cases hb : k.holds b
  · rw [GBALoad32_bank k _ b hb, GBALoad32_bank k g b hb, RamBank.buf_setBuf]
    by_cases he : b % k.size / 4 = a % k.size / 4
    · rw [if_pos ⟨hb, he⟩, he, loadWord_storeWord_same, toInt32_mod]
    · rw [if_neg (fun h => he h.2)]
      congr 1
      apply loadWord_congr
      intro x h1 h2
      apply storeWord_outside
      omega
  · rw [if_neg (fun h => hb h.1)]
    exact GBALoad32_setBuf k g _ b hb

theorem GBALoadU16_GBAStore16 (k : RamBank) (g : GBA) (a b : Nat) (v : Int) (hk : k.holds a) :
    GBALoadU16 (GBAStore16 g a v) b
      = if k.holds b ∧ b % k.size / 2 = a % k.size / 2 then truncate16 v
        else GBALoadU16 g b := by
  rw [GBAStore16_bank k g a v hk]
  by_cases hb : k.holds b
  · rw [GBALoadU16_bank k _ b hb, GBALoadU16_bank k g b hb, RamBank.buf_setBuf]
    by_cases he : b % k.size / 2 = a % k.size / 2
    · rw [if_pos ⟨hb, he⟩, he, loadHalf_storeHalf_same]
      exact Nat.mod_eq_of_lt (truncate16_lt v)
    · rw [if_neg (fun h => he h.2)]
      apply loadHalf_congr
      intro x h1 h2
      apply storeHalf_outside
      omega
  · rw [if_neg (fun h => hb h.1)]
    exact GBALoadU16_setBuf k g _ b hb

/-! ## Fill loops -/

theorem fillLoop32_succ (dest : Nat) (word : Int) (n : Nat) (g : GBA) :
    fillLoop32 dest word (n + 1) g
      = GBAStore32 (fillLoop32 dest word n g) ((dest + (n <<< 2)) % 4294967296) word := by
  unfold fillLoop32
  rw [List.range_succ, List.foldl_append]
  rfl

theorem fillLoop16_succ (dest : Nat) (word : Nat) (n : Nat) (g : GBA) :
    fillLoop16 dest word (n + 1) g
      = GBAStore16 (fillLoop16 dest word n g) ((dest + (n <<< 1)) % 4294967296) (word : Nat) := by
  unfold fillLoop16
  rw [List.range_succ, List.foldl_append]
  rfl

/-- After the 32-bit fill loop every element it stored to RAM holds the fill word. -/
theorem fillLoop32_spec (dest : Nat) (word : Int) (n : Nat) (g : GBA)
    (h : ∀ i, i < n → ∃ k : RamBank, k.holds ((dest + (i <<< 2)) % 4294967296)) :
    ∀ i, i < n →
      GBALoad32 (fillLoop32 dest word n g) ((dest + (i <<< 2)) % 4294967296)
        = toInt32 (truncate32 word) := by
  induction n with
  | zero => intro i hi; omega
  | succ n ih =>
    intro i hi
    obtain ⟨k, hk⟩ := h n (by omega)
    rw [fillLoop32_succ, GBALoad32_GBAStore32 k _ _ _ _ hk]
    split
    · rfl
    · rename_i hne
      have hin : i < n := by
        rcases Nat.lt_succ_iff_lt_or_eq.1 hi with h1 | h1
        · exact h1
        · subst h1; exact absurd ⟨hk, rfl⟩ hne
      exact ih (fun j hj => h j (by omega)) i hin

/-- After the 16-bit fill loop every element it stored to RAM holds the fill halfword. -/
theorem fillLoop16_spec (dest : Nat) (word : Nat) (n : Nat) (g : GBA)
    (h : ∀ i, i < n → ∃ k : RamBank, k.holds ((dest + (i <<< 1)) % 4294967296)) :
    ∀ i, i < n →
      GBALoadU16 (fillLoop16 dest word n g) ((dest + (i <<< 1)) % 4294967296)
        = word % 65536 := by
  induction n with
  | zero => intro i hi; omega
  | succ n ih =>
    intro i hi
    obtain ⟨k, hk⟩ := h n (by omega)
    rw [fillLoop16_succ, GBALoadU16_GBAStore16 k _ _ _ _ hk]
    split
    · exact truncate16_natCast word
    · rename_i hne
      have hin : i < n := by
        rcases Nat.lt_succ_iff_lt_or_eq.1 hi with h1 | h1
        · exact h1
        · subst h1; exact absurd ⟨hk, rfl⟩ hne
      exact ih (fun j hj => h j (by omega)) i hin

theorem GBASwi16_cpuSet (gba : GBA) : GBASwi16 gba 0xB = _CpuSet gba := by
  unfold GBASwi16
  rw [if_neg (by decide), if_pos rfl]

/-- CpuSet, 32-bit fill: every destination element in RAM ends up equal to the source word. -/
theorem cpuSet_fill32_aux (gba : GBA) (hfill : gba.gprs 2 &&& 0x01000000 ≠ 0)
    (hw : gba.gprs 2 &&& 0x04000000 ≠ 0)
    (hdest : ∀ i, i < gba.gprs 2 &&& 0x000FFFFF →
        0x02000000 ≤ ((gba.gprs 1 &&& 0xFFFFFFFC) + 4 * i) % 4294967296 ∧
        ((gba.gprs 1 &&& 0xFFFFFFFC) + 4 * i) % 4294967296 < 0x04000000) :
    ∀ i, i < gba.gprs 2 &&& 0x000FFFFF →
        GBALoad32 (GBASwi16 gba 0xB) (((gba.gprs 1 &&& 0xFFFFFFFC) + 4 * i) % 4294967296)
          = GBALoad32 gba (gba.gprs 0 &&& 0xFFFFFFFC) := by
  have e4 : ∀ i : Nat, 4 * i = i <<< 2 := fun i => by rw [shl2]; omega
  rw [GBASwi16_cpuSet]
  intro i hi
  have hrun : _CpuSet gba
      = fillLoop32 (gba.gprs 1 &&& 0xFFFFFFFC) (GBALoad32 gba (gba.gprs 0 &&& 0xFFFFFFFC))
          (gba.gprs 2 &&& 0x000FFFFF) gba := by
    unfold _CpuSet
    simp only [hfill, hw, ne_eq, not_false_eq_true, if_true]
  rw [hrun, e4, fillLoop32_spec _ _ _ _ (fun j hj => ?_) i hi, toInt32_truncate32_GBALoad32]
  rw [← e4]
  exact exists_bank_of_range _ (hdest j hj)

/-- CpuSet, 16-bit fill: every destination element in RAM ends up equal to the source
halfword. -/
theorem cpuSet_fill16_aux (gba : GBA) (hfill : gba.gprs 2 &&& 0x01000000 ≠ 0)
    (hw : gba.gprs 2 &&& 0x04000000 = 0)
    (hdest : ∀ i, i < gba.gprs 2 &&& 0x000FFFFF →
        0x02000000 ≤ ((gba.gprs 1 &&& 0xFFFFFFFE) + 2 * i) % 4294967296 ∧
        ((gba.gprs 1 &&& 0xFFFFFFFE) + 2 * i) % 4294967296 < 0x04000000) :
    ∀ i, i < gba.gprs 2 &&& 0x000FFFFF →
        GBALoadU16 (GBASwi16 gba 0xB) (((gba.gprs 1 &&& 0xFFFFFFFE) + 2 * i) % 4294967296)
          = GBALoadU16 gba (gba.gprs 0 &&& 0xFFFFFFFE) ∧
        GBALoad16 (GBASwi16 gba 0xB) (((gba.gprs 1 &&& 0xFFFFFFFE) + 2 * i) % 4294967296)
          = GBALoad16 gba (gba.gprs 0 &&& 0xFFFFFFFE) := by
  have e2 : ∀ i : Nat, 2 * i = i <<< 1 := fun i => by rw [shl1]; omega
  rw [GBASwi16_cpuSet]
  intro i hi
  have hrun : _CpuSet gba
      = fillLoop16 (gba.gprs 1 &&& 0xFFFFFFFE)
          (truncate16 (GBALoad16 gba (gba.gprs 0 &&& 0xFFFFFFFE)))
          (gba.gprs 2 &&& 0x000FFFFF) gba := by
    unfold _CpuSet
    simp only [hfill, hw, ne_eq, not_false_eq_true, if_true, not_true_eq_false, if_false]
    rfl
  have hU : GBALoadU16 (_CpuSet gba) (((gba.gprs 1 &&& 0xFFFFFFFE) + 2 * i) % 4294967296)
      = GBALoadU16 gba (gba.gprs 0 &&& 0xFFFFFFFE) := by
    rw [hrun, e2, fillLoop16_spec _ _ _ _ (fun j hj => ?_) i hi, truncate16_GBALoad16]
    · exact Nat.mod_eq_of_lt (GBALoadU16_lt _ _)
    · rw [← e2]
      exact exists_bank_of_range _ (hdest j hj)
  exact ⟨hU, by rw [GBALoad16_eq_toInt16, hU, ← GBALoad16_eq_toInt16]⟩

/-- C8: CpuSet in fill mode (bit 24 of r2 set), with count `r2 & 0xFFFFF`, element width 4
when bit 26 of r2 is set and 2 otherwise, and source and dest forced down to that
alignment: if every destination address `dest + i * width` (`i < count`) lies in WRAM or
IWRAM, then after SWI 0x0B each of those elements equals the element that was at
`source` before the call. -/
theorem cpuSet_fill (gba : GBA) (hfill : gba.gprs 2 &&& 0x01000000 ≠ 0) :
    (gba.gprs 2 &&& 0x04000000 ≠ 0 →
      (∀ i, i < gba.gprs 2 &&& 0x000FFFFF →
        0x02000000 ≤ ((gba.gprs 1 &&& 0xFFFFFFFC) + 4 * i) % 4294967296 ∧
        ((gba.gprs 1 &&& 0xFFFFFFFC) + 4 * i) % 4294967296 < 0x04000000) →
      ∀ i, i < gba.gprs 2 &&& 0x000FFFFF →
        GBALoad32 (GBASwi16 gba 0xB) (((gba.gprs 1 &&& 0xFFFFFFFC) + 4 * i) % 4294967296)
          = GBALoad32 gba (gba.gprs 0 &&& 0xFFFFFFFC)) ∧
    (gba.gprs 2 &&& 0x04000000 = 0 →
      (∀ i, i < gba.gprs 2 &&& 0x000FFFFF →
        0x02000000 ≤ ((gba.gprs 1 &&& 0xFFFFFFFE) + 2 * i) % 4294967296 ∧
        ((gba.gprs 1 &&& 0xFFFFFFFE) + 2 * i) % 4294967296 < 0x04000000) →
      ∀ i, i < gba.gprs 2 &&& 0x000FFFFF →
        GBALoadU16 (GBASwi16 gba 0xB) (((gba.gprs 1 &&& 0xFFFFFFFE) + 2 * i) % 4294967296)
          = GBALoadU16 gba (gba.gprs 0 &&& 0xFFFFFFFE) ∧
        GBALoad16 (GBASwi16 gba 0xB) (((gba.gprs 1 &&& 0xFFFFFFFE) + 2 * i) % 4294967296)
          = GBALoad16 gba (gba.gprs 0 &&& 0xFFFFFFFE)) :=
  ⟨fun hw hdest => cpuSet_fill32_aux gba hfill hw hdest,
   fun hw hdest => cpuSet_fill16_aux gba hfill hw hdest⟩

/-- Instance of `cpuSet_fill`: a 32-bit fill of eight words (r2 = 0x05000008) from
0x03000000 to 0x03000100, and a 16-bit fill of eight halfwords (r2 = 0x01000008). -/
theorem cpuSet_fill_witness :
    (∀ i, i < 8 →
      GBALoad32 (GBASwi16 (cpuSetFillGBA 0x05000008) 0xB) ((0x03000100 + 4 * i) % 4294967296)
        = toInt32 0xAA55AA55) ∧
    (∀ i, i < 8 →
      GBALoadU16 (GBASwi16 (cpuSetFillGBA 0x01000008) 0xB) ((0x03000100 + 2 * i) % 4294967296)
        = 0xAA55) :=
  ⟨(cpuSet_fill (cpuSetFillGBA 0x05000008) (by decide)).1 (by decide) (by decide),
   fun i hi => ((cpuSet_fill (cpuSetFillGBA 0x01000008) (by decide)).2 (by decide) (by decide)
     i hi).1⟩

/-- C9, as the spec states it, fails: with r2 = 0x01000008 bit 26 is clear, the fill is
16 bits wide, and the word at 0x03000110 is not touched. -/
theorem cpuSet_scenario_counterexample :
    ¬ ∀ gba : GBA, gba.gprs 0 = 0x03000000 → gba.gprs 1 = 0x03000100 →
        gba.gprs 2 = 0x01000008 →
        ∀ i, i < 8 →
          GBALoad32 (GBASwi16 gba 0xB) (0x03000100 + 4 * i) = GBALoad32 gba 0x03000000 := by
  intro h
  have h4 := h (cpuSetFillGBA 0x01000008) rfl rfl rfl 4 (by decide)
  revert h4
  decide

/-- C9 amended: for every machine with r0 = 0x03000000 and r1 = 0x03000100, after SWI 0x0B
with r2 = 0x01000008 (bit 26 clear: a 16-bit fill) each of the eight halfwords at
0x03000100, 0x03000102, ..., 0x0300010E equals the low 16 bits of the word `v` that was
at 0x03000000;
with r2 = 0x05000008 (bit 26 set: a 32-bit fill) each of the eight words at
0x03000100, 0x03000104, ..., 0x0300011C equals the word `v` that was at 0x03000000. -/
theorem cpuSet_scenario_amended (gba : GBA) (h0 : gba.gprs 0 = 0x03000000)
    (h1 : gba.gprs 1 = 0x03000100) :
    (gba.gprs 2 = 0x01000008 → ∀ i, i < 8 →
      GBALoadU16 (GBASwi16 gba 0xB) (0x03000100 + 2 * i)
        = truncate32 (GBALoad32 gba 0x03000000) % 65536) ∧
    (gba.gprs 2 = 0x05000008 → ∀ i, i < 8 →
      GBALoad32 (GBASwi16 gba 0xB) (0x03000100 + 4 * i) = GBALoad32 gba 0x03000000) := by
  constructor
  · intro h2 i hi
    have key := cpuSet_fill16_aux gba (by rw [h2]; decide) (by rw [h2]; decide)
    rw [h0, h1, h2] at key
    have hc : (0x01000008 : Nat) &&& 0x000FFFFF = 8 := by decide
    have hd : (0x03000100 : Nat) &&& 0xFFFFFFFE = 0x03000100 := by decide
    have hs : (0x03000000 : Nat) &&& 0xFFFFFFFE = 0x03000000 := by decide
    rw [hc, hd, hs] at key
    have := (key (fun j hj => by omega) i hi).1
    rw [Nat.mod_eq_of_lt (by omega)] at this
    rw [this]
    have hb : RamBank.iwram.holds 0x03000000 := by decide
    rw [GBALoadU16_bank _ _ _ hb, GBALoad32_bank _ _ _ hb, truncate32_toInt32]
    have e1 : ((2 * (0x03000000 % RamBank.iwram.size / 2) : Nat) : Int) = 0 := by decide
    have e2 : ((4 * (0x03000000 % RamBank.iwram.size / 4) : Nat) : Int) = 0 := by decide
    rw [e1, e2]
    unfold loadHalf loadWord loadByte
    omega
  · intro h2 i hi
    have key := cpuSet_fill32_aux gba (by rw [h2]; decide) (by rw [h2]; decide)
    rw [h0, h1, h2] at key
    have hc : (0x05000008 : Nat) &&& 0x000FFFFF = 8 := by decide
    have hd : (0x03000100 : Nat) &&& 0xFFFFFFFC = 0x03000100 := by decide
    have hs : (0x03000000 : Nat) &&& 0xFFFFFFFC = 0x03000000 := by decide
    rw [hc, hd, hs] at key
    have := key (fun j hj => by omega) i hi
    rwa [Nat.mod_eq_of_lt (by omega)] at this

/-- Instance of `cpuSet_scenario_amended` on the machine of scenario 3, seeded with
0xAA55AA55. -/
theorem cpuSet_scenario_amended_witness :
    (∀ i, i < 8 →
      GBALoadU16 (GBASwi16 (cpuSetFillGBA 0x01000008) 0xB) (0x03000100 + 2 * i) = 0xAA55) ∧
    (∀ i, i < 8 →
      GBALoad32 (GBASwi16 (cpuSetFillGBA 0x05000008) 0xB) (0x03000100 + 4 * i)
        = toInt32 0xAA55AA55) :=
  ⟨(cpuSet_scenario_amended (cpuSetFillGBA 0x01000008) rfl rfl).1 rfl,
   (cpuSet_scenario_amended (cpuSetFillGBA 0x05000008) rfl rfl).2 rfl⟩

/-! ## Copy loops -/

theorem RamBank.setBuf_buf (k : RamBank) (g : GBA) : k.setBuf g (k.buf g) = g := by
  cases k <;> rfl

theorem RamBank.setBuf_setBuf (k : RamBank) (g : GBA) (b c : Buf) :
    k.setBuf (k.setBuf g b) c = k.setBuf g c := by
  cases k <;> rfl

theorem RamBank.size_eq (k : RamBank) : k.size = 262144 ∨ k.size = 32768 := by
  cases k
  · exact Or.inl rfl
  · exact Or.inr rfl

theorem RamBank.holds_iff (k : RamBank) (a : Nat) :
    k.holds a ↔ a / 16777216 % 256 = k.base / 16777216 := by
  cases k
  · exact RamBank.holds_wram_iff a
  · exact RamBank.holds_iwram_iff a

/-- Element `i` of a destination range that does not wrap inside bank `k`: it decodes to
`k`, at the offset of the first element plus `w * i`. -/
theorem dest_elem (k : RamBank) (d n i w : Nat) (hk : k.holds d) (hlt : d < 4294967296)
    (hw : w = 2 ∨ w = 4) (hfit : d % k.size + w * n ≤ k.size) (hi : i < n) :
    k.holds ((d + w * i) % 4294967296) ∧
      ((d + w * i) % 4294967296) % k.size = d % k.size + w * i := by
  have hwi : w * i + w ≤ w * n := by
    have : w * (i + 1) ≤ w * n := Nat.mul_le_mul_left w hi
    rw [Nat.mul_add, Nat.mul_one] at this; exact this
  generalize w * i = wi at *
  generalize w * n = wn at *
  rw [RamBank.holds_iff] at hk ⊢
  rcases k.size_eq with hs | hs <;> rw [hs] at hfit ⊢ <;> omega

theorem copyLoop32_succ (s d n : Nat) (g : GBA) :
    copyLoop32 s d (n + 1) g
      = GBAStore32 (copyLoop32 s d n g) ((d + (n <<< 2)) % 4294967296)
          (GBALoad32 (copyLoop32 s d n g) ((s + (n <<< 2)) % 4294967296)) := by
  unfold copyLoop32
  rw [List.range_succ, List.foldl_append]
  rfl

theorem copyLoop16_succ (s d n : Nat) (g : GBA) :
    copyLoop16 s d (n + 1) g
      = GBAStore16 (copyLoop16 s d n g) ((d + (n <<< 1)) % 4294967296)
          (truncate16 (GBALoad16 (copyLoop16 s d n g) ((s + (n <<< 1)) % 4294967296)) : Nat) := by
  unfold copyLoop16
  rw [List.range_succ, List.foldl_append]
  rfl

/-- A word load sees a replaced bank buffer only through the four bytes it reads. -/
theorem GBALoad32_frame (k : RamBank) (g : GBA) (b : Buf) (a : Nat)
    (h : k.holds a → ∀ x : Int, ((4 * (a % k.size / 4) : Nat) : Int) ≤ x →
      x < ((4 * (a % k.size / 4) : Nat) : Int) + 4 → b x = k.buf g x) :
    GBALoad32 (k.setBuf g b) a = GBALoad32 g a := by
  by_cases hk : k.holds a
  · rw [GBALoad32_bank k _ a hk, GBALoad32_bank k g a hk, RamBank.buf_setBuf]
    congr 1
    exact loadWord_congr _ _ _ (h hk)
  · exact GBALoad32_setBuf k g b a hk

/-- A halfword load sees a replaced bank buffer only through the two bytes it reads. -/
theorem GBALoadU16_frame (k : RamBank) (g : GBA) (b : Buf) (a : Nat)
    (h : k.holds a → ∀ x : Int, ((2 * (a % k.size / 2) : Nat) : Int) ≤ x →
      x < ((2 * (a % k.size / 2) : Nat) : Int) + 2 → b x = k.buf g x) :
    GBALoadU16 (k.setBuf g b) a = GBALoadU16 g a := by
  by_cases hk : k.holds a
  · rw [GBALoadU16_bank k _ a hk, GBALoadU16_bank k g a hk, RamBank.buf_setBuf]
    exact loadHalf_congr _ _ _ (h hk)
  · exact GBALoadU16_setBuf k g b a hk

/-- Invariant of the 32-bit copy loop into a range of bank `k` that does not wrap and
that no source element overlaps: after `m` rounds only the buffer of `k` has changed,
only inside the first `m` destination words, and these hold the source words. -/
theorem copyLoop32_inv (k : RamBank) (g : GBA) (s d n : Nat)
    (hk : k.holds d) (hlt : d < 4294967296) (hfit : d % k.size + 4 * n ≤ k.size)
    (hd4 : d % 4 = 0) (hs4 : s % 4 = 0)
    (hsep : ∀ i, i < n → k.holds ((s + 4 * i) % 4294967296) →
      ((s + 4 * i) % 4294967296) % k.size + 4 ≤ d % k.size ∨
        d % k.size + 4 * n ≤ ((s + 4 * i) % 4294967296) % k.size) :
    ∀ m, m ≤ n →
      copyLoop32 s d m g = k.setBuf g (k.buf (copyLoop32 s d m g)) ∧
      (∀ x : Int, (x < ((d % k.size : Nat) : Int) ∨ ((d % k.size : Nat) : Int) + 4 * (m : Int) ≤ x) →
        k.buf (copyLoop32 s d m g) x = k.buf g x) ∧
      (∀ i, i < m →
        loadWord (k.buf (copyLoop32 s d m g)) (((d % k.size : Nat) : Int) + 4 * (i : Int))
          = truncate32 (GBALoad32 g ((s + 4 * i) % 4294967296))) := by
  intro m
  induction m with
  | zero =>
    intro _
    have h0 : copyLoop32 s d 0 g = g := rfl
    rw [h0]
    exact ⟨(k.setBuf_buf g).symm, fun _ _ => rfl, fun i hi => absurd hi (Nat.not_lt_zero i)⟩
  | succ m ih =>
    intro hm
    obtain ⟨ha, hb, hc⟩ := ih (by omega)
    have hdm := dest_elem k d n m 4 hk hlt (Or.inr rfl) hfit (by omega)
    have e4 : m <<< 2 = 4 * m := by rw [shl2]; omega
    -- the word read in this round is the one the source held at the start
    have hload : GBALoad32 (copyLoop32 s d m g) ((s + 4 * m) % 4294967296)
        = GBALoad32 g ((s + 4 * m) % 4294967296) := by
      rw [ha]
      apply GBALoad32_frame
      intro hks x hx1 hx2
      apply hb
      have := hsep m (by omega) hks
      have hsz := k.size_eq
      have hmod : ((s + 4 * m) % 4294967296) % 4 = 0 := by omega
      rcases hsz with hs | hs <;> rw [hs] at this hx1 hx2 ⊢ <;> omega
    have hidx : ((4 * (((d + 4 * m) % 4294967296) % k.size / 4) : Nat) : Int)
        = ((d % k.size : Nat) : Int) + 4 * (m : Int) := by
      rw [hdm.2]
      have hsz := k.size_eq
      rcases hsz with hs | hs <;> rw [hs] <;> omega
    have hstep : copyLoop32 s d (m + 1) g
        = k.setBuf g (storeWord (k.buf (copyLoop32 s d m g))
            (((d % k.size : Nat) : Int) + 4 * (m : Int))
            (truncate32 (GBALoad32 g ((s + 4 * m) % 4294967296)))) := by
      rw [copyLoop32_succ, e4, hload, GBAStore32_bank k _ _ _ hdm.1, hidx]
      conv => lhs; rw [ha]
      rw [RamBank.setBuf_setBuf, RamBank.buf_setBuf]
    rw [hstep, RamBank.buf_setBuf]
    refine ⟨rfl, ?_, ?_⟩
    · intro x hx
      rw [storeWord_outside _ _ _ _ (by omega)]
      exact hb x (by omega)
    · intro i hi
      rcases Nat.lt_succ_iff_lt_or_eq.1 hi with h1 | h1
      · rw [← hc i h1]
        apply loadWord_congr
        intro x hx1 hx2
        apply storeWord_outside
        omega
      · subst h1
        rw [loadWord_storeWord_same]
        exact Nat.mod_eq_of_lt (truncate32_lt _)

/-- Invariant of the 16-bit copy loop, as `copyLoop32_inv`. -/
theorem copyLoop16_inv (k : RamBank) (g : GBA) (s d n : Nat)
    (hk : k.holds d) (hlt : d < 4294967296) (hfit : d % k.size + 2 * n ≤ k.size)
    (hd2 : d % 2 = 0) (hs2 : s % 2 = 0)
    (hsep : ∀ i, i < n → k.holds ((s + 2 * i) % 4294967296) →
      ((s + 2 * i) % 4294967296) % k.size + 2 ≤ d % k.size ∨
        d % k.size + 2 * n ≤ ((s + 2 * i) % 4294967296) % k.size) :
    ∀ m, m ≤ n →
      copyLoop16 s d m g = k.setBuf g (k.buf (copyLoop16 s d m g)) ∧
      (∀ x : Int, (x < ((d % k.size : Nat) : Int) ∨ ((d % k.size : Nat) : Int) + 2 * (m : Int) ≤ x) →
        k.buf (copyLoop16 s d m g) x = k.buf g x) ∧
      (∀ i, i < m →
        loadHalf (k.buf (copyLoop16 s d m g)) (((d % k.size : Nat) : Int) + 2 * (i : Int))
          = GBALoadU16 g ((s + 2 * i) % 4294967296)) := by
  intro m
  induction m with
  | zero =>
    intro _
    have h0 : copyLoop16 s d 0 g = g := rfl
    rw [h0]
    exact ⟨(k.setBuf_buf g).symm, fun _ _ => rfl, fun i hi => absurd hi (Nat.not_lt_zero i)⟩
  | succ m ih =>
    intro hm
    obtain ⟨ha, hb, hc⟩ := ih (by omega)
    have hdm := dest_elem k d n m 2 hk hlt (Or.inl rfl) hfit (by omega)
    have e2 : m <<< 1 = 2 * m := by rw [shl1]; omega
    have hload : GBALoadU16 (copyLoop16 s d m g) ((s + 2 * m) % 4294967296)
        = GBALoadU16 g ((s + 2 * m) % 4294967296) := by
      rw [ha]
      apply GBALoadU16_frame
      intro hks x hx1 hx2
      apply hb
      have := hsep m (by omega) hks
      have hsz := k.size_eq
      have hmod : ((s + 2 * m) % 4294967296) % 2 = 0 := by omega
      rcases hsz with hs | hs <;> rw [hs] at this hx1 hx2 ⊢ <;> omega
    have hidx : ((2 * (((d + 2 * m) % 4294967296) % k.size / 2) : Nat) : Int)
        = ((d % k.size : Nat) : Int) + 2 * (m : Int) := by
      rw [hdm.2]
      have hsz := k.size_eq
      rcases hsz with hs | hs <;> rw [hs] <;> omega
    have hstep : copyLoop16 s d (m + 1) g
        = k.setBuf g (storeHalf (k.buf (copyLoop16 s d m g))
            (((d % k.size : Nat) : Int) + 2 * (m : Int))
            (GBALoadU16 g ((s + 2 * m) % 4294967296))) := by
      rw [copyLoop16_succ, e2, truncate16_GBALoad16, hload, GBAStore16_bank k _ _ _ hdm.1, hidx,
        truncate16_natCast, Nat.mod_eq_of_lt (GBALoadU16_lt _ _)]
      conv => lhs; rw [ha]
      rw [RamBank.setBuf_setBuf, RamBank.buf_setBuf]
    rw [hstep, RamBank.buf_setBuf]
    refine ⟨rfl, ?_, ?_⟩
    · intro x hx
      rw [storeHalf_outside _ _ _ _ (by omega)]
      exact hb x (by omega)
    · intro i hi
      rcases Nat.lt_succ_iff_lt_or_eq.1 hi with h1 | h1
      · rw [← hc i h1]
        apply loadHalf_congr
        intro x hx1 hx2
        apply storeHalf_outside
        omega
      · subst h1
        rw [loadHalf_storeHalf_same]
        exact Nat.mod_eq_of_lt (GBALoadU16_lt _ _)

/-- Result of the 32-bit copy loop into a range of bank `k` that does not wrap and that no
source element overlaps. -/
theorem copyLoop32_spec (k : RamBank) (g : GBA) (s d n : Nat)
    (hk : k.holds d) (hlt : d < 4294967296) (hfit : d % k.size + 4 * n ≤ k.size)
    (hd4 : d % 4 = 0) (hs4 : s % 4 = 0)
    (hsep : ∀ i, i < n → k.holds ((s + 4 * i) % 4294967296) →
      ((s + 4 * i) % 4294967296) % k.size + 4 ≤ d % k.size ∨
        d % k.size + 4 * n ≤ ((s + 4 * i) % 4294967296) % k.size) :
    (∀ i, i < n → GBALoad32 (copyLoop32 s d n g) ((d + 4 * i) % 4294967296)
        = GBALoad32 g ((s + 4 * i) % 4294967296)) ∧
    (∀ (k' : RamBank) (x : Int),
      ¬ (k' = k ∧ ((d % k.size : Nat) : Int) ≤ x ∧ x < ((d % k.size + 4 * n : Nat) : Int)) →
        k'.buf (copyLoop32 s d n g) x = k'.buf g x) ∧
    copyLoop32 s d n g = k.setBuf g (k.buf (copyLoop32 s d n g)) := by
  obtain ⟨ha, hb, hc⟩ := copyLoop32_inv k g s d n hk hlt hfit hd4 hs4 hsep n (le_refl n)
  refine ⟨?_, ?_, ha⟩
  · intro i hi
    have hdi := dest_elem k d n i 4 hk hlt (Or.inr rfl) hfit hi
    have hidx : ((4 * (((d + 4 * i) % 4294967296) % k.size / 4) : Nat) : Int)
        = ((d % k.size : Nat) : Int) + 4 * (i : Int) := by
      rw [hdi.2]
      rcases k.size_eq with hs | hs <;> rw [hs] <;> omega
    rw [GBALoad32_bank k _ _ hdi.1, hidx, hc i hi, toInt32_truncate32_GBALoad32]
  · intro k' x hx
    by_cases hkk : k' = k
    · subst hkk
      apply hb
      have : ¬ (((d % k'.size : Nat) : Int) ≤ x ∧ x < ((d % k'.size + 4 * n : Nat) : Int)) :=
        fun h => hx ⟨rfl, h⟩
      omega
    · rw [ha, RamBank.buf_setBuf_ne k k' _ _ (fun h => hkk h.symm)]

/-- Result of the 16-bit copy loop, as `copyLoop32_spec`. -/
theorem copyLoop16_spec (k : RamBank) (g : GBA) (s d n : Nat)
    (hk : k.holds d) (hlt : d < 4294967296) (hfit : d % k.size + 2 * n ≤ k.size)
    (hd2 : d % 2 = 0) (hs2 : s % 2 = 0)
    (hsep : ∀ i, i < n → k.holds ((s + 2 * i) % 4294967296) →
      ((s + 2 * i) % 4294967296) % k.size + 2 ≤ d % k.size ∨
        d % k.size + 2 * n ≤ ((s + 2 * i) % 4294967296) % k.size) :
    (∀ i, i < n → GBALoadU16 (copyLoop16 s d n g) ((d + 2 * i) % 4294967296)
        = GBALoadU16 g ((s + 2 * i) % 4294967296)) ∧
    (∀ (k' : RamBank) (x : Int),
      ¬ (k' = k ∧ ((d % k.size : Nat) : Int) ≤ x ∧ x < ((d % k.size + 2 * n : Nat) : Int)) →
        k'.buf (copyLoop16 s d n g) x = k'.buf g x) ∧
    copyLoop16 s d n g = k.setBuf g (k.buf (copyLoop16 s d n g)) := by
  obtain ⟨ha, hb, hc⟩ := copyLoop16_inv k g s d n hk hlt hfit hd2 hs2 hsep n (le_refl n)
  refine ⟨?_, ?_, ha⟩
  · intro i hi
    have hdi := dest_elem k d n i 2 hk hlt (Or.inl rfl) hfit hi
    have hidx : ((2 * (((d + 2 * i) % 4294967296) % k.size / 2) : Nat) : Int)
        = ((d % k.size : Nat) : Int) + 2 * (i : Int) := by
      rw [hdi.2]
      rcases k.size_eq with hs | hs <;> rw [hs] <;> omega
    rw [GBALoadU16_bank k _ _ hdi.1, hidx, hc i hi]
  · intro k' x hx
    by_cases hkk : k' = k
    · subst hkk
      apply hb
      have : ¬ (((d % k'.size : Nat) : Int) ≤ x ∧ x < ((d % k'.size + 2 * n : Nat) : Int)) :=
        fun h => hx ⟨rfl, h⟩
      omega
    · rw [ha, RamBank.buf_setBuf_ne k k' _ _ (fun h => hkk h.symm)]

theorem and_align4_lt (a : Nat) : a &&& 0xFFFFFFFC < 4294967296 ∧ (a &&& 0xFFFFFFFC) % 4 = 0 := by
  rw [and_align4]; omega

theorem and_align2_lt (a : Nat) : a &&& 0xFFFFFFFE < 4294967296 ∧ (a &&& 0xFFFFFFFE) % 2 = 0 := by
  rw [and_align2]; omega

/-- C10: CpuSet in copy mode (bit 24 of r2 clear), with count `r2 & 0xFFFFF`, element width
`w` = 4 or 2 selected by bit 26 and `source`, `dest` the two addresses forced down to
that alignment: for a source range readable through the bus (WRAM, IWRAM or ROM) and a
destination range that lies in one RAM bank `k`, does not wrap in it and is not
overlapped by a source element, after SWI 0x0B the element at `dest + i * w` equals the
element that was at `source + i * w` for every `i < count`, and every WRAM and IWRAM
byte outside the destination range is unchanged. -/
theorem cpuSet_copy (gba : GBA) (k : RamBank) (source dest count w : Nat)
    (hcopy : gba.gprs 2 &&& 0x01000000 = 0)
    (hcount : count = gba.gprs 2 &&& 0x000FFFFF)
    (hwidth : (gba.gprs 2 &&& 0x04000000 ≠ 0 ∧ w = 4 ∧ source = gba.gprs 0 &&& 0xFFFFFFFC ∧
        dest = gba.gprs 1 &&& 0xFFFFFFFC) ∨
      (gba.gprs 2 &&& 0x04000000 = 0 ∧ w = 2 ∧ source = gba.gprs 0 &&& 0xFFFFFFFE ∧
        dest = gba.gprs 1 &&& 0xFFFFFFFE))
    (hread : ∀ i, i < count → Readable ((source + w * i) % 4294967296))
    (hdest : k.holds dest ∧ dest % k.size + w * count ≤ k.size)
    (hsep : ∀ i, i < count → k.holds ((source + w * i) % 4294967296) →
      ((source + w * i) % 4294967296) % k.size + w ≤ dest % k.size ∨
        dest % k.size + w * count ≤ ((source + w * i) % 4294967296) % k.size) :
    (∀ i, i < count →
      (w = 4 → GBALoad32 (GBASwi16 gba 0xB) ((dest + w * i) % 4294967296)
          = GBALoad32 gba ((source + w * i) % 4294967296)) ∧
      (w = 2 → GBALoadU16 (GBASwi16 gba 0xB) ((dest + w * i) % 4294967296)
          = GBALoadU16 gba ((source + w * i) % 4294967296) ∧
        GBALoad16 (GBASwi16 gba 0xB) ((dest + w * i) % 4294967296)
          = GBALoad16 gba ((source + w * i) % 4294967296))) ∧
    (∀ (k' : RamBank) (x : Int),
      ¬ (k' = k ∧ ((dest % k.size : Nat) : Int) ≤ x ∧ x < ((dest % k.size + w * count : Nat) : Int)) →
        k'.buf (GBASwi16 gba 0xB) x = k'.buf gba x) := by
  rw [GBASwi16_cpuSet]
  rcases hwidth with ⟨hb, hw, hs, hd⟩ | ⟨hb, hw, hs, hd⟩
  · subst hw
    have hrun : _CpuSet gba = copyLoop32 source dest count gba := by
      unfold _CpuSet
      simp only [hcopy, hb, ne_eq, not_false_eq_true, if_true, not_true_eq_false, if_false]
      rw [hs, hd, hcount]
    have ad := and_align4_lt (gba.gprs 1)
    have as := and_align4_lt (gba.gprs 0)
    rw [← hd] at ad
    rw [← hs] at as
    obtain ⟨h1, h2, _⟩ := copyLoop32_spec k gba source dest count hdest.1 ad.1 hdest.2 ad.2 as.2 hsep
    rw [hrun]
    exact ⟨fun i hi => ⟨fun _ => h1 i hi, fun h => absurd h (by decide)⟩, h2⟩
  · subst hw
    have hrun : _CpuSet gba = copyLoop16 source dest count gba := by
      unfold _CpuSet
      simp only [hcopy, hb, ne_eq, not_false_eq_true, if_true, not_true_eq_false, if_false]
      rw [hs, hd, hcount]
      rfl
    have ad := and_align2_lt (gba.gprs 1)
    have as := and_align2_lt (gba.gprs 0)
    rw [← hd] at ad
    rw [← hs] at as
    obtain ⟨h1, h2, _⟩ := copyLoop16_spec k gba source dest count hdest.1 ad.1 hdest.2 ad.2 as.2 hsep
    rw [hrun]
    refine ⟨fun i hi => ⟨fun h => absurd h (by decide), fun _ => ⟨h1 i hi, ?_⟩⟩, h2⟩
    rw [GBALoad16_eq_toInt16, h1 i hi, ← GBALoad16_eq_toInt16]

/-- Instance of `cpuSet_copy`: four words copied from WRAM 0x02000000 to IWRAM
0x03000040 (r2 = 0x04000004). -/
theorem cpuSet_copy_witness :
    (∀ i, i < 4 →
      (4 = 4 → GBALoad32 (GBASwi16 (cpuSetCopyGBA 0x04000004) 0xB) ((0x03000040 + 4 * i) % 4294967296)
          = GBALoad32 (cpuSetCopyGBA 0x04000004) ((0x02000000 + 4 * i) % 4294967296)) ∧
      (4 = 2 → GBALoadU16 (GBASwi16 (cpuSetCopyGBA 0x04000004) 0xB) ((0x03000040 + 4 * i) % 4294967296)
          = GBALoadU16 (cpuSetCopyGBA 0x04000004) ((0x02000000 + 4 * i) % 4294967296) ∧
        GBALoad16 (GBASwi16 (cpuSetCopyGBA 0x04000004) 0xB) ((0x03000040 + 4 * i) % 4294967296)
          = GBALoad16 (cpuSetCopyGBA 0x04000004) ((0x02000000 + 4 * i) % 4294967296))) ∧
    (∀ (k' : RamBank) (x : Int),
      ¬ (k' = RamBank.iwram ∧ ((0x03000040 % RamBank.iwram.size : Nat) : Int) ≤ x ∧
          x < ((0x03000040 % RamBank.iwram.size + 4 * 4 : Nat) : Int)) →
        k'.buf (GBASwi16 (cpuSetCopyGBA 0x04000004) 0xB) x = k'.buf (cpuSetCopyGBA 0x04000004) x) :=
  cpuSet_copy (cpuSetCopyGBA 0x04000004) RamBank.iwram 0x02000000 0x03000040 4 4
    (by decide) (by decide) (Or.inl (by decide)) (by decide) (by decide) (by decide)

/-! ## DMA transfers -/

/-- With both cursors incrementing, the 32-bit transfer loop is the word copy loop. -/
theorem dmaStep32_iterate (g : GBA) (s d n : Nat) :
    (dmaStep32 4 4)^[n] (g, s % 4294967296, d % 4294967296)
      = (copyLoop32 s d n g, (s + 4 * n) % 4294967296, (d + 4 * n) % 4294967296) := by
  induction n with
  | zero => rfl
  | succ n ih =>
    rw [Function.iterate_succ_apply', ih, copyLoop32_succ, shl2]
    unfold dmaStep32 truncate32
    simp only
    refine Prod.ext ?_ (Prod.ext ?_ ?_)
    · simp only
      rw [Nat.mul_comm n 4]
    · simp only; omega
    · simp only; omega

/-- With both cursors incrementing, the 16-bit transfer loop is the halfword copy loop. -/
theorem dmaStep16_iterate (g : GBA) (s d n : Nat) :
    (dmaStep16 2 2)^[n] (g, s % 4294967296, d % 4294967296)
      = (copyLoop16 s d n g, (s + 2 * n) % 4294967296, (d + 2 * n) % 4294967296) := by
  induction n with
  | zero => rfl
  | succ n ih =>
    rw [Function.iterate_succ_apply', ih, copyLoop16_succ, shl1, truncate16_GBALoad16]
    unfold dmaStep16 truncate32
    simp only
    refine Prod.ext ?_ (Prod.ext ?_ ?_)
    · simp only
      rw [Nat.mul_comm n 2]
    · simp only; omega
    · simp only; omega

theorem isCart_of_range (a : Nat) (h : 0x08000000 ≤ a ∧ a < 0x0E000000) :
    isCart (regionBase a) := by
  unfold isCart BASE_CART0 BASE_CART0_EX BASE_CART1 BASE_CART1_EX BASE_CART2 BASE_CART2_EX
  rw [regionBase_eq]
  omega

theorem isCart_not_ram (r : Nat) (h : isCart r) :
    ¬ r = BASE_WORKING_RAM ∧ ¬ r = BASE_WORKING_IRAM ∧ ¬ r = BASE_IO := by
  unfold isCart at h
  rcases h with h | h | h | h | h | h <;> rw [h] <;> decide

theorem GBALoad32_cart (g : GBA) (a : Nat) (h : isCart (regionBase a)) :
    GBALoad32 g a = toInt32 (loadWord g.memory.rom ((4 * (a % 33554432 / 4) : Nat) : Int)) := by
  obtain ⟨h1, h2, h3⟩ := isCart_not_ram _ h
  unfold GBALoad32
  rw [if_neg h1, if_neg h2, if_neg h3, if_pos h, and_cart_mask, shr2]

theorem GBALoadU16_cart (g : GBA) (a : Nat) (h : isCart (regionBase a)) :
    GBALoadU16 g a = loadHalf g.memory.rom ((2 * (a % 33554432 / 2) : Nat) : Int) := by
  obtain ⟨h1, h2, h3⟩ := isCart_not_ram _ h
  unfold GBALoadU16
  rw [if_neg h1, if_neg h2, if_neg h3, if_pos h, and_cart_mask, shr1]

theorem regionBase_congr (a b : Nat) (h : a / 4 = b / 4) : regionBase a = regionBase b := by
  rw [regionBase_eq, regionBase_eq]
  have : a / 16777216 = b / 16777216 := by omega
  rw [this]

/-- A word load from RAM or ROM depends on the address only up to its two low bits. -/
theorem GBALoad32_word (g : GBA) (a b : Nat) (h : a / 4 = b / 4) (hr : Readable a) :
    GBALoad32 g a = GBALoad32 g b := by
  have hreg := regionBase_congr a b h
  have hbank : ∀ k : RamBank, k.holds a → GBALoad32 g a = GBALoad32 g b := by
    intro k hk
    have hkb : k.holds b := by unfold RamBank.holds at hk ⊢; rw [← hreg]; exact hk
    rw [GBALoad32_bank k g a hk, GBALoad32_bank k g b hkb]
    have : a % k.size / 4 = b % k.size / 4 := by
      rcases k.size_eq with hs | hs <;> rw [hs] <;> omega
    rw [this]
  rcases hr with hk | hk | hc
  · exact hbank _ hk
  · exact hbank _ hk
  · rw [GBALoad32_cart g a hc, GBALoad32_cart g b (hreg ▸ hc)]
    have : a % 33554432 / 4 = b % 33554432 / 4 := by omega
    rw [this]

/-- Service of an enabled channel whose repeat bit is clear: one transfer, no nested call. -/
theorem serviceDMA_nonrepeat (fuel : Nat) (g : GBA) (n : Fin 4)
    (hen : (g.memory.dma n).enable ≠ 0) (hrep : (g.memory.dma n).repeat_ = 0) :
    GBAMemoryServiceDMA (fuel + 1) g n
      = some { (dmaTransfer g (g.memory.dma n)).1 with
          memory := { (dmaTransfer g (g.memory.dma n)).1.memory with
            dma := Function.update (dmaTransfer g (g.memory.dma n)).1.memory.dma n
              (GBADMA.clearEnable
                { g.memory.dma n with
                  nextIRQ := if (g.memory.dma n).doIrq ≠ 0
                    then dmaNextIRQ (dmaTransfer g (g.memory.dma n)).1 (g.memory.dma n)
                    else (g.memory.dma n).nextIRQ
                  nextSource := (dmaTransfer g (g.memory.dma n)).2.1
                  nextDest := (dmaTransfer g (g.memory.dma n)).2.2
                  nextCount := -1 })
            io := Function.update (dmaTransfer g (g.memory.dma n)).1.memory.io
              ((REG_DMA0CNT_HI + n.val * (REG_DMA1CNT_HI - REG_DMA0CNT_HI)) >>> 1)
              ((dmaTransfer g (g.memory.dma n)).1.memory.io
                ((REG_DMA0CNT_HI + n.val * (REG_DMA1CNT_HI - REG_DMA0CNT_HI)) >>> 1) &&& 0x7FE0) } } := by
  have hrep' : GBADMA.repeat_
      { g.memory.dma n with
        nextIRQ := if (g.memory.dma n).doIrq ≠ 0
          then dmaNextIRQ (dmaTransfer g (g.memory.dma n)).1 (g.memory.dma n)
          else (g.memory.dma n).nextIRQ
        nextSource := (dmaTransfer g (g.memory.dma n)).2.1
        nextDest := (dmaTransfer g (g.memory.dma n)).2.2
        nextCount := -1 } = 0 := hrep
  unfold GBAMemoryServiceDMA
  simp only [hen, if_false]
  rw [if_pos hrep']

theorem clearEnable_enable (d : GBADMA) : d.clearEnable.enable = 0 := by
  unfold GBADMA.clearEnable GBADMA.enable
  simp only
  omega

theorem testBit15_of_enable (p : Nat) (h : p / 32768 % 2 = 0) : p.testBit 15 = false := by
  rw [Nat.testBit_to_div_mod]
  have : (2 : Nat) ^ 15 = 32768 := by norm_num
  rw [this, h]
  rfl

/-- C3: for every channel and every machine in which the channel is enabled with repeat
clear, `GBAMemoryServiceDMA` returns (with any fuel for nested calls) and leaves the
channel's enable flag false, bit 15 of its control word zero, and bit 15 of the shadow
I/O word `io[DMAnCNT_HI >> 1]` zero. -/
theorem serviceDMA_clears_enable (fuel : Nat) (gba : GBA) (n : Fin 4)
    (hen : (gba.memory.dma n).enable ≠ 0) (hrep : (gba.memory.dma n).repeat_ = 0) :
    ∃ gba', GBAMemoryServiceDMA (fuel + 1) gba n = some gba' ∧
      (gba'.memory.dma n).enable = 0 ∧
      (gba'.memory.dma n).packed.testBit 15 = false ∧
      (gba'.memory.io ((REG_DMA0CNT_HI + n.val * (REG_DMA1CNT_HI - REG_DMA0CNT_HI)) >>> 1)).testBit 15
        = false := by
  refine ⟨_, serviceDMA_nonrepeat fuel gba n hen hrep, ?_, ?_, ?_⟩
  · simp only [Function.update_same]
    exact clearEnable_enable _
  · simp only [Function.update_same]
    exact testBit15_of_enable _ (clearEnable_enable _)
  · simp only [Function.update_same]
    rw [Nat.testBit_and]
    have : (0x7FE0 : Nat).testBit 15 = false := by decide
    rw [this, Bool.and_false]

/-- Instance of `serviceDMA_clears_enable`: channel 3 enabled with control 0xC400 (enable,
IRQ, 32-bit, immediate, no repeat) and an all-ones shadow register. -/
theorem serviceDMA_clears_enable_witness :
    ∃ gba', GBAMemoryServiceDMA 1 (dma3GBA 0xC400) 3 = some gba' ∧
      (gba'.memory.dma 3).enable = 0 ∧
      (gba'.memory.dma 3).packed.testBit 15 = false ∧
      (gba'.memory.io ((REG_DMA0CNT_HI + (3 : Fin 4).val * (REG_DMA1CNT_HI - REG_DMA0CNT_HI)) >>> 1)).testBit 15
        = false :=
  serviceDMA_clears_enable 0 (dma3GBA 0xC400) 3 (by decide) (by decide)

/-- A control write that turns on a disabled channel with immediate timing services
the latched channel at once. -/
theorem writeDMACNT_HI_immediate (fuel : Nat) (g : GBA) (n : Fin 4) (control : Nat)
    (hdis : (g.memory.dma n).enable = 0) (hen : control % 65536 / 32768 % 2 ≠ 0)
    (htim : control % 65536 / 4096 % 4 = 0) :
    GBAMemoryWriteDMACNT_HI fuel g n control
      = match GBAMemoryServiceDMA fuel (latchedGBA g n control) n with
        | none => none
        | some g3 => some (g3, (g3.memory.dma n).packed) := by
  unfold GBAMemoryWriteDMACNT_HI GBAMemoryScheduleDMA
  simp only [GBADMA.enable, GBADMA.timing, GBADMA.drq, DMA_TIMING_NOW] at hdis ⊢
  rw [if_pos ⟨hdis, hen⟩, if_pos htim]
  simp only [Function.update_idem]
  rfl

theorem dmaIterations_natCast (N : Nat) (h : N < 4294967296) : dmaIterations (N : Int) = N := by
  unfold dmaIterations truncate32; omega

theorem not_wram_of_cart_range (a : Nat) (h : 0x08000000 ≤ a ∧ a < 0x0E000000) :
    ¬ RamBank.wram.holds a := by
  rw [RamBank.holds_wram_iff]; omega

/-- Transfer of a latched 32-bit channel with both cursors incrementing: the word copy
loop from the aligned cursors. -/
theorem dmaTransfer_inc32 (g : GBA) (info : GBADMA) (N : Nat)
    (hw : info.width = 1) (hsc : info.srcControl = 0) (hdc : info.dstControl = 0)
    (hN : info.nextCount = (N : Int)) (hNlt : N < 4294967296) :
    (dmaTransfer g info).1
      = copyLoop32 (info.nextSource &&& 0xFFFFFFFC) (info.nextDest &&& 0xFFFFFFFC) N g := by
  unfold dmaTransfer
  simp only [hw, hsc, hdc, hN, DMA_OFFSET, dmaIterations_natCast N hNlt, ne_eq, one_ne_zero,
    not_false_eq_true, if_true]
  have h := dmaStep32_iterate g (info.nextSource &&& 0xFFFFFFFC) (info.nextDest &&& 0xFFFFFFFC) N
  rw [Nat.mod_eq_of_lt (and_align4_lt _).1, Nat.mod_eq_of_lt (and_align4_lt _).1] at h
  have e : ((1 : Int) * ((4 : Nat) : Int)) = 4 := by norm_num
  rw [e, h]

/-- Transfer of a latched 16-bit channel with both cursors incrementing: the halfword
copy loop. -/
theorem dmaTransfer_inc16 (g : GBA) (info : GBADMA) (N : Nat)
    (hw : info.width = 0) (hsc : info.srcControl = 0) (hdc : info.dstControl = 0)
    (hN : info.nextCount = (N : Int)) (hNlt : N < 4294967296)
    (hs : info.nextSource < 4294967296) (hd : info.nextDest < 4294967296) :
    (dmaTransfer g info).1 = copyLoop16 info.nextSource info.nextDest N g := by
  unfold dmaTransfer
  simp only [hw, hsc, hdc, hN, DMA_OFFSET, dmaIterations_natCast N hNlt, ne_eq,
    not_true_eq_false, if_false, if_true]
  have h := dmaStep16_iterate g info.nextSource info.nextDest N
  rw [Nat.mod_eq_of_lt hs, Nat.mod_eq_of_lt hd] at h
  have e : ((1 : Int) * ((2 : Nat) : Int)) = 2 := by norm_num
  have e2 : ¬ ((2 : Nat) = 4) := by decide
  rw [if_neg e2, e, h]

theorem latchedGBA_dma (g : GBA) (n : Fin 4) (control : Nat) :
    (latchedGBA g n control).memory.dma n = latchedDMA g n control := by
  unfold latchedGBA
  simp only [Function.update_same]

/-- Immediate, non-repeating, incrementing transfer started by a control write on a
disabled channel whose programmed source range is in ROM and destination range is in
WRAM without wrapping: the write returns and the destination elements equal the
source elements. -/
theorem dma_copy_fields (fuel : Nat) (g : GBA) (n : Fin 4) (control source dest N w : Nat)
    (hdis : (g.memory.dma n).enable = 0)
    (hs : (g.memory.dma n).source = source) (hd : (g.memory.dma n).dest = dest)
    (hc : (g.memory.dma n).count = (N : Int))
    (hs2 : source % 2 = 0) (hd2 : dest % 2 = 0)
    (hcontrol : control < 65536 ∧ control / 32768 % 2 = 1 ∧ control / 4096 % 4 = 0 ∧
      control / 512 % 2 = 0 ∧ control / 128 % 4 = 0 ∧ control / 32 % 4 = 0)
    (hw : (control / 1024 % 2 = 1 ∧ w = 4) ∨ (control / 1024 % 2 = 0 ∧ w = 2))
    (hrom : 0x08000000 ≤ source ∧ source + w * N ≤ 0x0E000000)
    (hram : 0x02000000 ≤ dest ∧ dest < 0x03000000 ∧ dest % 0x40000 + w * N ≤ 0x40000) :
    ∃ g' r, GBAMemoryWriteDMACNT_HI (fuel + 1) g n control = some (g', r) ∧
      (g'.memory.dma n).enable = 0 ∧
      ∀ i, i < N →
        (w = 4 → GBALoad32 g' (dest + 4 * i) = GBALoad32 g (source + 4 * i)) ∧
        (w = 2 → GBALoadU16 g' (dest + 2 * i) = GBALoadU16 g (source + 2 * i)) := by
  obtain ⟨hc16, hen, htim, hrep, hsc, hdc⟩ := hcontrol
  have hmod : control % 65536 = control := Nat.mod_eq_of_lt hc16
  have hinfo := latchedGBA_dma g n control
  have hen' : ((latchedGBA g n control).memory.dma n).enable ≠ 0 := by
    rw [hinfo]; show control % 65536 / 32768 % 2 ≠ 0; rw [hmod, hen]; decide
  have hrep' : ((latchedGBA g n control).memory.dma n).repeat_ = 0 := by
    rw [hinfo]; show control % 65536 / 512 % 2 = 0; rw [hmod, hrep]
  rw [writeDMACNT_HI_immediate (fuel + 1) g n control hdis (by rw [hmod, hen]; decide)
    (by rw [hmod, htim]), serviceDMA_nonrepeat fuel _ n hen' hrep', hinfo]
  refine ⟨_, _, rfl, ?_, ?_⟩
  · simp only [Function.update_same]
    exact clearEnable_enable _
  have hsc' : (latchedDMA g n control).srcControl = 0 := by
    show control % 65536 / 128 % 4 = 0; rw [hmod, hsc]
  have hdc' : (latchedDMA g n control).dstControl = 0 := by
    show control % 65536 / 32 % 4 = 0; rw [hmod, hdc]
  have hns : (latchedDMA g n control).nextSource = source := hs
  have hnd : (latchedDMA g n control).nextDest = dest := hd
  have hnc : (latchedDMA g n control).nextCount = (N : Int) := hc
  intro i hi
  rcases hw with ⟨hbit, hw⟩ | ⟨hbit, hw⟩
  · subst hw
    refine ⟨fun _ => ?_, fun h => absurd h (by decide)⟩
    have hwid : (latchedDMA g n control).width = 1 := by
      show control % 65536 / 1024 % 2 = 1; rw [hmod, hbit]
    have htr := dmaTransfer_inc32 (latchedGBA g n control) (latchedDMA g n control) N hwid hsc'
      hdc' hnc (by omega)
    rw [hns, hnd] at htr
    have hd' : dest &&& 0xFFFFFFFC = dest / 4 * 4 := by rw [and_align4]; omega
    have hs' : source &&& 0xFFFFFFFC = source / 4 * 4 := by rw [and_align4]; omega
    have hk : RamBank.wram.holds (dest &&& 0xFFFFFFFC) := by
      rw [RamBank.holds_wram_iff, hd']; omega
    have hfit : (dest &&& 0xFFFFFFFC) % RamBank.wram.size + 4 * N ≤ RamBank.wram.size := by
      show (dest &&& 0xFFFFFFFC) % 262144 + 4 * N ≤ 262144
      rw [hd']; omega
    obtain ⟨h1, _, _⟩ := copyLoop32_spec RamBank.wram (latchedGBA g n control)
      (source &&& 0xFFFFFFFC) (dest &&& 0xFFFFFFFC) N hk (and_align4_lt _).1 hfit
      (and_align4_lt _).2 (and_align4_lt _).2
      (fun j hj hh => absurd hh (not_wram_of_cart_range _ (by rw [hs']; omega)))
    have h1i := h1 i hi
    rw [← htr] at h1i
    have hda : GBALoad32 (dmaTransfer (latchedGBA g n control) (latchedDMA g n control)).1
        (dest + 4 * i)
        = GBALoad32 (dmaTransfer (latchedGBA g n control) (latchedDMA g n control)).1
          (((dest &&& 0xFFFFFFFC) + 4 * i) % 4294967296) :=
      GBALoad32_word _ _ _ (by rw [hd']; omega)
        (Or.inl ((RamBank.holds_wram_iff _).2 (by omega)))
    have hsa : GBALoad32 g (source + 4 * i)
        = GBALoad32 g (((source &&& 0xFFFFFFFC) + 4 * i) % 4294967296) :=
      GBALoad32_word _ _ _ (by rw [hs']; omega)
        (Or.inr (Or.inr (isCart_of_range _ (by omega))))
    rw [hsa]
    exact hda.trans h1i
  · subst hw
    refine ⟨fun h => absurd h (by decide), fun _ => ?_⟩
    have hwid : (latchedDMA g n control).width = 0 := by
      show control % 65536 / 1024 % 2 = 0; rw [hmod, hbit]
    have htr := dmaTransfer_inc16 (latchedGBA g n control) (latchedDMA g n control) N hwid hsc'
      hdc' hnc (by omega) (by rw [hns]; omega) (by rw [hnd]; omega)
    rw [hns, hnd] at htr
    have hk : RamBank.wram.holds dest := by
      rw [RamBank.holds_wram_iff]; omega
    obtain ⟨h1, _, _⟩ := copyLoop16_spec RamBank.wram (latchedGBA g n control)
      source dest N hk (by omega) hram.2.2 hd2 hs2
      (fun j hj hh => absurd hh (not_wram_of_cart_range _ (by omega)))
    have h1i := h1 i hi
    rw [← htr, Nat.mod_eq_of_lt (by omega), Nat.mod_eq_of_lt (by omega)] at h1i
    exact h1i

/-- C2: for a disabled channel `n` programmed (through the DMA register writes) with a
source range inside the ROM windows, a destination range inside WRAM that does not wrap
and a count `N`, a control write that sets the enable bit (bit 15) with immediate timing
(bits 12-13 zero), repeat clear (bit 9), and incrementing source and destination control
(bits 7-8 and 5-6 zero) returns, and afterwards the WRAM element at `dest + i * w` equals
the ROM element at `source + i * w` for every `i < N`, for `w` = 4 (bit 10 set) and for
`w` = 2 (bit 10 clear). -/
theorem dma_immediate_copy (gba gba1 : GBA) (n : Fin 4) (src dst cnt control fuel : Nat)
    (source dest N w : Nat)
    (hprog : gba1 = GBAMemoryWriteDMACNT_LO
      (GBAMemoryWriteDMADAD (GBAMemoryWriteDMASAD gba n src) n dst) n cnt)
    (hsource : source = (gba1.memory.dma n).source) (hdest : dest = (gba1.memory.dma n).dest)
    (hN : (N : Int) = (gba1.memory.dma n).count)
    (hdisabled : (gba.memory.dma n).enable = 0)
    (hcontrol : control < 65536 ∧ control / 32768 % 2 = 1 ∧ control / 4096 % 4 = 0 ∧
      control / 512 % 2 = 0 ∧ control / 128 % 4 = 0 ∧ control / 32 % 4 = 0)
    (hw : (control / 1024 % 2 = 1 ∧ w = 4) ∨ (control / 1024 % 2 = 0 ∧ w = 2))
    (hrom : 0x08000000 ≤ source ∧ source + w * N ≤ 0x0E000000)
    (hram : 0x02000000 ≤ dest ∧ dest < 0x03000000 ∧ dest % 0x40000 + w * N ≤ 0x40000) :
    1 ≤ N ∧
    ∃ gba' r, GBAMemoryWriteDMACNT_HI (fuel + 1) gba1 n control = some (gba', r) ∧
      ∀ i, i < N →
        (w = 4 → GBALoad32 gba' (dest + 4 * i) = GBALoad32 gba1 (source + 4 * i)) ∧
        (w = 2 → GBALoadU16 gba' (dest + 2 * i) = GBALoadU16 gba1 (source + 2 * i)) := by
  have hrec : gba1.memory.dma n
      = { gba.memory.dma n with
          source := src &&& 0xFFFFFFFE
          dest := dst &&& 0xFFFFFFFE
          count := if cnt % 65536 ≠ 0 then ((cnt % 65536 : Nat) : Int)
                   else (if n.val = 3 then 0x10000 else 0x4000) } := by
    rw [hprog]
    simp only [GBAMemoryWriteDMACNT_LO, GBAMemoryWriteDMADAD, GBAMemoryWriteDMASAD,
      Function.update_same]
  have hN1 : 1 ≤ N := by
    rw [hrec] at hN
    simp only at hN
    split at hN
    · omega
    · split at hN <;> omega
  refine ⟨hN1, ?_⟩
  have hdis : (gba1.memory.dma n).enable = 0 := by rw [hrec]; exact hdisabled
  have hs2 : source % 2 = 0 := by rw [hsource, hrec]; exact (and_align2_lt src).2
  have hd2 : dest % 2 = 0 := by rw [hdest, hrec]; exact (and_align2_lt dst).2
  obtain ⟨g', r, h1, _, h2⟩ := dma_copy_fields fuel gba1 n control source dest N w hdis
    hsource.symm hdest.symm hN.symm hs2 hd2 hcontrol hw hrom hram
  exact ⟨g', r, h1, h2⟩

/-- Scenario 5 of the spec as an instance of `dma_immediate_copy`: DMA3 programmed with
source 0x08000000, dest 0x02000000, count 4, then control 0xC400 (enable, IRQ, 32-bit,
immediate); the four words at 0x02000000 equal the first four ROM words. -/
theorem dma_immediate_copy_witness :
    1 ≤ 4 ∧
    ∃ gba' r, GBAMemoryWriteDMACNT_HI (0 + 1)
        (GBAMemoryWriteDMACNT_LO (GBAMemoryWriteDMADAD (GBAMemoryWriteDMASAD
          (blankGBA (bufOfList [1, 2, 3, 4, 5, 6, 7, 8, 9, 10, 11, 12, 13, 14, 15, 16])) 3
          0x08000000) 3 0x02000000) 3 4) 3 0xC400 = some (gba', r) ∧
      ∀ i, i < 4 →
        (4 = 4 → GBALoad32 gba' (0x02000000 + 4 * i)
          = GBALoad32 (GBAMemoryWriteDMACNT_LO (GBAMemoryWriteDMADAD (GBAMemoryWriteDMASAD
              (blankGBA (bufOfList [1, 2, 3, 4, 5, 6, 7, 8, 9, 10, 11, 12, 13, 14, 15, 16])) 3
              0x08000000) 3 0x02000000) 3 4) (0x08000000 + 4 * i)) ∧
        (4 = 2 → GBALoadU16 gba' (0x02000000 + 2 * i)
          = GBALoadU16 (GBAMemoryWriteDMACNT_LO (GBAMemoryWriteDMADAD (GBAMemoryWriteDMASAD
              (blankGBA (bufOfList [1, 2, 3, 4, 5, 6, 7, 8, 9, 10, 11, 12, 13, 14, 15, 16])) 3
              0x08000000) 3 0x02000000) 3 4) (0x08000000 + 2 * i)) :=
  dma_immediate_copy (blankGBA (bufOfList [1, 2, 3, 4, 5, 6, 7, 8, 9, 10, 11, 12, 13, 14, 15, 16]))
    _ 3 0x08000000 0x02000000 4 0xC400 0 0x08000000 0x02000000 4 4 rfl (by decide) (by decide)
    (by decide) (by decide) (by decide) (Or.inl (by decide)) (by decide) (by decide)

/-- One channel block of `GBAMemoryProcessEvents` keeps every control word, and raises
its line only when its own channel is enabled. -/
theorem processChannel_disabled (cycles : Int) (j n : Fin 4) (s : GBA × Int)
    (hdis : (s.1.memory.dma n).enable = 0) :
    ((processChannel cycles j (irqOfChannel j) s).1.memory.dma n).enable = 0 ∧
    List.count (irqOfChannel n) (processChannel cycles j (irqOfChannel j) s).1.irqs
      = List.count (irqOfChannel n) s.1.irqs := by
  by_cases hjn : j = n
  · subst hjn
    unfold processChannel
    simp only [hdis, ne_eq, not_true_eq_false, false_and, if_false, Function.update_same]
    exact ⟨hdis, trivial⟩
  · have hne : irqOfChannel j ≠ irqOfChannel n := by
      unfold irqOfChannel
      intro h
      exact hjn (Fin.ext (by omega))
    have hne' : n ≠ j := fun h => hjn h.symm
    unfold processChannel
    simp only
    split_ifs <;>
      simp only [GBARaiseIRQ, Function.update_noteq hne', List.count_append, List.count_cons,
        List.count_nil, hdis, beq_iff_eq, hne, if_false, Nat.add_zero, and_self]

theorem processEvents_disabled (cycles : Int) (n : Fin 4) (g : GBA)
    (hdis : (g.memory.dma n).enable = 0) :
    (((GBAMemoryProcessEvents g cycles).1).memory.dma n).enable = 0 ∧
    List.count (irqOfChannel n) (GBAMemoryProcessEvents g cycles).1.irqs
      = List.count (irqOfChannel n) g.irqs := by
  have h0 := processChannel_disabled cycles 0 n (g, INT_MAX) hdis
  have h1 := processChannel_disabled cycles 1 n _ h0.1
  have h2 := processChannel_disabled cycles 2 n _ h1.1
  have h3 := processChannel_disabled cycles 3 n _ h2.1
  exact ⟨h3.1, h3.2.trans (h2.2.trans (h1.2.trans h0.2))⟩

theorem runEvents_disabled (cycles : List Int) (n : Fin 4) (g : GBA)
    (hdis : (g.memory.dma n).enable = 0) :
    List.count (irqOfChannel n) (runEvents cycles g).irqs = List.count (irqOfChannel n) g.irqs := by
  induction cycles generalizing g with
  | nil => rfl
  | cons c cs ih =>
    have h := processEvents_disabled c n g hdis
    show List.count (irqOfChannel n) (runEvents cs (GBAMemoryProcessEvents g c).1).irqs = _
    rw [ih _ h.1, h.2]

theorem GBAStore32_irqs (g : GBA) (a : Nat) (v : Int) : (GBAStore32 g a v).irqs = g.irqs := by
  unfold GBAStore32; split_ifs <;> rfl

theorem GBAStore16_irqs (g : GBA) (a : Nat) (v : Int) : (GBAStore16 g a v).irqs = g.irqs := by
  unfold GBAStore16; split_ifs <;> rfl

theorem dmaTransfer_irqs (g : GBA) (info : GBADMA) : (dmaTransfer g info).1.irqs = g.irqs := by
  have h32 : ∀ (so d : Int) (k : Nat) (s : GBA × Nat × Nat),
      ((dmaStep32 so d)^[k] s).1.irqs = s.1.irqs := by
    intro so d k s
    induction k with
    | zero => rfl
    | succ k ih => rw [Function.iterate_succ_apply']; exact (GBAStore32_irqs _ _ _).trans ih
  have h16 : ∀ (so d : Int) (k : Nat) (s : GBA × Nat × Nat),
      ((dmaStep16 so d)^[k] s).1.irqs = s.1.irqs := by
    intro so d k s
    induction k with
    | zero => rfl
    | succ k ih => rw [Function.iterate_succ_apply']; exact (GBAStore16_irqs _ _ _).trans ih
  unfold dmaTransfer
  simp only
  split
  · exact h32 _ _ _ _
  · exact h16 _ _ _ _

/-- Code behaviour behind C4: a control write that starts an immediate, non-repeating
transfer with `doIrq` set (bit 14) on a disabled channel `n` returns with the channel
disabled again, and no sequence of later `GBAMemoryProcessEvents` calls, whatever the
cycle counts, raises the channel's interrupt line: the number of times the line occurs
among the raised interrupts stays what it was before the write. -/
theorem dma_completion_irq_not_raised (fuel : Nat) (gba : GBA) (n : Fin 4) (control : Nat)
    (hdisabled : (gba.memory.dma n).enable = 0)
    (hcontrol : control < 65536 ∧ control / 32768 % 2 = 1 ∧ control / 16384 % 2 = 1 ∧
      control / 4096 % 4 = 0 ∧ control / 512 % 2 = 0) :
    ∃ gba' r, GBAMemoryWriteDMACNT_HI (fuel + 1) gba n control = some (gba', r) ∧
      ∀ cycles : List Int,
        List.count (irqOfChannel n) (runEvents cycles gba').irqs
          = List.count (irqOfChannel n) gba.irqs := by
  obtain ⟨hc16, hen, _, htim, hrep⟩ := hcontrol
  have hmod : control % 65536 = control := Nat.mod_eq_of_lt hc16
  have hinfo := latchedGBA_dma gba n control
  have hen' : ((latchedGBA gba n control).memory.dma n).enable ≠ 0 := by
    rw [hinfo]; show control % 65536 / 32768 % 2 ≠ 0; rw [hmod, hen]; decide
  have hrep' : ((latchedGBA gba n control).memory.dma n).repeat_ = 0 := by
    rw [hinfo]; show control % 65536 / 512 % 2 = 0; rw [hmod, hrep]
  rw [writeDMACNT_HI_immediate (fuel + 1) gba n control hdisabled (by rw [hmod, hen]; decide)
    (by rw [hmod, htim]), serviceDMA_nonrepeat fuel _ n hen' hrep']
  refine ⟨_, _, rfl, fun cycles => ?_⟩
  rw [runEvents_disabled cycles n _ (by simp only [Function.update_same]; exact clearEnable_enable _)]
  show List.count (irqOfChannel n) (dmaTransfer _ _).1.irqs = _
  rw [dmaTransfer_irqs]
  rfl

/-- Instance of `dma_completion_irq_not_raised` on scenario 5 (DMA3, control 0xC400): after
the control write, `GBAMemoryProcessEvents` with 1000000 cycles, and again with
1000000, has raised no interrupt at all. -/
theorem dma_completion_irq_not_raised_witness :
    (∃ gba' r, GBAMemoryWriteDMACNT_HI (0 + 1) (dma3GBA 0) 3 0xC400 = some (gba', r) ∧
      ∀ cycles : List Int,
        List.count (irqOfChannel 3) (runEvents cycles gba').irqs
          = List.count (irqOfChannel 3) (dma3GBA 0).irqs) ∧
    (GBAMemoryWriteDMACNT_HI 1 (dma3GBA 0) 3 0xC400).map
      (fun p => (runEvents [1000000, 1000000] p.1).irqs) = some [] :=
  ⟨dma_completion_irq_not_raised 0 (dma3GBA 0) 3 0xC400 (by decide) (by decide), by decide⟩

/-! ## LZ77 decompression -/

theorem LzTarget.target_buf_setBuf (t : LzTarget) (g : GBA) (b : Buf) : t.buf (t.setBuf g b) = b := by
  cases t <;> rfl

theorem LzTarget.target_setBuf_setBuf (t : LzTarget) (g : GBA) (b c : Buf) :
    t.setBuf (t.setBuf g b) c = t.setBuf g c := by
  cases t <;> rfl

theorem LzTarget.target_setBuf_buf (t : LzTarget) (g : GBA) : t.setBuf g (t.buf g) = g := by
  cases t <;> rfl

theorem lzStore_eq (g : GBA) (t : LzTarget) (p : Int) (v : Nat) :
    lzStore g t p v = t.setBuf g (storeByte (t.buf g) p v) := by
  cases t <;> rfl

theorem lzLoad_eq (g : GBA) (t : LzTarget) (p : Int) : lzLoad g t p = loadByte (t.buf g) p := by
  cases t <;> rfl

/-- The inner copy loop writes one byte per round at consecutive offsets from `dPointer`
on, stops when nothing remains, and touches nothing else. -/
theorem lzCopy_spec (t : LzTarget) (bytes : Nat) (g : GBA) (disp dP : Int) (rem : Nat) :
    (lzCopy t bytes g disp dP rem).2.1 + ((lzCopy t bytes g disp dP rem).2.2 : Int)
        = dP + (rem : Int) ∧
    (lzCopy t bytes g disp dP rem).2.2 ≤ rem ∧
    (0 < bytes → 0 < rem → (lzCopy t bytes g disp dP rem).2.2 < rem) ∧
    (lzCopy t bytes g disp dP rem).1 = t.setBuf g (t.buf (lzCopy t bytes g disp dP rem).1) ∧
    (∀ x : Int, (x < dP ∨ (lzCopy t bytes g disp dP rem).2.1 ≤ x) →
      t.buf (lzCopy t bytes g disp dP rem).1 x = t.buf g x) := by
  induction bytes generalizing g disp dP rem with
  | zero =>
    refine ⟨rfl, le_refl _, fun h => absurd h (Nat.lt_irrefl 0), (t.target_setBuf_buf g).symm,
      fun _ _ => rfl⟩
  | succ bytes ih =>
    by_cases hr : rem = 0
    · subst hr
      refine ⟨rfl, le_refl _, fun _ h => absurd h (Nat.lt_irrefl 0), (t.target_setBuf_buf g).symm,
        fun _ _ => rfl⟩
    · have hstep : lzCopy t (bytes + 1) g disp dP rem
          = lzCopy t bytes (lzStore g t dP (lzLoad g t disp)) (disp + 1) (dP + 1) (rem - 1) := by
        rw [lzCopy, if_neg hr]
      rw [hstep]
      obtain ⟨h1, h2, _, h4, h5⟩ :=
        ih (lzStore g t dP (lzLoad g t disp)) (disp + 1) (dP + 1) (rem - 1)
      have hmono : dP + 1 ≤ (lzCopy t bytes (lzStore g t dP (lzLoad g t disp)) (disp + 1)
          (dP + 1) (rem - 1)).2.1 := by omega
      refine ⟨by omega, by omega, fun _ _ => by omega, ?_, ?_⟩
      · conv => lhs; rw [h4]
        rw [lzStore_eq, LzTarget.target_setBuf_setBuf]
      · intro x hx
        rw [h5 x (by omega), lzStore_eq, LzTarget.target_buf_setBuf]
        exact storeByte_other _ _ _ _ (by omega)

/-- One round of the outer loop with bytes remaining: the bound on the rounds drops, the
end of the output (`dPointer + remaining`) stays, and only bytes between the old and the
new `dPointer` in the destination buffer change. -/
theorem lzStep_spec (t : LzTarget) (s : LzState) (hr : 0 < s.remaining) :
    lzRounds (lzStep t s) + 1 ≤ lzRounds s ∧
    (lzStep t s).dPointer + ((lzStep t s).remaining : Int) = s.dPointer + (s.remaining : Int) ∧
    s.dPointer ≤ (lzStep t s).dPointer ∧
    (lzStep t s).gba = t.setBuf s.gba (t.buf (lzStep t s).gba) ∧
    (∀ x : Int, (x < s.dPointer ∨ (lzStep t s).dPointer ≤ x) →
      t.buf (lzStep t s).gba x = t.buf s.gba x) := by
  unfold lzStep
  by_cases hb : s.blocksRemaining = 0
  · rw [if_neg (not_not.2 hb)]
    refine ⟨?_, rfl, le_refl _, (t.target_setBuf_buf _).symm, fun _ _ => rfl⟩
    unfold lzRounds
    simp only [hb, if_true]
    have h8 : ¬ ((8 : Nat) = 0) := by decide
    rw [if_neg (by omega), if_neg h8, if_neg (by omega)]
    omega
  · rw [if_pos hb]
    split
    · -- compressed token
      simp only
      generalize hbytes : ((GBALoadU8 s.gba s.sPointer
        ||| GBALoadU8 s.gba ((s.sPointer + 1) % 4294967296) <<< 8) &&& 0x00F0) >>> 4 = nb
      generalize hdisp : s.dPointer - ((((GBALoadU8 s.gba s.sPointer
        ||| GBALoadU8 s.gba ((s.sPointer + 1) % 4294967296) <<< 8) &&& 0x000F) <<< 8
        ||| ((GBALoadU8 s.gba s.sPointer
        ||| GBALoadU8 s.gba ((s.sPointer + 1) % 4294967296) <<< 8) &&& 0xFF00) >>> 8 : Nat) : Int)
        - 1 = disp
      obtain ⟨h1, h2, h3, h4, h5⟩ := lzCopy_spec t (nb + 3) s.gba disp s.dPointer s.remaining
      have h3' := h3 (by omega) hr
      refine ⟨?_, h1, by omega, h4, h5⟩
      unfold lzRounds
      simp only
      split_ifs <;> omega
    · -- literal token
      simp only
      refine ⟨?_, by omega, by omega, ?_, ?_⟩
      · unfold lzRounds
        simp only
        split_ifs <;> omega
      · rw [lzStore_eq, LzTarget.target_buf_setBuf]
      · intro x hx
        rw [lzStore_eq, LzTarget.target_buf_setBuf]
        exact storeByte_other _ _ _ _ (by omega)

/-- The outer loop, given at least `lzRounds` rounds, leaves through its own condition
having advanced `dPointer` by the remaining length and changed only those bytes. -/
theorem lzLoop_spec (t : LzTarget) (fuel : Nat) (s : LzState) (hf : lzRounds s ≤ fuel) :
    (lzLoop t fuel s).remaining = 0 ∧
    (lzLoop t fuel s).dPointer = s.dPointer + (s.remaining : Int) ∧
    (lzLoop t fuel s).gba = t.setBuf s.gba (t.buf (lzLoop t fuel s).gba) ∧
    (∀ x : Int, (x < s.dPointer ∨ s.dPointer + (s.remaining : Int) ≤ x) →
      t.buf (lzLoop t fuel s).gba x = t.buf s.gba x) := by
  induction fuel generalizing s with
  | zero =>
    have h0 : s.remaining = 0 := by
      unfold lzRounds at hf
      split_ifs at hf <;> omega
    refine ⟨h0, ?_, (t.target_setBuf_buf _).symm, fun _ _ => rfl⟩
    show s.dPointer = _
    rw [h0]; simp
  | succ fuel ih =>
    by_cases h0 : s.remaining = 0
    · have hl : lzLoop t (fuel + 1) s = s := by
        rw [lzLoop, if_neg (by omega)]
      rw [hl]
      refine ⟨h0, ?_, (t.target_setBuf_buf _).symm, fun _ _ => rfl⟩
      rw [h0]; simp
    · have hr : 0 < s.remaining := Nat.pos_of_ne_zero h0
      have hl : lzLoop t (fuel + 1) s = lzLoop t fuel (lzStep t s) := by
        rw [lzLoop, if_pos hr]
      obtain ⟨s1, s2, s3, s4, s5⟩ := lzStep_spec t s hr
      obtain ⟨i1, i2, i3, i4⟩ := ih (lzStep t s) (by omega)
      rw [hl]
      refine ⟨i1, by rw [i2]; exact s2, ?_, ?_⟩
      · conv => lhs; rw [i3, s4]
        rw [LzTarget.target_setBuf_setBuf]
      · intro x hx
        rw [i4 x (by omega), s5 x (by omega)]

theorem lzRounds_lzInit (gba : GBA) (source : Nat) (dest : Int) :
    lzRounds (lzInit gba source dest) ≤ 2 * (lzInit gba source dest).remaining := by
  unfold lzRounds
  split_ifs <;> omega

/-- The initial `remaining` of `_unLz77` is the upper 24 bits of the header word. -/
theorem lzInit_remaining (gba : GBA) (source : Nat) (dest : Int) :
    (lzInit gba source dest).remaining = truncate32 (GBALoad32 gba source) / 256 := by
  show (truncate32 (GBALoad32 gba source) &&& 0xFFFFFF00) >>> 8 = _
  rw [and_length_mask, shr8]
  have := truncate32_lt (GBALoad32 gba source)
  omega

/-- Code behaviour behind C7: SWI 0x11 wraps only the first destination index.  With
r1 = 0x0203FFFF and a stream of two literals (header 0x00000210, flag 0x00, bytes 0xAA,
0xBB) the second byte is written at WRAM byte offset 0x40000 = `SIZE_WORKING_RAM`,
past the end of the buffer; likewise SWI 0x12 with r1 = 0x06017FFF writes at VRAM byte
offset 0x18000 = `SIZE_VRAM`. -/
theorem unLz77_writes_past_buffer :
    (blankGBA (bufOfList [])).memory.wram (SIZE_WORKING_RAM : Nat) = 0 ∧
    (GBASwi16 (lzGBA [0x10, 2, 0, 0, 0, 0xAA, 0xBB] 0x0203FFFF) 0x11).memory.wram
      (SIZE_WORKING_RAM : Nat) = 0xBB ∧
    (GBASwi16 (lzGBA [0x10, 2, 0, 0, 0, 0xAA, 0xBB] 0x06017FFF) 0x12).vram (SIZE_VRAM : Nat)
      = 0xBB := by
  decide

/-- A byte load through the bus sees a replaced destination buffer only if the address
decodes to a changed byte of WRAM. -/
theorem GBALoadU8_lz_frame (t : LzTarget) (g : GBA) (buf : Buf) (a : Nat)
    (h : t = LzTarget.wram → RamBank.wram.holds a →
      buf ((a % 262144 : Nat) : Int) = g.memory.wram ((a % 262144 : Nat) : Int)) :
    GBALoadU8 (t.setBuf g buf) a = GBALoadU8 g a := by
  cases t
  · by_cases hk : RamBank.wram.holds a
    · have e1 := GBALoadU8_bank RamBank.wram (LzTarget.wram.setBuf g buf) a hk
      have e2 := GBALoadU8_bank RamBank.wram g a hk
      rw [e1, e2]
      show loadByte buf _ = loadByte g.memory.wram _
      unfold loadByte
      have := h rfl hk
      show buf ((a % 262144 : Nat) : Int) % 256 = g.memory.wram ((a % 262144 : Nat) : Int) % 256
      rw [this]
    · exact GBALoadU8_setBuf RamBank.wram g buf a hk
  · unfold GBALoadU8; rfl

theorem GBALoadU8_lt (g : GBA) (a : Nat) : GBALoadU8 g a < 256 := by
  unfold GBALoadU8
  split_ifs
  · exact Nat.mod_lt _ (by decide)
  · exact Nat.mod_lt _ (by decide)
  · exact Nat.lt_succ_of_le Nat.and_le_right
  · exact Nat.mod_lt _ (by decide)
  · decide

/-- One round of the outer loop on a literal-only stream keeps the invariant: a flag
round leaves the count of written bytes, a literal round adds one. -/
theorem litInv_step (gba0 : GBA) (r0 : Nat) (t : LzTarget) (dest : Int) (b : List Nat)
    (hflag : ∀ g, 8 * g < b.length → GBALoadU8 gba0 ((r0 + 4 + 9 * g) % 4294967296) = 0)
    (hlit : ∀ j, j < b.length →
      GBALoadU8 gba0 ((r0 + 4 + (9 * (j / 8) + 1 + j % 8)) % 4294967296) = b.getD j 0)
    (hsep : t = LzTarget.wram → ∀ p, p < b.length + (b.length + 7) / 8 →
      RamBank.wram.holds ((r0 + 4 + p) % 4294967296) →
      ∀ j, j < b.length → (((r0 + 4 + p) % 4294967296 % 262144 : Nat) : Int) ≠ dest + (j : Int))
    (s : LzState) (k : Nat) (hinv : LitInv gba0 r0 t dest b s k) (hk : k < b.length) :
    LitInv gba0 r0 t dest b (lzStep t s) k ∨ LitInv gba0 r0 t dest b (lzStep t s) (k + 1) := by
  obtain ⟨hkL, hrem, hdp, hpos, hgba, hframe, hcont⟩ := hinv
  have hread : ∀ p, p < b.length + (b.length + 7) / 8 →
      GBALoadU8 s.gba ((r0 + 4 + p) % 4294967296) = GBALoadU8 gba0 ((r0 + 4 + p) % 4294967296) := by
    intro p hp
    rw [hgba]
    apply GBALoadU8_lz_frame
    intro ht hh
    have hne := hsep ht p hp hh
    have hb : ∀ x : Int, (∀ j, j < b.length → x ≠ dest + (j : Int)) →
        t.buf s.gba x = t.buf gba0 x := by
      intro x hx
      apply hframe
      by_contra hcon
      have := hx (x - dest).toNat (by omega)
      omega
    subst ht
    exact hb _ hne
  rcases hpos with ⟨hbr, hk8, hsp⟩ | ⟨hbr, hbk, hbh, hsp⟩
  · -- flag round
    left
    have hstep : lzStep t s = { s with
        blockheader := GBALoadU8 s.gba s.sPointer
        sPointer := (s.sPointer + 1) % 4294967296
        blocksRemaining := 8 } := by
      unfold lzStep
      rw [if_neg (not_not.2 hbr)]
    have hfl : GBALoadU8 s.gba s.sPointer = 0 := by
      rw [hsp, hread (9 * (k / 8)) (by omega)]
      exact hflag (k / 8) (by omega)
    rw [hstep, hfl]
    refine ⟨hkL, hrem, hdp, Or.inr ⟨Nat.succ_pos 7, ?_, rfl, ?_⟩, hgba, hframe, hcont⟩
    · show 8 + k % 8 = 8
      omega
    · show (s.sPointer + 1) % 4294967296 = _
      rw [hsp]; omega
  · -- literal round
    right
    have hbh' : ¬ (s.blockheader &&& 0x80 ≠ 0) := by rw [hbh]; decide
    have hstep : lzStep t s =
        { gba := lzStore s.gba t s.dPointer (GBALoadU8 s.gba s.sPointer)
          sPointer := (s.sPointer + 1) % 4294967296
          dPointer := s.dPointer + 1
          remaining := s.remaining - 1
          blockheader := s.blockheader <<< 1
          blocksRemaining := s.blocksRemaining - 1 } := by
      unfold lzStep
      rw [if_pos (by omega), if_neg hbh']
    have hval : GBALoadU8 s.gba s.sPointer = b.getD k 0 := by
      rw [hsp, hread (9 * (k / 8) + 1 + k % 8) (by omega)]
      exact hlit k hk
    rw [hstep, hval, lzStore_eq]
    refine ⟨by omega, ?_, ?_, ?_, ?_, ?_, ?_⟩
    · show s.remaining - 1 = _
      omega
    · show s.dPointer + 1 = _
      rw [hdp]; push_cast; omega
    · by_cases h7 : k % 8 = 7
      · left
        refine ⟨?_, by omega, ?_⟩
        · show s.blocksRemaining - 1 = 0
          omega
        · show (s.sPointer + 1) % 4294967296 = _
          rw [hsp]; omega
      · right
        refine ⟨?_, ?_, ?_, ?_⟩
        · show 0 < s.blocksRemaining - 1
          omega
        · show s.blocksRemaining - 1 + (k + 1) % 8 = 8
          omega
        · show s.blockheader <<< 1 = 0
          rw [hbh]; rfl
        · show (s.sPointer + 1) % 4294967296 = _
          rw [hsp]; omega
    · show t.setBuf s.gba _ = t.setBuf gba0 (t.buf (t.setBuf s.gba _))
      rw [LzTarget.target_buf_setBuf]
      generalize storeByte (t.buf s.gba) s.dPointer (b.getD k 0) = X
      conv => lhs; rw [hgba]
      rw [LzTarget.target_setBuf_setBuf]
    · intro x hx
      show t.buf (t.setBuf s.gba _) x = _
      rw [LzTarget.target_buf_setBuf, storeByte_other _ _ _ _ (by omega)]
      exact hframe x (by omega)
    · intro j hj
      show loadByte (t.buf (t.setBuf s.gba _)) _ = _
      rw [LzTarget.target_buf_setBuf, loadByte_storeByte]
      rcases Nat.lt_succ_iff_lt_or_eq.1 hj with h1 | h1
      · rw [if_neg (by omega)]
        exact hcont j h1
      · subst h1
        rw [if_pos (by omega), ← hval]
        exact Nat.mod_eq_of_lt (GBALoadU8_lt _ _)

/-- The outer loop on a literal-only stream ends with the whole of `b` written. -/
theorem litInv_loop (gba0 : GBA) (r0 : Nat) (t : LzTarget) (dest : Int) (b : List Nat)
    (hflag : ∀ g, 8 * g < b.length → GBALoadU8 gba0 ((r0 + 4 + 9 * g) % 4294967296) = 0)
    (hlit : ∀ j, j < b.length →
      GBALoadU8 gba0 ((r0 + 4 + (9 * (j / 8) + 1 + j % 8)) % 4294967296) = b.getD j 0)
    (hsep : t = LzTarget.wram → ∀ p, p < b.length + (b.length + 7) / 8 →
      RamBank.wram.holds ((r0 + 4 + p) % 4294967296) →
      ∀ j, j < b.length → (((r0 + 4 + p) % 4294967296 % 262144 : Nat) : Int) ≠ dest + (j : Int))
    (fuel : Nat) (s : LzState) (k : Nat) (hinv : LitInv gba0 r0 t dest b s k)
    (hf : lzRounds s ≤ fuel) :
    LitInv gba0 r0 t dest b (lzLoop t fuel s) b.length := by
  induction fuel generalizing s k with
  | zero =>
    have h0 : s.remaining = 0 := by
      unfold lzRounds at hf
      split_ifs at hf <;> omega
    have hkL : k = b.length := by
      have h1 := hinv.1
      have h2 := hinv.2.1
      omega
    subst hkL
    exact hinv
  | succ fuel ih =>
    by_cases h0 : s.remaining = 0
    · have hkL : k = b.length := by
        have h1 := hinv.1
        have h2 := hinv.2.1
        omega
      have hl : lzLoop t (fuel + 1) s = s := by rw [lzLoop, if_neg (by omega)]
      rw [hl]
      subst hkL
      exact hinv
    · have hr : 0 < s.remaining := Nat.pos_of_ne_zero h0
      have hk : k < b.length := by
        have h2 := hinv.2.1
        omega
      have hl : lzLoop t (fuel + 1) s = lzLoop t fuel (lzStep t s) := by
        rw [lzLoop, if_pos hr]
      obtain ⟨s1, _⟩ := lzStep_spec t s hr
      rw [hl]
      rcases litInv_step gba0 r0 t dest b hflag hlit hsep s k hinv hk with h | h
      · exact ih _ _ h (by omega)
      · exact ih _ _ h (by omega)

/-- C5: LZ77 decompression undoes the literal-only encoding.  For a byte sequence `b` of
length `L`, `0 < L < 2^24`: if the word the bus returns at `r0` is the header
`L << 8 | signature` (here `L * 256 + sig` with `sig < 256`), the bytes that follow are
groups of one zero flag byte and up to eight literals of `b` (group `g` starts `9 * g`
bytes after the header), and no stream byte after the header lies in the `L` destination
bytes, then `_unLz77` writes `b[0..L)` to `dest[0..L)` and leaves the rest of the
destination buffer as it was. -/
theorem unLz77_literal_stream (gba : GBA) (r0 : Nat) (t : LzTarget) (dest : Int) (b : List Nat)
    (sig : Nat)
    (hlen : 0 < b.length ∧ b.length < 16777216)
    (hheader : truncate32 (GBALoad32 gba r0) = b.length * 256 + sig ∧ sig < 256)
    (hflag : ∀ g, 8 * g < b.length → GBALoadU8 gba ((r0 + 4 + 9 * g) % 4294967296) = 0)
    (hlit : ∀ j, j < b.length →
      GBALoadU8 gba ((r0 + 4 + (9 * (j / 8) + 1 + j % 8)) % 4294967296) = b.getD j 0)
    (hsep : t = LzTarget.wram → ∀ p, p < b.length + (b.length + 7) / 8 →
      RamBank.wram.holds ((r0 + 4 + p) % 4294967296) →
      ∀ j, j < b.length → (((r0 + 4 + p) % 4294967296 % 262144 : Nat) : Int) ≠ dest + (j : Int)) :
    (∀ j, j < b.length →
      loadByte (t.buf (_unLz77 gba r0 t dest)) (dest + (j : Int)) = b.getD j 0) ∧
    (∀ x : Int, (x < dest ∨ dest + (b.length : Int) ≤ x) →
      t.buf (_unLz77 gba r0 t dest) x = t.buf gba x) := by
  obtain ⟨_, _⟩ := hlen
  have hrem : (lzInit gba r0 dest).remaining = b.length := by
    rw [lzInit_remaining, hheader.1]; omega
  have hinit : LitInv gba r0 t dest b (lzInit gba r0 dest) 0 := by
    refine ⟨Nat.zero_le _, by rw [hrem]; rfl, ?_, Or.inl ⟨rfl, rfl, rfl⟩,
      (t.target_setBuf_buf gba).symm, fun _ _ => rfl, fun j hj => absurd hj (Nat.not_lt_zero j)⟩
    show dest = dest + ((0 : Nat) : Int)
    simp
  have hfin := litInv_loop gba r0 t dest b hflag hlit hsep
    (2 * (lzInit gba r0 dest).remaining) (lzInit gba r0 dest) 0 hinit (lzRounds_lzInit gba r0 dest)
  obtain ⟨_, _, _, _, _, hframe, hcont⟩ := hfin
  exact ⟨hcont, hframe⟩

/-- Scenario 4 of the spec as an instance of `unLz77_literal_stream`: header 0x00000820 at
0x08000000, flag 0x00 and the literals 00 .. 07; SWI 0x11 with r1 = 0 writes 00 .. 07 to
WRAM offsets 0 .. 7. -/
theorem unLz77_literal_stream_witness :
    (∀ j : Nat, j < 8 →
      loadByte (GBASwi16 (lzGBA [0x20, 8, 0, 0, 0, 0, 1, 2, 3, 4, 5, 6, 7] 0) 0x11).memory.wram
        ((0 : Int) + (j : Int)) = [0, 1, 2, 3, 4, 5, 6, 7].getD j 0) ∧
    (∀ x : Int, (x < 0 ∨ (0 : Int) + (8 : Nat) ≤ x) →
      (GBASwi16 (lzGBA [0x20, 8, 0, 0, 0, 0, 1, 2, 3, 4, 5, 6, 7] 0) 0x11).memory.wram x
        = (lzGBA [0x20, 8, 0, 0, 0, 0, 1, 2, 3, 4, 5, 6, 7] 0).memory.wram x) :=
  unLz77_literal_stream (lzGBA [0x20, 8, 0, 0, 0, 0, 1, 2, 3, 4, 5, 6, 7] 0) 0x08000000
    LzTarget.wram 0 [0, 1, 2, 3, 4, 5, 6, 7] 0x20 (by decide) (by decide)
    (fun g hg => by
      have h0 : g = 0 := by
        have : 8 * g < 8 := hg
        omega
      subst h0
      decide)
    (by decide)
    (fun _ p hp hh => absurd hh (not_wram_of_cart_range _ (by
      have : p < 8 + (8 + 7) / 8 := hp
      omega)))

/-! ## Waitstate tables -/

theorem waitcnt_field2 (w s : Nat) : (w &&& (3 <<< s)) >>> s = (w >>> s) &&& 3 := by
  have h1 := and_shifted_mask w 2 s
  have e : (2 ^ 2 - 1 : Nat) = 3 := by norm_num
  rw [e] at h1
  rw [h1, Nat.shiftRight_eq_div_pow, Nat.shiftRight_eq_div_pow,
    Nat.mul_div_cancel _ (Nat.pos_pow_of_pos s (by decide))]
  exact (Nat.and_pow_two_sub_one_eq_mod _ 2).symm

theorem waitcnt_field1 (w s : Nat) : (w &&& (1 <<< s)) >>> s = (w >>> s) &&& 1 := by
  have h1 := and_shifted_mask w 1 s
  have e : (2 ^ 1 - 1 : Nat) = 1 := by norm_num
  rw [e] at h1
  rw [h1, Nat.shiftRight_eq_div_pow, Nat.shiftRight_eq_div_pow,
    Nat.mul_div_cancel _ (Nat.pos_pow_of_pos s (by decide))]
  exact (Nat.and_pow_two_sub_one_eq_mod _ 1).symm

theorem waitcnt_fields (w : Nat) :
    (w &&& 0x000C) >>> 2 = (w >>> 2) &&& 3 ∧ (w &&& 0x0060) >>> 5 = (w >>> 5) &&& 3 ∧
    (w &&& 0x0300) >>> 8 = (w >>> 8) &&& 3 ∧ (w &&& 0x0010) >>> 4 = (w >>> 4) &&& 1 ∧
    (w &&& 0x0080) >>> 7 = (w >>> 7) &&& 1 ∧ (w &&& 0x0400) >>> 10 = (w >>> 10) &&& 1 :=
  ⟨waitcnt_field2 w 2, waitcnt_field2 w 5, waitcnt_field2 w 8, waitcnt_field1 w 4,
    waitcnt_field1 w 7, waitcnt_field1 w 10⟩

/-- C12: for every WAITCNT value `w`, after `GBAAdjustWaitstates` the 16-bit tables hold,
with `T = {4, 3, 2, 8}`: `waitstates16` of SRAM (region 14) is `T[w & 3]`; of regions 8 and
9 `T[(w >> 2) & 3]`, of 10 and 11 `T[(w >> 5) & 3]`, of 12 and 13 `T[(w >> 8) & 3]`;
`waitstatesSeq16` of regions 8 and 9 is `{2, 1}[bit 4 of w]`, of 10 and 11
`{4, 1}[bit 7]`, of 12 and 13 `{8, 1}[bit 10]`; the two halves of a mirror pair get the
same values. -/
theorem adjustWaitstates_tables16 (memory : GBAMemory) (w : Nat) :
    (GBAAdjustWaitstates memory w).waitstates16 14 = ([4, 3, 2, 8] : List Int).getD (w &&& 3) 0 ∧
    (GBAAdjustWaitstates memory w).waitstates16 8
      = ([4, 3, 2, 8] : List Int).getD ((w >>> 2) &&& 3) 0 ∧
    (GBAAdjustWaitstates memory w).waitstates16 9
      = ([4, 3, 2, 8] : List Int).getD ((w >>> 2) &&& 3) 0 ∧
    (GBAAdjustWaitstates memory w).waitstates16 10
      = ([4, 3, 2, 8] : List Int).getD ((w >>> 5) &&& 3) 0 ∧
    (GBAAdjustWaitstates memory w).waitstates16 11
      = ([4, 3, 2, 8] : List Int).getD ((w >>> 5) &&& 3) 0 ∧
    (GBAAdjustWaitstates memory w).waitstates16 12
      = ([4, 3, 2, 8] : List Int).getD ((w >>> 8) &&& 3) 0 ∧
    (GBAAdjustWaitstates memory w).waitstates16 13
      = ([4, 3, 2, 8] : List Int).getD ((w >>> 8) &&& 3) 0 ∧
    (GBAAdjustWaitstates memory w).waitstatesSeq16 8
      = ([2, 1] : List Int).getD ((w >>> 4) &&& 1) 0 ∧
    (GBAAdjustWaitstates memory w).waitstatesSeq16 9
      = ([2, 1] : List Int).getD ((w >>> 4) &&& 1) 0 ∧
    (GBAAdjustWaitstates memory w).waitstatesSeq16 10
      = ([4, 1] : List Int).getD ((w >>> 7) &&& 1) 0 ∧
    (GBAAdjustWaitstates memory w).waitstatesSeq16 11
      = ([4, 1] : List Int).getD ((w >>> 7) &&& 1) 0 ∧
    (GBAAdjustWaitstates memory w).waitstatesSeq16 12
      = ([8, 1] : List Int).getD ((w >>> 10) &&& 1) 0 ∧
    (GBAAdjustWaitstates memory w).waitstatesSeq16 13
      = ([8, 1] : List Int).getD ((w >>> 10) &&& 1) 0 := by
  obtain ⟨f0, f1, f2, f3, f4, f5⟩ := waitcnt_fields w
  have b4 : (w >>> 4) &&& 1 = 0 ∨ (w >>> 4) &&& 1 = 1 := by
    rw [show (1 : Nat) = 2 ^ 1 - 1 from rfl, Nat.and_pow_two_sub_one_eq_mod]; omega
  have b7 : (w >>> 7) &&& 1 = 0 ∨ (w >>> 7) &&& 1 = 1 := by
    rw [show (1 : Nat) = 2 ^ 1 - 1 from rfl, Nat.and_pow_two_sub_one_eq_mod]; omega
  have b10 : (w >>> 10) &&& 1 = 0 ∨ (w >>> 10) &&& 1 = 1 := by
    rw [show (1 : Nat) = 2 ^ 1 - 1 from rfl, Nat.and_pow_two_sub_one_eq_mod]; omega
  unfold GBAAdjustWaitstates
  simp only [f0, f1, f2, f3, f4, f5, Function.update, REGION_CART0, REGION_CART0_EX,
    REGION_CART1, REGION_CART1_EX, REGION_CART2, REGION_CART2_EX, REGION_CART_SRAM,
    GBA_ROM_WAITSTATES, GBA_ROM_WAITSTATES_SEQ]
  refine ⟨by simp, by simp, by simp, by simp, by simp, by simp, by simp, ?_, ?_, ?_, ?_, ?_, ?_⟩
  · rcases b4 with h | h <;> simp [h]
  · rcases b4 with h | h <;> simp [h]
  · rcases b7 with h | h <;> simp [h]
  · rcases b7 with h | h <;> simp [h]
  · rcases b10 with h | h <;> simp [h]
  · rcases b10 with h | h <;> simp [h]

/-- C13: for every WAITCNT value `w` and every cart region `r` in 8..13, after
`GBAAdjustWaitstates` the 32-bit entries are derived from the 16-bit ones:
`waitstates32[r] = waitstates16[r] + 1 + waitstatesSeq16[r]` and
`waitstatesSeq32[r] = 2 * waitstatesSeq16[r] + 1`. -/
theorem adjustWaitstates_tables32 (memory : GBAMemory) (w r : Nat) (hr : 8 ≤ r ∧ r ≤ 13) :
    (GBAAdjustWaitstates memory w).waitstates32 r
      = (GBAAdjustWaitstates memory w).waitstates16 r + 1
        + (GBAAdjustWaitstates memory w).waitstatesSeq16 r ∧
    (GBAAdjustWaitstates memory w).waitstatesSeq32 r
      = 2 * (GBAAdjustWaitstates memory w).waitstatesSeq16 r + 1 := by
  obtain ⟨h1, h2⟩ := hr
  unfold GBAAdjustWaitstates
  simp only [Function.update, REGION_CART0, REGION_CART0_EX, REGION_CART1, REGION_CART1_EX,
    REGION_CART2, REGION_CART2_EX, REGION_CART_SRAM]
  interval_cases r <;> simp

/-- Instance of `adjustWaitstates_tables32`: region 8 after WAITCNT = 0x4317 on a machine
with zeroed tables. -/
theorem adjustWaitstates_tables32_witness :
    (8 ≤ 8 ∧ 8 ≤ 13) ∧
    (GBAAdjustWaitstates (blankGBA (fun _ => 0)).memory 0x4317).waitstates32 8 = 3 + 1 + 1 ∧
    (GBAAdjustWaitstates (blankGBA (fun _ => 0)).memory 0x4317).waitstatesSeq32 8 = 2 * 1 + 1 :=
  ⟨by decide, adjustWaitstates_tables32 (blankGBA (fun _ => 0)).memory 0x4317 8 (by decide)⟩

/-- C17, as the spec states it, fails: after `GBAMemoryInit` the sequential 16-bit entry of
region 8 is 2, not 4. -/
theorem memoryInit_tables_counterexample :
    ¬ ∀ memory : GBAMemory,
      (GBAMemoryInit memory).waitstates16 2 = 2 ∧ (GBAMemoryInit memory).waitstatesSeq16 2 = 2 ∧
      (∀ r, 8 ≤ r → r ≤ 14 →
        (GBAMemoryInit memory).waitstates16 r = 4 ∧ (GBAMemoryInit memory).waitstatesSeq16 r = 4) ∧
      (∀ i, i < 256 → i ≠ 2 → ¬ (8 ≤ i ∧ i ≤ 14) →
        (GBAMemoryInit memory).waitstates16 i = 0 ∧ (GBAMemoryInit memory).waitstatesSeq16 i = 0) := by
  intro h
  have h8 := ((h (blankGBA (fun _ => 0)).memory).2.2.1 8 (by decide) (by decide)).2
  revert h8
  decide

/-- C17 amended: after `GBAMemoryInit`, `waitstates16[2] = waitstatesSeq16[2] = 2`; for every
region `r` in 8..14 `waitstates16[r] = 4`, while `waitstatesSeq16` is 2 for regions 8 and 9,
4 for 10 and 11, 8 for 12 and 13 and 4 for 14; every other entry of the 256-entry tables
`waitstates16` and `waitstatesSeq16` is 0. -/
theorem memoryInit_tables (memory : GBAMemory) :
    (GBAMemoryInit memory).waitstates16 2 = 2 ∧ (GBAMemoryInit memory).waitstatesSeq16 2 = 2 ∧
    (∀ r, 8 ≤ r → r ≤ 14 → (GBAMemoryInit memory).waitstates16 r = 4) ∧
    (GBAMemoryInit memory).waitstatesSeq16 8 = 2 ∧ (GBAMemoryInit memory).waitstatesSeq16 9 = 2 ∧
    (GBAMemoryInit memory).waitstatesSeq16 10 = 4 ∧ (GBAMemoryInit memory).waitstatesSeq16 11 = 4 ∧
    (GBAMemoryInit memory).waitstatesSeq16 12 = 8 ∧ (GBAMemoryInit memory).waitstatesSeq16 13 = 8 ∧
    (GBAMemoryInit memory).waitstatesSeq16 14 = 4 ∧
    (∀ i, i < 256 → i ≠ 2 → ¬ (8 ≤ i ∧ i ≤ 14) →
      (GBAMemoryInit memory).waitstates16 i = 0 ∧ (GBAMemoryInit memory).waitstatesSeq16 i = 0) := by
  refine ⟨rfl, rfl, ?_, rfl, rfl, rfl, rfl, rfl, rfl, rfl, ?_⟩
  · intro r h1 h2
    interval_cases r <;> rfl
  · intro i h1 h2 h3
    by_cases h16 : i < 16
    · have hi : i = 0 ∨ i = 1 ∨ i = 3 ∨ i = 4 ∨ i = 5 ∨ i = 6 ∨ i = 7 ∨ i = 15 := by omega
      rcases hi with h | h | h | h | h | h | h | h <;> subst h <;> exact ⟨rfl, rfl⟩
    · unfold GBAMemoryInit
      simp only [h16, h1, if_false, if_true, and_self]

/-- Nested calls of `GBASwi32` never return, whatever the fuel. -/
theorem GBASwi32_none (fuel : Nat) (gba : GBA) (immediate : Int) :
    GBASwi32 fuel gba immediate = none := by
  induction fuel generalizing immediate with
  | zero => rfl
  | succ fuel ih => exact ih (immediate >>> 16)

/-- Code behaviour behind C15: `GBASwi32` calls itself with `immediate >> 16` (line 105), not
`GBASwi16`, so for every immediate and every depth of nesting the call chain has not
returned; `GBASwi16` with the comment field 0x0B of the immediate 0x000B0000, in contrast,
returns the machine after CpuSet. -/
theorem swi32_never_returns :
    (∀ (fuel : Nat) (gba : GBA) (immediate : Int), GBASwi32 fuel gba immediate = none) ∧
    (∀ gba : GBA, GBASwi16 gba ((0x000B0000 : Int) >>> 16) = _CpuSet gba) :=
  ⟨GBASwi32_none, fun gba => GBASwi16_cpuSet gba⟩

/-- Code behaviour behind C16: in the I/O region `GBALoad8` only breaks and returns 0 for every
address and register file, while `GBALoadU8` extracts the byte from the 16-bit register; with
the register at 0x04000200 reading 0x1234, `GBALoadU8(0x04000201)` is 0x12 and
`GBALoad8(0x04000201)` is 0, not the sign extension of 0x12. -/
theorem ioLoad8_returns_zero :
    (∀ (gba : GBA) (a : Nat), regionBase a = BASE_IO → GBALoad8 gba a = 0) ∧
    GBALoadU16 ioGBA 0x04000200 = 0x1234 ∧
    GBALoadU8 ioGBA 0x04000201 = 0x12 ∧
    GBALoad8 ioGBA 0x04000201 = 0 ∧
    toInt8 0x12 ≠ 0 := by
  refine ⟨?_, by decide, by decide, by decide, by decide⟩
  intro gba a h
  have h1 : ¬ regionBase a = BASE_WORKING_RAM := by rw [h]; decide
  have h2 : ¬ regionBase a = BASE_WORKING_IRAM := by rw [h]; decide
  have h3 : ¬ isCart (regionBase a) := by rw [h]; decide
  unfold GBALoad8
  rw [if_neg h1, if_neg h2, if_neg h3]

/-! ## Timing and counters of a serviced channel -/

theorem dmaTransfer_timing (g : GBA) (info : GBADMA) :
    (dmaTransfer g info).1.cycles = g.cycles ∧
    (dmaTransfer g info).1.memory.waitstates16 = g.memory.waitstates16 ∧
    (dmaTransfer g info).1.memory.waitstatesSeq16 = g.memory.waitstatesSeq16 ∧
    (dmaTransfer g info).1.memory.waitstates32 = g.memory.waitstates32 ∧
    (dmaTransfer g info).1.memory.waitstatesSeq32 = g.memory.waitstatesSeq32 := by
  have hs32 : ∀ (g : GBA) (a : Nat) (v : Int),
      (GBAStore32 g a v).cycles = g.cycles ∧
      (GBAStore32 g a v).memory.waitstates16 = g.memory.waitstates16 ∧
      (GBAStore32 g a v).memory.waitstatesSeq16 = g.memory.waitstatesSeq16 ∧
      (GBAStore32 g a v).memory.waitstates32 = g.memory.waitstates32 ∧
      (GBAStore32 g a v).memory.waitstatesSeq32 = g.memory.waitstatesSeq32 := by
    intro g a v; unfold GBAStore32; split_ifs <;> exact ⟨rfl, rfl, rfl, rfl, rfl⟩
  have hs16 : ∀ (g : GBA) (a : Nat) (v : Int),
      (GBAStore16 g a v).cycles = g.cycles ∧
      (GBAStore16 g a v).memory.waitstates16 = g.memory.waitstates16 ∧
      (GBAStore16 g a v).memory.waitstatesSeq16 = g.memory.waitstatesSeq16 ∧
      (GBAStore16 g a v).memory.waitstates32 = g.memory.waitstates32 ∧
      (GBAStore16 g a v).memory.waitstatesSeq32 = g.memory.waitstatesSeq32 := by
    intro g a v; unfold GBAStore16; split_ifs <;> exact ⟨rfl, rfl, rfl, rfl, rfl⟩
  have h32 : ∀ (so d : Int) (k : Nat) (s : GBA × Nat × Nat),
      ((dmaStep32 so d)^[k] s).1.cycles = s.1.cycles ∧
      ((dmaStep32 so d)^[k] s).1.memory.waitstates16 = s.1.memory.waitstates16 ∧
      ((dmaStep32 so d)^[k] s).1.memory.waitstatesSeq16 = s.1.memory.waitstatesSeq16 ∧
      ((dmaStep32 so d)^[k] s).1.memory.waitstates32 = s.1.memory.waitstates32 ∧
      ((dmaStep32 so d)^[k] s).1.memory.waitstatesSeq32 = s.1.memory.waitstatesSeq32 := by
    intro so d k s
    induction k with
    | zero => exact ⟨rfl, rfl, rfl, rfl, rfl⟩
    | succ k ih =>
      rw [Function.iterate_succ_apply']
      obtain ⟨a1, a2, a3, a4, a5⟩ := hs32 ((dmaStep32 so d)^[k] s).1 ((dmaStep32 so d)^[k] s).2.2
        (GBALoad32 ((dmaStep32 so d)^[k] s).1 ((dmaStep32 so d)^[k] s).2.1)
      obtain ⟨b1, b2, b3, b4, b5⟩ := ih
      exact ⟨a1.trans b1, a2.trans b2, a3.trans b3, a4.trans b4, a5.trans b5⟩
  have h16 : ∀ (so d : Int) (k : Nat) (s : GBA × Nat × Nat),
      ((dmaStep16 so d)^[k] s).1.cycles = s.1.cycles ∧
      ((dmaStep16 so d)^[k] s).1.memory.waitstates16 = s.1.memory.waitstates16 ∧
      ((dmaStep16 so d)^[k] s).1.memory.waitstatesSeq16 = s.1.memory.waitstatesSeq16 ∧
      ((dmaStep16 so d)^[k] s).1.memory.waitstates32 = s.1.memory.waitstates32 ∧
      ((dmaStep16 so d)^[k] s).1.memory.waitstatesSeq32 = s.1.memory.waitstatesSeq32 := by
    intro so d k s
    induction k with
    | zero => exact ⟨rfl, rfl, rfl, rfl, rfl⟩
    | succ k ih =>
      rw [Function.iterate_succ_apply']
      obtain ⟨a1, a2, a3, a4, a5⟩ := hs16 ((dmaStep16 so d)^[k] s).1 ((dmaStep16 so d)^[k] s).2.2
        (GBALoadU16 ((dmaStep16 so d)^[k] s).1 ((dmaStep16 so d)^[k] s).2.1 : Nat)
      obtain ⟨b1, b2, b3, b4, b5⟩ := ih
      exact ⟨a1.trans b1, a2.trans b2, a3.trans b3, a4.trans b4, a5.trans b5⟩
  unfold dmaTransfer
  simp only
  split
  · exact h32 _ _ _ _
  · exact h16 _ _ _ _

/-- The value `GBAMemoryServiceDMA` computes for `nextIRQ` is the delay of the spec counted
from the CPU's cycle counter, as a 32-bit integer. -/
theorem dmaNextIRQ_eq (g : GBA) (info : GBADMA) :
    dmaNextIRQ (dmaTransfer g info).1 info = wrapInt32 (g.cycles + specDelay g info) := by
  obtain ⟨h1, h2, h3, h4, h5⟩ := dmaTransfer_timing g info
  unfold dmaNextIRQ specDelay
  simp only [h1, h2, h3, h4, h5, BASE_OFFSET]
  split
  · congr 1; ring
  · congr 1; ring

/-- Service of an enabled channel whose repeat bit is set and whose timing is not
immediate: one transfer, the cursors are reloaded, and scheduling does nothing. -/
theorem serviceDMA_repeat_timed (fuel : Nat) (g : GBA) (n : Fin 4)
    (hen : (g.memory.dma n).enable ≠ 0) (hrep : (g.memory.dma n).repeat_ ≠ 0)
    (htim : (g.memory.dma n).timing ≠ DMA_TIMING_NOW) :
    ∃ g', GBAMemoryServiceDMA (fuel + 1) g n = some g' ∧
      (g'.memory.dma n).nextIRQ
        = (if (g.memory.dma n).doIrq ≠ 0
            then dmaNextIRQ (dmaTransfer g (g.memory.dma n)).1 (g.memory.dma n)
            else (g.memory.dma n).nextIRQ) ∧
      (g'.memory.dma n).nextCount = (g.memory.dma n).count := by
  unfold GBAMemoryServiceDMA GBAMemoryScheduleDMA
  simp only [hen, if_false]
  have hrep' : ∀ (a : Int) (b c : Nat) (d : Int), GBADMA.repeat_
      { g.memory.dma n with nextIRQ := a, nextSource := b, nextDest := c, nextCount := d }
        = (g.memory.dma n).repeat_ := fun _ _ _ _ => rfl
  have htim' : ∀ (a : Int) (b c : Nat) (d : Int), GBADMA.timing
      { g.memory.dma n with nextIRQ := a, nextSource := b, nextDest := c, nextCount := d }
        = (g.memory.dma n).timing := fun _ _ _ _ => rfl
  rw [if_neg (by rw [hrep']; exact hrep), if_neg (by rw [htim']; exact htim)]
  refine ⟨_, rfl, ?_, ?_⟩
  · simp only [Function.update_same]
  · simp only [Function.update_same]

theorem serviceDMA_nextIRQ_aux (fuel : Nat) (gba : GBA) (n : Fin 4)
    (hen : (gba.memory.dma n).enable ≠ 0) (hirq : (gba.memory.dma n).doIrq ≠ 0)
    (hret : (gba.memory.dma n).repeat_ = 0 ∨ (gba.memory.dma n).timing ≠ DMA_TIMING_NOW) :
    ∃ gba', GBAMemoryServiceDMA (fuel + 1) gba n = some gba' ∧
      (gba'.memory.dma n).nextIRQ
        = wrapInt32 (gba.cycles + specDelay gba (gba.memory.dma n)) := by
  by_cases hrep : (gba.memory.dma n).repeat_ = 0
  · refine ⟨_, serviceDMA_nonrepeat fuel gba n hen hrep, ?_⟩
    simp only [Function.update_same]
    show (if (gba.memory.dma n).doIrq ≠ 0 then _ else _) = _
    rw [if_pos hirq, dmaNextIRQ_eq]
  · have htim : (gba.memory.dma n).timing ≠ DMA_TIMING_NOW := by
      rcases hret with h | h
      · exact absurd h hrep
      · exact h
    obtain ⟨g', h1, h2, _⟩ := serviceDMA_repeat_timed fuel gba n hen hrep htim
    refine ⟨g', h1, ?_⟩
    rw [h2, if_pos hirq, dmaNextIRQ_eq]

/-- C19, as the spec states it, fails: with the CPU cycle counter at 100, servicing channel 3
of scenario 5 stores 144 into `nextIRQ`, while the stated expression is 44. -/
theorem serviceDMA_nextIRQ_counterexample :
    ¬ ∀ (fuel : Nat) (gba : GBA) (n : Fin 4),
        (gba.memory.dma n).enable ≠ 0 → (gba.memory.dma n).doIrq ≠ 0 →
        ∀ gba', GBAMemoryServiceDMA (fuel + 1) gba n = some gba' →
          (gba'.memory.dma n).nextIRQ = specDelay gba (gba.memory.dma n) := by
  intro h
  obtain ⟨g', h1, h2⟩ := serviceDMA_nextIRQ_aux 0 dma3TimedGBA 3 (by decide) (by decide)
    (Or.inl (by decide))
  have h3 := h 0 dma3TimedGBA 3 (by decide) (by decide) g' h1
  rw [h2] at h3
  revert h3
  decide

/-- C19 amended: for every enabled channel with `doIrq` set whose service returns (repeat
clear, or timing not immediate), `GBAMemoryServiceDMA` stores into `nextIRQ` the CPU's
current cycle counter plus `2 + W[s] + W[d] + (count - 1) * (S[s] + S[d])`, as a 32-bit
integer, with `s`, `d`, `count`, `W`, `S` as in the claim. -/
theorem serviceDMA_nextIRQ (fuel : Nat) (gba : GBA) (n : Fin 4)
    (hen : (gba.memory.dma n).enable ≠ 0) (hirq : (gba.memory.dma n).doIrq ≠ 0)
    (hret : (gba.memory.dma n).repeat_ = 0 ∨ (gba.memory.dma n).timing ≠ DMA_TIMING_NOW) :
    ∃ gba', GBAMemoryServiceDMA (fuel + 1) gba n = some gba' ∧
      (gba'.memory.dma n).nextIRQ
        = wrapInt32 (gba.cycles + specDelay gba (gba.memory.dma n)) :=
  serviceDMA_nextIRQ_aux fuel gba n hen hirq hret

/-- Instance of `serviceDMA_nextIRQ` on scenario 5 with the cycle counter at 100: the
stored value is 100 + 44. -/
theorem serviceDMA_nextIRQ_witness :
    ∃ gba', GBAMemoryServiceDMA (0 + 1) dma3TimedGBA 3 = some gba' ∧
      (gba'.memory.dma 3).nextIRQ = 144 :=
  serviceDMA_nextIRQ 0 dma3TimedGBA 3 (by decide) (by decide) (Or.inl (by decide))

/-- Code behaviour behind C20: servicing an enabled channel whose repeat bit is clear commits
the counter left by `while (wordsRemaining--)`, which is -1, into `nextCount`. -/
theorem serviceDMA_nextCount_negative (fuel : Nat) (gba : GBA) (n : Fin 4)
    (hen : (gba.memory.dma n).enable ≠ 0) (hrep : (gba.memory.dma n).repeat_ = 0) :
    ∃ gba', GBAMemoryServiceDMA (fuel + 1) gba n = some gba' ∧
      (gba'.memory.dma n).nextCount = -1 := by
  refine ⟨_, serviceDMA_nonrepeat fuel gba n hen hrep, ?_⟩
  simp only [Function.update_same]
  rfl

/-- Instance of `serviceDMA_nextCount_negative` on scenario 5, also through the control
write that starts the transfer: the channel ends with `nextCount = -1`. -/
theorem serviceDMA_nextCount_negative_witness :
    (∃ gba', GBAMemoryServiceDMA (0 + 1) (dma3GBA 0xC400) 3 = some gba' ∧
      (gba'.memory.dma 3).nextCount = -1) ∧
    (GBAMemoryWriteDMACNT_HI 1 (dma3GBA 0) 3 0xC400).map (fun p => (p.1.memory.dma 3).nextCount)
      = some (-1) :=
  ⟨serviceDMA_nextCount_negative 0 (dma3GBA 0xC400) 3 (by decide) (by decide), by decide⟩

/-! ## Event driver -/

theorem processChannel_irqs (cycles : Int) (j : Fin 4) (irq : Nat) (s : GBA × Int) :
    (processChannel cycles j irq s).1.irqs
      = s.1.irqs ++ (if chanRaises (s.1.memory.dma j) cycles then [irq] else []) := by
  unfold processChannel chanRaises
  simp only
  split_ifs <;> simp_all [GBARaiseIRQ]

theorem processChannel_dma (cycles : Int) (j : Fin 4) (irq : Nat) (s : GBA × Int) :
    (processChannel cycles j irq s).1.memory.dma
      = Function.update s.1.memory.dma j
          { s.1.memory.dma j with nextIRQ := chanNext (s.1.memory.dma j) cycles } := by
  unfold processChannel chanNext chanRaises
  simp only
  split_ifs <;> simp_all [GBARaiseIRQ]

/-- Interrupts a `GBAMemoryProcessEvents` call raises and the channel records it leaves, by
channel: the blocks run in channel order, each on the record the call started with. -/
theorem processEvents_spec (g : GBA) (cycles : Int) :
    (GBAMemoryProcessEvents g cycles).1.irqs
      = g.irqs ++ ((if chanRaises (g.memory.dma 0) cycles then [IRQ_DMA0] else [])
          ++ ((if chanRaises (g.memory.dma 1) cycles then [IRQ_DMA1] else [])
          ++ ((if chanRaises (g.memory.dma 2) cycles then [IRQ_DMA2] else [])
          ++ (if chanRaises (g.memory.dma 3) cycles then [IRQ_DMA3] else [])))) ∧
    ∀ j : Fin 4, (GBAMemoryProcessEvents g cycles).1.memory.dma j
      = { g.memory.dma j with nextIRQ := chanNext (g.memory.dma j) cycles } := by
  have e1 : (processChannel cycles 0 IRQ_DMA0 (g, INT_MAX)).1.memory.dma 1 = g.memory.dma 1 := by
    rw [processChannel_dma]; exact Function.update_noteq (by decide) _ _
  have e2 : (processChannel cycles 1 IRQ_DMA1
      (processChannel cycles 0 IRQ_DMA0 (g, INT_MAX))).1.memory.dma 2 = g.memory.dma 2 := by
    rw [processChannel_dma, Function.update_noteq (by decide), processChannel_dma]
    exact Function.update_noteq (by decide) _ _
  have e3 : (processChannel cycles 2 IRQ_DMA2 (processChannel cycles 1 IRQ_DMA1
      (processChannel cycles 0 IRQ_DMA0 (g, INT_MAX)))).1.memory.dma 3 = g.memory.dma 3 := by
    rw [processChannel_dma, Function.update_noteq (by decide), processChannel_dma,
      Function.update_noteq (by decide), processChannel_dma]
    exact Function.update_noteq (by decide) _ _
  constructor
  · unfold GBAMemoryProcessEvents
    rw [processChannel_irqs, processChannel_irqs, processChannel_irqs, processChannel_irqs,
      e1, e2, e3]
    simp only [List.append_assoc]
  · intro j
    unfold GBAMemoryProcessEvents
    rw [processChannel_dma, e3]
    fin_cases j
    · show Function.update _ 3 _ 0 = _
      rw [Function.update_noteq (by decide), processChannel_dma,
        Function.update_noteq (by decide), processChannel_dma,
        Function.update_noteq (by decide), processChannel_dma, Function.update_same]
      rfl
    · show Function.update _ 3 _ 1 = _
      rw [Function.update_noteq (by decide), processChannel_dma,
        Function.update_noteq (by decide), processChannel_dma, Function.update_same, e1]
      rfl
    · show Function.update _ 3 _ 2 = _
      rw [Function.update_noteq (by decide), processChannel_dma, Function.update_same, e2]
      rfl
    · show Function.update _ 3 _ 3 = _
      rw [Function.update_same]
      rfl

theorem count_ite_singleton (p : Prop) [Decidable p] (x a : Nat) :
    List.count a (if p then [x] else []) = if p ∧ x = a then 1 else 0 := by
  by_cases hp : p <;> by_cases hx : x = a <;>
    simp [hp, hx, List.count_cons, List.count_nil, beq_iff_eq]

/-- Number of times the line of channel `n` occurs among the interrupts one
`GBAMemoryProcessEvents` call raises. -/
theorem raised_count (g : GBA) (cycles : Int) (n : Fin 4) :
    List.count (irqOfChannel n)
      ((if chanRaises (g.memory.dma 0) cycles then [IRQ_DMA0] else [])
          ++ ((if chanRaises (g.memory.dma 1) cycles then [IRQ_DMA1] else [])
          ++ ((if chanRaises (g.memory.dma 2) cycles then [IRQ_DMA2] else [])
          ++ (if chanRaises (g.memory.dma 3) cycles then [IRQ_DMA3] else []))))
      = if chanRaises (g.memory.dma n) cycles then 1 else 0 := by
  simp only [List.count_append, count_ite_singleton]
  fin_cases n <;>
    simp [irqOfChannel, IRQ_DMA0, IRQ_DMA1, IRQ_DMA2, IRQ_DMA3]

theorem chanRaises_iff (d : GBADMA) (cycles : Int) :
    chanRaises d cycles ↔ d.enable ≠ 0 ∧ d.doIrq ≠ 0 ∧ wrapInt32 (d.nextIRQ - cycles) < 0 := by
  unfold chanRaises
  constructor
  · rintro ⟨h1, h2, h3, h4⟩
    exact ⟨h1, h2, lt_of_le_of_ne h4 h3⟩
  · rintro ⟨h1, h2, h3⟩
    exact ⟨h1, h2, ne_of_lt h3, le_of_lt h3⟩

/-- The condition "`nextIRQ` was non-zero before the subtraction and `nextIRQ - cycles <= 0`"
does not describe `GBAMemoryProcessEvents`: the zero test is made on `nextIRQ` after the
subtraction.  Channel 3 enabled with `doIrq` and `nextIRQ = 0` (as a control write leaves
it) gets its interrupt raised by `GBAMemoryProcessEvents(5)`. -/
theorem processEvents_channel_counterexample :
    ¬ ∀ (gba : GBA) (n : Fin 4) (cycles : Int),
        (List.count (irqOfChannel n) (GBAMemoryProcessEvents gba cycles).1.irqs
            = List.count (irqOfChannel n) gba.irqs + 1 ∧
          ((GBAMemoryProcessEvents gba cycles).1.memory.dma n).nextIRQ = INT_MAX) ↔
        ((gba.memory.dma n).enable ≠ 0 ∧ (gba.memory.dma n).doIrq ≠ 0 ∧
          (gba.memory.dma n).nextIRQ ≠ 0 ∧ (gba.memory.dma n).nextIRQ - cycles ≤ 0) := by
  intro h
  have h1 := (h (dma3GBA 0xC400) 3 5).1 (by decide)
  exact h1.2.2.1 rfl

/-- What `GBAMemoryProcessEvents(cycles)` does for one channel: it raises the channel's
IRQ (once) and resets `nextIRQ` to `INT_MAX` exactly when `enable` and `doIrq` are set and
`nextIRQ - cycles`, the value after the subtraction as a 32-bit integer, is non-zero and
`<= 0`, that is negative; in every other case it raises nothing for that channel and
leaves `nextIRQ` decremented by `cycles`. -/
theorem processEvents_channel (gba : GBA) (n : Fin 4) (cycles : Int) :
    (((gba.memory.dma n).enable ≠ 0 ∧ (gba.memory.dma n).doIrq ≠ 0 ∧
        wrapInt32 ((gba.memory.dma n).nextIRQ - cycles) < 0) →
      List.count (irqOfChannel n) (GBAMemoryProcessEvents gba cycles).1.irqs
          = List.count (irqOfChannel n) gba.irqs + 1 ∧
        ((GBAMemoryProcessEvents gba cycles).1.memory.dma n).nextIRQ = INT_MAX) ∧
    (¬ ((gba.memory.dma n).enable ≠ 0 ∧ (gba.memory.dma n).doIrq ≠ 0 ∧
        wrapInt32 ((gba.memory.dma n).nextIRQ - cycles) < 0) →
      List.count (irqOfChannel n) (GBAMemoryProcessEvents gba cycles).1.irqs
          = List.count (irqOfChannel n) gba.irqs ∧
        ((GBAMemoryProcessEvents gba cycles).1.memory.dma n).nextIRQ
          = wrapInt32 ((gba.memory.dma n).nextIRQ - cycles)) := by
  obtain ⟨hirqs, hdma⟩ := processEvents_spec gba cycles
  rw [hirqs, hdma n, List.count_append, raised_count]
  constructor
  · intro h
    have hr := (chanRaises_iff _ _).2 h
    rw [if_pos hr]
    refine ⟨rfl, ?_⟩
    show chanNext _ _ = _
    unfold chanNext
    rw [if_pos hr]
  · intro h
    have hr : ¬ chanRaises (gba.memory.dma n) cycles := fun hc => h ((chanRaises_iff _ _).1 hc)
    rw [if_neg hr]
    refine ⟨rfl, ?_⟩
    show chanNext _ _ = _
    unfold chanNext
    rw [if_neg hr]

theorem raisedBy_eq (g : GBA) (cycles : Int) :
    raisedBy g cycles
      = (if chanRaises (g.memory.dma 0) cycles then [IRQ_DMA0] else [])
          ++ ((if chanRaises (g.memory.dma 1) cycles then [IRQ_DMA1] else [])
          ++ ((if chanRaises (g.memory.dma 2) cycles then [IRQ_DMA2] else [])
          ++ (if chanRaises (g.memory.dma 3) cycles then [IRQ_DMA3] else []))) := by
  unfold raisedBy
  rw [(processEvents_spec g cycles).1, List.drop_left]

theorem wrapInt32_of_range (x : Int) (h : -2147483648 ≤ x ∧ x < 2147483648) :
    wrapInt32 x = x := by
  unfold wrapInt32 toInt32 truncate32
  split <;> omega

/-- Per channel, two calls raise the interrupt as often as one call with the sum of the
cycle counts, when the subtraction does not underflow. -/
theorem chanRaises_split (d : GBADMA) (c1 c2 : Int) (h1 : 0 ≤ c1) (h2 : 0 ≤ c2)
    (h12 : c1 + c2 ≤ INT_MAX)
    (hrange : d.enable ≠ 0 → d.doIrq ≠ 0 →
      -2147483648 + (c1 + c2) ≤ d.nextIRQ ∧ d.nextIRQ ≤ INT_MAX) :
    (if chanRaises d c1 then 1 else 0)
        + (if chanRaises { d with nextIRQ := chanNext d c1 } c2 then 1 else 0)
      = (if chanRaises d (c1 + c2) then 1 else 0) := by
  unfold INT_MAX at h12 hrange
  by_cases hE : d.enable ≠ 0 ∧ d.doIrq ≠ 0
  · obtain ⟨hr1, hr2⟩ := hrange hE.1 hE.2
    have w1 : wrapInt32 (d.nextIRQ - c1) = d.nextIRQ - c1 := wrapInt32_of_range _ (by omega)
    have ws : wrapInt32 (d.nextIRQ - (c1 + c2)) = d.nextIRQ - (c1 + c2) :=
      wrapInt32_of_range _ (by omega)
    have e1 : chanRaises d c1 ↔ d.nextIRQ - c1 < 0 := by
      rw [chanRaises_iff, w1]; exact ⟨fun h => h.2.2, fun h => ⟨hE.1, hE.2, h⟩⟩
    have es : chanRaises d (c1 + c2) ↔ d.nextIRQ - (c1 + c2) < 0 := by
      rw [chanRaises_iff, ws]; exact ⟨fun h => h.2.2, fun h => ⟨hE.1, hE.2, h⟩⟩
    by_cases hr : d.nextIRQ - c1 < 0
    · have hn : chanNext d c1 = 2147483647 := by
        unfold chanNext; rw [if_pos (e1.2 hr)]; rfl
      have e2 : ¬ chanRaises { d with nextIRQ := chanNext d c1 } c2 := by
        rw [chanRaises_iff]
        rintro ⟨_, _, h⟩
        have : wrapInt32 (chanNext d c1 - c2) = chanNext d c1 - c2 :=
          wrapInt32_of_range _ (by rw [hn]; omega)
        change wrapInt32 (chanNext d c1 - c2) < 0 at h
        rw [this, hn] at h
        omega
      rw [if_pos (e1.2 hr), if_neg e2, if_pos (es.2 (by omega))]
    · have hn : chanNext d c1 = d.nextIRQ - c1 := by
        unfold chanNext; rw [if_neg (fun h => hr (e1.1 h)), w1]
      have e2 : chanRaises { d with nextIRQ := chanNext d c1 } c2 ↔ d.nextIRQ - (c1 + c2) < 0 := by
        rw [chanRaises_iff]
        have : wrapInt32 (chanNext d c1 - c2) = d.nextIRQ - (c1 + c2) := by
          rw [hn, wrapInt32_of_range _ (by omega)]; ring
        constructor
        · rintro ⟨_, _, h⟩
          change wrapInt32 (chanNext d c1 - c2) < 0 at h
          rw [this] at h; exact h
        · intro h
          refine ⟨hE.1, hE.2, ?_⟩
          change wrapInt32 (chanNext d c1 - c2) < 0
          rw [this]; exact h
      rw [if_neg (fun h => hr (e1.1 h))]
      by_cases hs : d.nextIRQ - (c1 + c2) < 0
      · rw [if_pos (e2.2 hs), if_pos (es.2 hs)]
      · rw [if_neg (fun h => hs (e2.1 h)), if_neg (fun h => hs (es.1 h))]
  · have n1 : ∀ c, ¬ chanRaises d c := fun c h => hE ⟨h.1, h.2.1⟩
    have n2 : ¬ chanRaises { d with nextIRQ := chanNext d c1 } c2 := fun h => hE ⟨h.1, h.2.1⟩
    rw [if_neg (n1 c1), if_neg n2, if_neg (n1 (c1 + c2))]

theorem ite_and_split (p1 p2 ps q : Prop) [Decidable p1] [Decidable p2] [Decidable ps]
    [Decidable q]
    (h : (if p1 then 1 else 0) + (if p2 then 1 else 0) = (if ps then 1 else 0)) :
    (if p1 ∧ q then 1 else 0) + (if p2 ∧ q then 1 else 0) = (if ps ∧ q then 1 else 0) := by
  by_cases hq : q
  · simp only [hq, and_true]; exact h
  · simp only [hq, and_false, if_false]

theorem processEvents_split_aux (gba : GBA) (c1 c2 : Int) (h1 : 0 ≤ c1) (h2 : 0 ≤ c2)
    (h12 : c1 + c2 ≤ INT_MAX)
    (hrange : ∀ j : Fin 4, (gba.memory.dma j).enable ≠ 0 → (gba.memory.dma j).doIrq ≠ 0 →
      -2147483648 + (c1 + c2) ≤ (gba.memory.dma j).nextIRQ ∧
        (gba.memory.dma j).nextIRQ ≤ INT_MAX) :
    List.Perm (raisedBy gba c1 ++ raisedBy (GBAMemoryProcessEvents gba c1).1 c2)
      (raisedBy gba (c1 + c2)) := by
  rw [List.perm_iff_count]
  intro a
  have hd := (processEvents_spec gba c1).2
  rw [raisedBy_eq, raisedBy_eq, raisedBy_eq, hd 0, hd 1, hd 2, hd 3]
  simp only [List.count_append, count_ite_singleton]
  have k0 := ite_and_split _ _ _ (IRQ_DMA0 = a)
    (chanRaises_split (gba.memory.dma 0) c1 c2 h1 h2 h12 (hrange 0))
  have k1 := ite_and_split _ _ _ (IRQ_DMA1 = a)
    (chanRaises_split (gba.memory.dma 1) c1 c2 h1 h2 h12 (hrange 1))
  have k2 := ite_and_split _ _ _ (IRQ_DMA2 = a)
    (chanRaises_split (gba.memory.dma 2) c1 c2 h1 h2 h12 (hrange 2))
  have k3 := ite_and_split _ _ _ (IRQ_DMA3 = a)
    (chanRaises_split (gba.memory.dma 3) c1 c2 h1 h2 h12 (hrange 3))
  omega

/-- C14, as the spec states it, fails: with completion interrupts of channels 0 and 1
pending in 8 and in 3 cycles, `GBAMemoryProcessEvents(5)` twice raises IRQ_DMA1 then
IRQ_DMA0, one call with 10 cycles raises IRQ_DMA0 then IRQ_DMA1. -/
theorem processEvents_split_counterexample :
    ¬ ∀ (gba : GBA) (c1 c2 : Int), 0 ≤ c1 → 0 ≤ c2 → c1 + c2 ≤ INT_MAX →
        raisedBy gba c1 ++ raisedBy (GBAMemoryProcessEvents gba c1).1 c2
          = raisedBy gba (c1 + c2) := by
  intro h
  have h5 := h twoChannelGBA 5 5 (by decide) (by decide) (by decide)
  revert h5
  decide

/-- C14 amended: for every memory state and cycle counts `c1, c2 >= 0` with
`c1 + c2 <= INT_MAX`, the IRQs raised by `GBAMemoryProcessEvents(c1)` followed by
`GBAMemoryProcessEvents(c2)` are a permutation of those raised by one
`GBAMemoryProcessEvents(c1 + c2)` (each line is raised equally often; the order between
channels can differ), provided that for every channel with `enable` and `doIrq` set
`nextIRQ - (c1 + c2)` does not underflow a 32-bit integer. -/
theorem processEvents_split (gba : GBA) (c1 c2 : Int) (h1 : 0 ≤ c1) (h2 : 0 ≤ c2)
    (h12 : c1 + c2 ≤ INT_MAX)
    (hrange : ∀ j : Fin 4, (gba.memory.dma j).enable ≠ 0 → (gba.memory.dma j).doIrq ≠ 0 →
      -2147483648 + (c1 + c2) ≤ (gba.memory.dma j).nextIRQ ∧
        (gba.memory.dma j).nextIRQ ≤ INT_MAX) :
    List.Perm (raisedBy gba c1 ++ raisedBy (GBAMemoryProcessEvents gba c1).1 c2)
      (raisedBy gba (c1 + c2)) :=
  processEvents_split_aux gba c1 c2 h1 h2 h12 hrange

/-- Instance of `processEvents_split` on the two-channel machine with `c1 = c2 = 5`: the
two calls raise lines 9 then 8, the single call 8 then 9. -/
theorem processEvents_split_witness :
    List.Perm [9, 8] [8, 9] ∧
    raisedBy twoChannelGBA 5 ++ raisedBy (GBAMemoryProcessEvents twoChannelGBA 5).1 5 = [9, 8] ∧
    raisedBy twoChannelGBA (5 + 5) = [8, 9] :=
  ⟨processEvents_split twoChannelGBA 5 5 (by decide) (by decide) (by decide) (by decide),
   by decide, by decide⟩

/-! ## FastCpuSet -/

/-- Frame of the 32-bit fill loop into a range of bank `k` that does not wrap: only the
buffer of `k` changes, and only inside the destination range. -/
theorem fillLoop32_frame (k : RamBank) (g : GBA) (d : Nat) (word : Int) (n : Nat)
    (hk : k.holds d) (hlt : d < 4294967296) (hfit : d % k.size + 4 * n ≤ k.size)
    (hd4 : d % 4 = 0) :
    ∀ m, m ≤ n →
      fillLoop32 d word m g = k.setBuf g (k.buf (fillLoop32 d word m g)) ∧
      (∀ x : Int, (x < ((d % k.size : Nat) : Int) ∨ ((d % k.size : Nat) : Int) + 4 * (m : Int) ≤ x) →
        k.buf (fillLoop32 d word m g) x = k.buf g x) := by
  intro m
  induction m with
  | zero =>
    intro _
    have h0 : fillLoop32 d word 0 g = g := rfl
    rw [h0]
    exact ⟨(k.setBuf_buf g).symm, fun _ _ => rfl⟩
  | succ m ih =>
    intro hm
    obtain ⟨ha, hb⟩ := ih (by omega)
    have hdm := dest_elem k d n m 4 hk hlt (Or.inr rfl) hfit (by omega)
    have e4 : m <<< 2 = 4 * m := by rw [shl2]; omega
    have hidx : ((4 * (((d + 4 * m) % 4294967296) % k.size / 4) : Nat) : Int)
        = ((d % k.size : Nat) : Int) + 4 * (m : Int) := by
      rw [hdm.2]
      rcases k.size_eq with hs | hs <;> rw [hs] <;> omega
    have hstep : fillLoop32 d word (m + 1) g
        = k.setBuf g (storeWord (k.buf (fillLoop32 d word m g))
            (((d % k.size : Nat) : Int) + 4 * (m : Int)) (truncate32 word)) := by
      rw [fillLoop32_succ, e4, GBAStore32_bank k _ _ _ hdm.1, hidx]
      conv => lhs; rw [ha]
      rw [RamBank.setBuf_setBuf, RamBank.buf_setBuf]
    rw [hstep, RamBank.buf_setBuf]
    refine ⟨rfl, ?_⟩
    intro x hx
    rw [storeWord_outside _ _ _ _ (by omega)]
    exact hb x (by omega)

theorem GBASwi16_fastCpuSet (gba : GBA) : GBASwi16 gba 0xC = _FastCpuSet gba := by
  unfold GBASwi16
  rw [if_neg (by decide), if_neg (by decide), if_pos rfl]

theorem fastCpuSet_count (m : Nat) : ((m + 7) >>> 3) <<< 3 = 8 * ((m + 7) / 8) := by
  rw [Nat.shiftRight_eq_div_pow, Nat.shiftLeft_eq]
  norm_num
  omega

/-- Two addresses of one bank that decode to the same word give the same word load. -/
theorem GBALoad32_mirror (k : RamBank) (g : GBA) (a b : Nat) (ha : k.holds a) (hb : k.holds b)
    (h : a % k.size / 4 = b % k.size / 4) : GBALoad32 g a = GBALoad32 g b := by
  rw [GBALoad32_bank k g a ha, GBALoad32_bank k g b hb, h]

theorem bank_range_lt (k : RamBank) (d n : Nat) (hk : k.holds d) (hlt : d < 4294967296)
    (hfit : d % k.size + 4 * n ≤ k.size) : d + 4 * n ≤ 0x04000000 := by
  rw [RamBank.holds_iff] at hk
  have hb : k.base / 16777216 = 2 ∨ k.base / 16777216 = 3 := by
    cases k
    · exact Or.inl rfl
    · exact Or.inr rfl
  rcases k.size_eq with hs | hs <;> rw [hs] at hfit <;> omega

/-- FastCpuSet on a destination range of bank `k` that does not wrap and a source range of
bank `ks` that does not wrap and does not overlap it: the destination words, and the
frame (a word load whose four bytes lie outside the destination range is unchanged). -/
theorem fastCpuSet_aux (gba : GBA) (k ks : RamBank) (source dest n : Nat)
    (hsource : source = gba.gprs 0 &&& 0xFFFFFFFC) (hdest : dest = gba.gprs 1 &&& 0xFFFFFFFC)
    (hn : n = 8 * (((gba.gprs 2 &&& 0x000FFFFF) + 7) / 8))
    (hdst : k.holds dest ∧ dest % k.size + 4 * n ≤ k.size)
    (hsrc : ks.holds source ∧ source % ks.size + 4 * n ≤ ks.size)
    (hsep : ks = k →
      source % k.size + 4 * n ≤ dest % k.size ∨ dest % k.size + 4 * n ≤ source % k.size) :
    (gba.gprs 2 &&& 0x01000000 = 0 → ∀ i, i < n →
      GBALoad32 (GBASwi16 gba 0xC) (dest + 4 * i) = GBALoad32 gba (source + 4 * i)) ∧
    (gba.gprs 2 &&& 0x01000000 ≠ 0 → ∀ i, i < n →
      GBALoad32 (GBASwi16 gba 0xC) (dest + 4 * i) = GBALoad32 gba source) ∧
    (∀ a : Nat,
      (k.holds a → ∀ x : Int, ((4 * (a % k.size / 4) : Nat) : Int) ≤ x →
        x < ((4 * (a % k.size / 4) : Nat) : Int) + 4 →
        x < ((dest % k.size : Nat) : Int) ∨ ((dest % k.size + 4 * n : Nat) : Int) ≤ x) →
      GBALoad32 (GBASwi16 gba 0xC) a = GBALoad32 gba a) := by
  have ad := and_align4_lt (gba.gprs 1)
  have as := and_align4_lt (gba.gprs 0)
  rw [← hdest] at ad
  rw [← hsource] at as
  have hdlt := bank_range_lt k dest n hdst.1 ad.1 hdst.2
  have hslt := bank_range_lt ks source n hsrc.1 as.1 hsrc.2
  have e4 : ∀ i : Nat, i <<< 2 = 4 * i := fun i => by rw [shl2]; omega
  rw [GBASwi16_fastCpuSet]
  by_cases hmode : gba.gprs 2 &&& 0x01000000 = 0
  · -- copy
    have hrun : _FastCpuSet gba = copyLoop32 source dest n gba := by
      unfold _FastCpuSet
      simp only [hmode, ne_eq, not_true_eq_false, if_false]
      rw [fastCpuSet_count, ← hn, ← hsource, ← hdest]
    have hsep' : ∀ i, i < n → k.holds ((source + 4 * i) % 4294967296) →
        ((source + 4 * i) % 4294967296) % k.size + 4 ≤ dest % k.size ∨
          dest % k.size + 4 * n ≤ ((source + 4 * i) % 4294967296) % k.size := by
      intro i hi hh
      have hse := dest_elem ks source n i 4 hsrc.1 as.1 (Or.inr rfl) hsrc.2 hi
      have hkk : ks = k := RamBank.holds_unique ks k _ hse.1 hh
      subst hkk
      rw [hse.2]
      rcases hsep rfl with h | h <;> omega
    obtain ⟨h1, h2, h3⟩ := copyLoop32_spec k gba source dest n hdst.1 ad.1 hdst.2 ad.2 as.2 hsep'
    rw [hrun]
    refine ⟨fun _ i hi => ?_, fun h => absurd hmode h, fun a ha => ?_⟩
    · have := h1 i hi
      rwa [Nat.mod_eq_of_lt (by omega), Nat.mod_eq_of_lt (by omega)] at this
    · rw [h3]
      apply GBALoad32_frame
      intro hk x hx1 hx2
      exact h2 k x (fun hc => by
        have := ha hk x hx1 hx2
        omega)
  · -- fill
    have hrun : _FastCpuSet gba = fillLoop32 dest (GBALoad32 gba source) n gba := by
      unfold _FastCpuSet
      simp only [hmode, ne_eq, not_false_eq_true, if_true]
      rw [fastCpuSet_count, ← hn, ← hsource, ← hdest]
    obtain ⟨h3, h2⟩ := fillLoop32_frame k gba dest (GBALoad32 gba source) n hdst.1 ad.1 hdst.2
      ad.2 n (le_refl n)
    have h1 := fillLoop32_spec dest (GBALoad32 gba source) n gba (fun i hi => by
      rw [e4]
      exact ⟨k, (dest_elem k dest n i 4 hdst.1 ad.1 (Or.inr rfl) hdst.2 hi).1⟩)
    rw [hrun]
    refine ⟨fun h => absurd h hmode, fun _ i hi => ?_, fun a ha => ?_⟩
    · have := h1 i hi
      rwa [e4, Nat.mod_eq_of_lt (by omega), toInt32_truncate32_GBALoad32] at this
    · rw [h3]
      apply GBALoad32_frame
      intro hk x hx1 hx2
      apply h2
      have := ha hk x hx1 hx2
      omega

/-- C11, as the spec states it, fails when the destination range is a whole bank: a copy of
8192 words from 0x02000000 to 0x03000000 fills IWRAM, and the word at
`dest + 4 * n'` = 0x03008000 is the mirror of the first destination word, so it changes from
0 to the first source word. -/
theorem fastCpuSet_counterexample :
    ¬ ∀ (gba : GBA) (k ks : RamBank) (source dest n : Nat),
        source = gba.gprs 0 &&& 0xFFFFFFFC → dest = gba.gprs 1 &&& 0xFFFFFFFC →
        n = 8 * (((gba.gprs 2 &&& 0x000FFFFF) + 7) / 8) →
        (k.holds dest ∧ dest % k.size + 4 * n ≤ k.size) →
        (ks.holds source ∧ source % ks.size + 4 * n ≤ ks.size) →
        (ks = k →
          source % k.size + 4 * n ≤ dest % k.size ∨ dest % k.size + 4 * n ≤ source % k.size) →
        (gba.gprs 2 &&& 0x01000000 = 0 → ∀ i, i < n →
          GBALoad32 (GBASwi16 gba 0xC) (dest + 4 * i) = GBALoad32 gba (source + 4 * i)) ∧
        (gba.gprs 2 &&& 0x01000000 ≠ 0 → ∀ i, i < n →
          GBALoad32 (GBASwi16 gba 0xC) (dest + 4 * i) = GBALoad32 gba source) ∧
        GBALoad32 (GBASwi16 gba 0xC) (dest + 4 * n) = GBALoad32 gba (dest + 4 * n) := by
  intro h
  obtain ⟨hcopy, _, hlast⟩ := h fastCopyGBA RamBank.iwram RamBank.wram 0x02000000 0x03000000 8192
    (by decide) (by decide) (by decide) (by decide) (by decide) (fun hk => by cases hk)
  have h0 := hcopy (by decide) 0 (by decide)
  have hm : GBALoad32 (GBASwi16 fastCopyGBA 0xC) (0x03000000 + 4 * 8192)
      = GBALoad32 (GBASwi16 fastCopyGBA 0xC) (0x03000000 + 4 * 0) :=
    GBALoad32_mirror RamBank.iwram _ _ _ (by decide) (by decide) (by decide)
  have e1 : GBALoad32 fastCopyGBA (0x02000000 + 4 * 0) = 1 := by decide
  have e2 : GBALoad32 fastCopyGBA (0x03000000 + 4 * 8192) = 0 := by decide
  rw [hm, h0, e1, e2] at hlast
  exact absurd hlast (by decide)

/-- C11 amended: FastCpuSet transfers exactly `n' = 8 * ceil((r2 & 0xFFFFF) / 8)` 32-bit
words.  For a destination range of `n'` words in one RAM bank that does not wrap and a
source range in a RAM bank that does not wrap and does not overlap it, after SWI 0x0C the
words at `dest + 4 * i`, `i < n'`, equal the source words (copy) or the single source word
(fill, bit 24 set), whatever the size of the range.  The word at `dest + 4 * n'` is
unchanged, unless the destination range is the whole bank and `dest + 4 * n'` is still an
address of that bank: then it is the mirror of the first destination word and holds what
was transferred there. -/
theorem fastCpuSet_transfer (gba : GBA) (k ks : RamBank) (source dest n : Nat)
    (hsource : source = gba.gprs 0 &&& 0xFFFFFFFC) (hdest : dest = gba.gprs 1 &&& 0xFFFFFFFC)
    (hn : n = 8 * (((gba.gprs 2 &&& 0x000FFFFF) + 7) / 8))
    (hdst : k.holds dest ∧ dest % k.size + 4 * n ≤ k.size)
    (hsrc : ks.holds source ∧ source % ks.size + 4 * n ≤ ks.size)
    (hsep : ks = k →
      source % k.size + 4 * n ≤ dest % k.size ∨ dest % k.size + 4 * n ≤ source % k.size) :
    (gba.gprs 2 &&& 0x01000000 = 0 → ∀ i, i < n →
      GBALoad32 (GBASwi16 gba 0xC) (dest + 4 * i) = GBALoad32 gba (source + 4 * i)) ∧
    (gba.gprs 2 &&& 0x01000000 ≠ 0 → ∀ i, i < n →
      GBALoad32 (GBASwi16 gba 0xC) (dest + 4 * i) = GBALoad32 gba source) ∧
    (¬ (dest % k.size = 0 ∧ 4 * n = k.size ∧ k.holds (dest + 4 * n)) →
      GBALoad32 (GBASwi16 gba 0xC) (dest + 4 * n) = GBALoad32 gba (dest + 4 * n)) ∧
    ((dest % k.size = 0 ∧ 4 * n = k.size ∧ k.holds (dest + 4 * n)) →
      GBALoad32 (GBASwi16 gba 0xC) (dest + 4 * n) = GBALoad32 (GBASwi16 gba 0xC) dest) := by
  obtain ⟨h1, h2, h3⟩ := fastCpuSet_aux gba k ks source dest n hsource hdest hn hdst hsrc hsep
  refine ⟨h1, h2, ?_, ?_⟩
  · intro hpart
    apply h3
    intro hk x hx1 hx2
    have ad := and_align4_lt (gba.gprs 1)
    rw [← hdest] at ad
    have hd4 := ad.2
    have hfit := hdst.2
    have hpart' : ¬ (dest % k.size = 0 ∧ 4 * n = k.size) := fun hc => hpart ⟨hc.1, hc.2, hk⟩
    rcases k.size_eq with hs | hs <;> rw [hs] at hfit hpart' hx1 hx2 ⊢ <;> omega
  · rintro ⟨hd0, hwhole, hk⟩
    apply GBALoad32_mirror k _ _ _ hk hdst.1
    rw [hwhole, Nat.add_mod_right]

/-- Instances of `fastCpuSet_transfer`: SWI 0x0C with r2 = 1 copies 8 words from WRAM
0x02000000 to IWRAM 0x03000040 and leaves the ninth word; with r2 = 0x2000 and
r1 = 0x03000000 it copies 8192 words over all of IWRAM, and the word at 0x03008000 is the
first destination word again. -/
theorem fastCpuSet_transfer_witness :
    (cpuSetCopyGBA 1).gprs 2 &&& 0x01000000 = 0 ∧
    (∀ i, i < 8 →
      GBALoad32 (GBASwi16 (cpuSetCopyGBA 1) 0xC) (0x03000040 + 4 * i)
        = GBALoad32 (cpuSetCopyGBA 1) (0x02000000 + 4 * i)) ∧
    GBALoad32 (GBASwi16 (cpuSetCopyGBA 1) 0xC) (0x03000040 + 4 * 8)
      = GBALoad32 (cpuSetCopyGBA 1) (0x03000040 + 4 * 8) ∧
    (∀ i, i < 8192 →
      GBALoad32 (GBASwi16 fastCopyGBA 0xC) (0x03000000 + 4 * i)
        = GBALoad32 fastCopyGBA (0x02000000 + 4 * i)) ∧
    GBALoad32 (GBASwi16 fastCopyGBA 0xC) (0x03000000 + 4 * 8192)
      = GBALoad32 (GBASwi16 fastCopyGBA 0xC) 0x03000000 :=
  ⟨by decide,
   (fastCpuSet_transfer (cpuSetCopyGBA 1) RamBank.iwram RamBank.wram 0x02000000 0x03000040 8
      (by decide) (by decide) (by decide) (by decide) (by decide) (fun hk => by cases hk)).1
      (by decide),
   (fastCpuSet_transfer (cpuSetCopyGBA 1) RamBank.iwram RamBank.wram 0x02000000 0x03000040 8
      (by decide) (by decide) (by decide) (by decide) (by decide) (fun hk => by cases hk)).2.2.1
      (by decide),
   (fastCpuSet_transfer fastCopyGBA RamBank.iwram RamBank.wram 0x02000000 0x03000000 8192
      (by decide) (by decide) (by decide) (by decide) (by decide) (fun hk => by cases hk)).1
      (by decide),
   (fastCpuSet_transfer fastCopyGBA RamBank.iwram RamBank.wram 0x02000000 0x03000000 8192
      (by decide) (by decide) (by decide) (by decide) (by decide) (fun hk => by cases hk)).2.2.2
      (by decide)⟩

/-! ## Repeating channels with immediate timing -/

/-- A service of an enabled repeating channel with immediate timing reaches the nested
service call on a machine whose channel is again enabled, repeating and immediate. -/
theorem serviceDMA_repeat_immediate_unfold (fuel : Nat) (g : GBA) (n : Fin 4)
    (hen : (g.memory.dma n).enable ≠ 0) (hrep : (g.memory.dma n).repeat_ ≠ 0)
    (htim : (g.memory.dma n).timing = DMA_TIMING_NOW) :
    ∃ g', GBAMemoryServiceDMA (fuel + 1) g n = GBAMemoryServiceDMA fuel g' n ∧
      (g'.memory.dma n).packed = (g.memory.dma n).packed := by
  rw [GBAMemoryServiceDMA]
  unfold GBAMemoryScheduleDMA
  simp only [hen, if_false]
  have hrep' : ∀ (a : Int) (b c : Nat) (d : Int), GBADMA.repeat_
      { g.memory.dma n with nextIRQ := a, nextSource := b, nextDest := c, nextCount := d }
        = (g.memory.dma n).repeat_ := fun _ _ _ _ => rfl
  have htim' : ∀ (a : Int) (b c : Nat) (d : Int), GBADMA.timing
      { g.memory.dma n with nextIRQ := a, nextSource := b, nextDest := c, nextCount := d }
        = (g.memory.dma n).timing := fun _ _ _ _ => rfl
  rw [hrep', if_neg hrep, htim', if_pos htim]
  refine ⟨_, rfl, ?_⟩
  simp only [Function.update_same]

/-- An enabled repeating channel with immediate timing is never done being serviced:
whatever the depth allowed for the nested calls, the call chain has not returned. -/
theorem serviceDMA_repeat_immediate_none (fuel : Nat) (g : GBA) (n : Fin 4)
    (hen : (g.memory.dma n).enable ≠ 0) (hrep : (g.memory.dma n).repeat_ ≠ 0)
    (htim : (g.memory.dma n).timing = DMA_TIMING_NOW) :
    GBAMemoryServiceDMA fuel g n = none := by
  induction fuel generalizing g with
  | zero => rfl
  | succ fuel ih =>
    obtain ⟨g', h1, h2⟩ := serviceDMA_repeat_immediate_unfold fuel g n hen hrep htim
    rw [h1]
    apply ih
    · unfold GBADMA.enable at hen ⊢; rw [h2]; exact hen
    · unfold GBADMA.repeat_ at hrep ⊢; rw [h2]; exact hrep
    · unfold GBADMA.timing at htim ⊢; rw [h2]; exact htim

/-- A service of an enabled channel returns when the repeat bit is clear or the timing
is not immediate. -/
theorem serviceDMA_returns (fuel : Nat) (g : GBA) (n : Fin 4)
    (hen : (g.memory.dma n).enable ≠ 0)
    (hret : (g.memory.dma n).repeat_ = 0 ∨ (g.memory.dma n).timing ≠ DMA_TIMING_NOW) :
    ∃ g', GBAMemoryServiceDMA (fuel + 1) g n = some g' := by
  by_cases hrep : (g.memory.dma n).repeat_ = 0
  · exact ⟨_, serviceDMA_nonrepeat fuel g n hen hrep⟩
  · rcases hret with h | h
    · exact absurd h hrep
    · obtain ⟨g', h1, _⟩ := serviceDMA_repeat_timed fuel g n hen hrep h
      exact ⟨g', h1⟩

/-- The control write returns unless it enables a disabled channel with the repeat bit
set and immediate timing. -/
theorem writeDMACNT_HI_returns (fuel : Nat) (g : GBA) (n : Fin 4) (control : Nat)
    (h : (g.memory.dma n).enable ≠ 0 ∨ control % 65536 / 32768 % 2 = 0 ∨
      control % 65536 / 512 % 2 = 0 ∨ control % 65536 / 4096 % 4 ≠ 0) :
    ∃ r, GBAMemoryWriteDMACNT_HI (fuel + 1) g n control = some r := by
  by_cases hnew : (g.memory.dma n).enable = 0 ∧ control % 65536 / 32768 % 2 ≠ 0
  · by_cases htim : control % 65536 / 4096 % 4 = 0
    · have hrep : control % 65536 / 512 % 2 = 0 := by
        rcases h with h | h | h | h
        · exact absurd hnew.1 h
        · exact absurd h hnew.2
        · exact h
        · exact absurd htim h
      rw [writeDMACNT_HI_immediate (fuel + 1) g n control hnew.1 hnew.2 htim]
      obtain ⟨g', hg'⟩ := serviceDMA_returns fuel (latchedGBA g n control) n
        (by rw [latchedGBA_dma]; exact hnew.2) (Or.inl (by rw [latchedGBA_dma]; exact hrep))
      rw [hg']
      exact ⟨_, rfl⟩
    · unfold GBAMemoryWriteDMACNT_HI GBAMemoryScheduleDMA
      simp only [GBADMA.enable, GBADMA.timing, DMA_TIMING_NOW] at hnew ⊢
      rw [if_pos hnew, if_neg htim]
      exact ⟨_, rfl⟩
  · unfold GBAMemoryWriteDMACNT_HI
    simp only [GBADMA.enable] at hnew ⊢
    rw [if_neg hnew]
    exact ⟨_, rfl⟩

/-- Code behaviour behind C22: a service of an enabled channel with the repeat bit set and
immediate timing re-schedules the channel, and the scheduler calls the service again
(lines 590, 487), on a channel that is again enabled, repeating and immediate; so for
every machine, every channel and every depth of nesting the call chain has not returned,
and neither has the `GBAMemoryWriteDMACNT_HI` call that enables such a channel.  In every
other combination of timing and repeat the service of an enabled channel returns, and so
does the control write. -/
theorem serviceDMA_repeat_immediate_never_returns :
    (∀ (fuel : Nat) (gba : GBA) (n : Fin 4),
      (gba.memory.dma n).enable ≠ 0 → (gba.memory.dma n).repeat_ ≠ 0 →
      (gba.memory.dma n).timing = DMA_TIMING_NOW → GBAMemoryServiceDMA fuel gba n = none) ∧
    (∀ (fuel : Nat) (gba : GBA) (n : Fin 4) (control : Nat),
      (gba.memory.dma n).enable = 0 → control % 65536 / 32768 % 2 ≠ 0 →
      control % 65536 / 512 % 2 ≠ 0 → control % 65536 / 4096 % 4 = 0 →
      GBAMemoryWriteDMACNT_HI fuel gba n control = none) ∧
    (∀ (fuel : Nat) (gba : GBA) (n : Fin 4),
      (gba.memory.dma n).enable ≠ 0 →
      ((gba.memory.dma n).repeat_ = 0 ∨ (gba.memory.dma n).timing ≠ DMA_TIMING_NOW) →
      ∃ gba', GBAMemoryServiceDMA (fuel + 1) gba n = some gba') ∧
    (∀ (fuel : Nat) (gba : GBA) (n : Fin 4) (control : Nat),
      ((gba.memory.dma n).enable ≠ 0 ∨ control % 65536 / 32768 % 2 = 0 ∨
        control % 65536 / 512 % 2 = 0 ∨ control % 65536 / 4096 % 4 ≠ 0) →
      ∃ r, GBAMemoryWriteDMACNT_HI (fuel + 1) gba n control = some r) := by
  refine ⟨serviceDMA_repeat_immediate_none, ?_, serviceDMA_returns, writeDMACNT_HI_returns⟩
  intro fuel gba n control hdis hen hrep htim
  rw [writeDMACNT_HI_immediate fuel gba n control hdis hen htim,
    serviceDMA_repeat_immediate_none fuel (latchedGBA gba n control) n
      (by rw [latchedGBA_dma]; exact hen) (by rw [latchedGBA_dma]; exact hrep)
      (by rw [latchedGBA_dma]; exact htim)]

/-- Instance of `serviceDMA_repeat_immediate_never_returns` on channel 3 of scenario 5
(source 0x08000000 in ROM, destination 0x02000000 in WRAM, count 4) with the control
word 0x8600 (enable, 32-bit, repeat, immediate): neither the service nor the control
write has returned at nesting depth 1000, and evaluating the service at depth 3 gives the
same; with the repeat bit clear (0x8400) both return. -/
theorem serviceDMA_repeat_immediate_never_returns_witness :
    GBAMemoryServiceDMA 1000 (dma3GBA 0x8600) 3 = none ∧
    GBAMemoryWriteDMACNT_HI 1000 (dma3GBA 0) 3 0x8600 = none ∧
    (∃ gba', GBAMemoryServiceDMA (0 + 1) (dma3GBA 0x8400) 3 = some gba') ∧
    (∃ r, GBAMemoryWriteDMACNT_HI (0 + 1) (dma3GBA 0) 3 0x8400 = some r) ∧
    (GBAMemoryServiceDMA 3 (dma3GBA 0x8600) 3).isNone = true ∧
    (GBAMemoryWriteDMACNT_HI 3 (dma3GBA 0) 3 0x8600).isNone = true :=
  ⟨serviceDMA_repeat_immediate_never_returns.1 1000 (dma3GBA 0x8600) 3
      (by decide) (by decide) (by decide),
    serviceDMA_repeat_immediate_never_returns.2.1 1000 (dma3GBA 0) 3 0x8600
      (by decide) (by decide) (by decide) (by decide),
    serviceDMA_repeat_immediate_never_returns.2.2.1 0 (dma3GBA 0x8400) 3
      (by decide) (Or.inl (by decide)),
    serviceDMA_repeat_immediate_never_returns.2.2.2 0 (dma3GBA 0) 3 0x8400
      (Or.inr (Or.inr (Or.inl (by decide)))),
    by decide, by decide⟩

/-! ## LZ77 back-references -/

/-- The test `blockheader & 0x80` after `i` shifts reads bit `7 - i` of the flag byte. -/
theorem header_bit (flag i : Nat) (hi : i < 8) :
    (flag <<< i) &&& 0x80 ≠ 0 ↔ flag.testBit (7 - i) = true := by
  have h1 : (flag <<< i) &&& 0x80 = (flag <<< i) / 2 ^ 7 % 2 ^ 1 * 2 ^ 7 :=
    and_shifted_mask (flag <<< i) 1 7
  have h2 : (flag <<< i).testBit 7 = flag.testBit (7 - i) := by
    rw [Nat.testBit_shiftLeft]
    have : decide (7 ≥ i) = true := by simp; omega
    rw [this, Bool.true_and]
  rw [← h2, Nat.testBit_to_div_mod, h1]
  simp only [decide_eq_true_eq]
  omega

/-- Fields of a reference token read as `A | (B << 8)`, in terms of the two bytes. -/
theorem backref_fields (A B : Nat) (hA : A < 256) (hB : B < 256) :
    (A ||| (B <<< 8)) &&& 0x000F = A &&& 0x0F ∧
    ((A ||| (B <<< 8)) &&& 0xFF00) >>> 8 = B ∧
    ((A ||| (B <<< 8)) &&& 0x00F0) >>> 4 = A >>> 4 := by
  have hblock : A ||| (B <<< 8) = B * 256 + A := by
    rw [Nat.or_comm, Nat.shiftLeft_eq, Nat.mul_comm, ← Nat.mul_add_lt_is_or (by simpa using hA)]
  have m1 : ∀ x : Nat, x &&& 0x000F = x % 16 := fun x => by
    have := and_shifted_mask x 4 0
    simpa using this
  have m2 : ∀ x : Nat, x &&& 0xFF00 = x / 256 % 256 * 256 := fun x => and_shifted_mask x 8 8
  have m3 : ∀ x : Nat, x &&& 0x00F0 = x / 16 % 16 * 16 := fun x => and_shifted_mask x 4 4
  rw [hblock, m1, m1, m2, m3, Nat.shiftRight_eq_div_pow, Nat.shiftRight_eq_div_pow,
    Nat.shiftRight_eq_div_pow]
  refine ⟨by omega, by omega, by omega⟩

/-- The inner copy loop with at least `bytes` bytes remaining runs `bytes` rounds. -/
theorem lzCopy_full (t : LzTarget) (bytes : Nat) (g : GBA) (disp dP : Int) (rem : Nat)
    (h : bytes ≤ rem) :
    (lzCopy t bytes g disp dP rem).2.1 = dP + (bytes : Int) ∧
    (lzCopy t bytes g disp dP rem).2.2 = rem - bytes := by
  induction bytes generalizing g disp dP rem with
  | zero => exact ⟨by simp [lzCopy], by simp [lzCopy]⟩
  | succ bytes ih =>
    have hr : ¬ (rem = 0) := by omega
    rw [lzCopy, if_neg hr]
    obtain ⟨h1, h2⟩ := ih (lzStore g t dP (lzLoad g t disp)) (disp + 1) (dP + 1) (rem - 1)
      (by omega)
    rw [h1, h2]
    refine ⟨by push_cast; omega, by omega⟩

/-- The inner copy loop reading `f + 1` bytes behind the write pointer: afterwards every
written byte equals the byte `f + 1` positions before it. -/
theorem lzCopy_backref (t : LzTarget) (f bytes : Nat) (g : GBA) (dP : Int) (rem : Nat)
    (h : bytes ≤ rem) (j : Nat) (hj : j < bytes) :
    loadByte (t.buf (lzCopy t bytes g (dP - (f : Int) - 1) dP rem).1) (dP + (j : Int))
      = loadByte (t.buf (lzCopy t bytes g (dP - (f : Int) - 1) dP rem).1)
          (dP + (j : Int) - (f : Int) - 1) := by
  induction bytes generalizing g dP rem j with
  | zero => omega
  | succ bytes ih =>
    have hr : ¬ (rem = 0) := by omega
    have hstep : lzCopy t (bytes + 1) g (dP - (f : Int) - 1) dP rem
        = lzCopy t bytes (lzStore g t dP (lzLoad g t (dP - (f : Int) - 1)))
            (dP + 1 - (f : Int) - 1) (dP + 1) (rem - 1) := by
      rw [lzCopy, if_neg hr]
      congr 1
      omega
    rw [hstep]
    cases j with
    | zero =>
      obtain ⟨_, _, _, _, h5⟩ := lzCopy_spec t bytes
        (lzStore g t dP (lzLoad g t (dP - (f : Int) - 1))) (dP + 1 - (f : Int) - 1) (dP + 1)
        (rem - 1)
      simp only [Nat.cast_zero, add_zero]
      unfold loadByte
      rw [h5 dP (Or.inl (by omega)), h5 (dP - (f : Int) - 1) (Or.inl (by omega)),
        lzStore_eq, LzTarget.target_buf_setBuf, lzLoad_eq]
      unfold storeByte loadByte
      rw [if_pos (by omega), if_neg (by omega)]
      omega
    | succ j =>
      have := ih (lzStore g t dP (lzLoad g t (dP - (f : Int) - 1))) (dP + 1) (rem - 1)
        (by omega) j (by omega)
      have e1 : dP + ((j + 1 : Nat) : Int) = dP + 1 + (j : Int) := by push_cast; omega
      rw [e1]
      exact this

/-- A byte-by-byte copy from `f + 1` positions back repeats the `f + 1` bytes before the
run: byte `j` of the run is byte `j % (f + 1)` of them. -/
theorem backref_periodic (F' F : Int → Nat) (dP : Int) (f n : Nat)
    (hrec : ∀ j : Nat, j < n → F' (dP + (j : Int)) = F' (dP + (j : Int) - (f : Int) - 1))
    (hframe : ∀ x : Int, x < dP → F' x = F x) (j : Nat) (hj : j < n) :
    F' (dP + (j : Int)) = F (dP - (f : Int) - 1 + ((j % (f + 1) : Nat) : Int)) := by
  induction j using Nat.strong_induction_on with
  | _ j ih =>
    rw [hrec j hj]
    by_cases hlt : j < f + 1
    · rw [hframe _ (by omega), Nat.mod_eq_of_lt hlt]
      congr 1
      omega
    · have e : dP + (j : Int) - (f : Int) - 1 = dP + ((j - (f + 1) : Nat) : Int) := by omega
      rw [e, ih (j - (f + 1)) (by omega) (by omega), Nat.mod_eq_sub_mod (by omega : j ≥ f + 1)]

/-- The body of the outer loop on a reference token, in terms of the two stream bytes. -/
theorem lzStep_compressed (t : LzTarget) (s : LzState)
    (hb : s.blocksRemaining ≠ 0) (hh : s.blockheader &&& 0x80 ≠ 0) :
    lzStep t s =
      { gba := (lzCopy t ((GBALoadU8 s.gba s.sPointer >>> 4) + 3) s.gba
            (s.dPointer - ((((GBALoadU8 s.gba s.sPointer &&& 0x0F) <<< 8)
              ||| GBALoadU8 s.gba ((s.sPointer + 1) % 4294967296) : Nat) : Int) - 1)
            s.dPointer s.remaining).1
        sPointer := (s.sPointer + 2) % 4294967296
        dPointer := (lzCopy t ((GBALoadU8 s.gba s.sPointer >>> 4) + 3) s.gba
            (s.dPointer - ((((GBALoadU8 s.gba s.sPointer &&& 0x0F) <<< 8)
              ||| GBALoadU8 s.gba ((s.sPointer + 1) % 4294967296) : Nat) : Int) - 1)
            s.dPointer s.remaining).2.1
        remaining := (lzCopy t ((GBALoadU8 s.gba s.sPointer >>> 4) + 3) s.gba
            (s.dPointer - ((((GBALoadU8 s.gba s.sPointer &&& 0x0F) <<< 8)
              ||| GBALoadU8 s.gba ((s.sPointer + 1) % 4294967296) : Nat) : Int) - 1)
            s.dPointer s.remaining).2.2
        blockheader := s.blockheader <<< 1
        blocksRemaining := s.blocksRemaining - 1 } := by
  obtain ⟨b1, b2, b3⟩ := backref_fields (GBALoadU8 s.gba s.sPointer)
    (GBALoadU8 s.gba ((s.sPointer + 1) % 4294967296)) (GBALoadU8_lt _ _) (GBALoadU8_lt _ _)
  unfold lzStep
  rw [if_pos hb, if_pos hh]
  simp only [b1, b2, b3]

/-- The outer loop keeps the relation between `blocksRemaining` and `blockheader`, which
holds when the loop starts. -/
theorem lzHeaderInv_step (t : LzTarget) (s : LzState) (h : LzHeaderInv s) :
    LzHeaderInv (lzStep t s) := by
  unfold lzStep
  by_cases hb : s.blocksRemaining = 0
  · rw [if_neg (not_not.2 hb)]
    exact Or.inr ⟨GBALoadU8 s.gba s.sPointer, 0, GBALoadU8_lt _ _, by decide, rfl, rfl⟩
  · rcases h with h | ⟨flag, i, hflag, hi, h1, h2⟩
    · exact absurd h hb
    · have hnext : s.blocksRemaining - 1 = 0 ∨
          ∃ flag' i', flag' < 256 ∧ i' < 8 ∧ s.blocksRemaining - 1 = 8 - i' ∧
            s.blockheader <<< 1 = flag' <<< i' := by
        by_cases h7 : i = 7
        · left; omega
        · right
          exact ⟨flag, i + 1, hflag, by omega, by omega, by rw [h2, Nat.shiftLeft_add]⟩
      rw [if_pos hb]
      split
      · exact hnext
      · exact hnext

theorem lzHeaderInv_init (gba : GBA) (source : Nat) (dest : Int) :
    LzHeaderInv (lzInit gba source dest) := Or.inl rfl

/-- Effect of the loop body on a reference token of length `n` reaching `f + 1` bytes
back, with at least `n` bytes remaining, in terms of pointers into the buffer. -/
theorem lzStep_backref (t : LzTarget) (s : LzState) (flag i A B n f : Nat)
    (hi : i < 8) (hblocks : s.blocksRemaining = 8 - i) (hheader : s.blockheader = flag <<< i)
    (hflag : flag.testBit (7 - i) = true)
    (hA : A = GBALoadU8 s.gba s.sPointer)
    (hB : B = GBALoadU8 s.gba ((s.sPointer + 1) % 4294967296))
    (hn : n = (A >>> 4) + 3) (hf : f = ((A &&& 0x0F) <<< 8) ||| B)
    (hrem : n ≤ s.remaining) :
    (lzStep t s).sPointer = (s.sPointer + 2) % 4294967296 ∧
    (lzStep t s).dPointer = s.dPointer + (n : Int) ∧
    (lzStep t s).remaining = s.remaining - n ∧
    (lzStep t s).blocksRemaining = 8 - (i + 1) ∧
    (lzStep t s).blockheader = flag <<< (i + 1) ∧
    (lzStep t s).gba = t.setBuf s.gba (t.buf (lzStep t s).gba) ∧
    (∀ x : Int, (x < s.dPointer ∨ s.dPointer + (n : Int) ≤ x) →
      t.buf (lzStep t s).gba x = t.buf s.gba x) ∧
    (∀ j : Nat, j < n →
      loadByte (t.buf (lzStep t s).gba) (s.dPointer + (j : Int))
        = loadByte (t.buf (lzStep t s).gba) (s.dPointer + (j : Int) - (f : Int) - 1)) := by
  have hb : s.blocksRemaining ≠ 0 := by omega
  have hh : s.blockheader &&& 0x80 ≠ 0 := by rw [hheader]; exact (header_bit flag i hi).2 hflag
  rw [lzStep_compressed t s hb hh, ← hA, ← hB, ← hf, ← hn]
  simp only
  obtain ⟨c1, c2⟩ := lzCopy_full t n s.gba (s.dPointer - (f : Int) - 1) s.dPointer s.remaining hrem
  obtain ⟨_, _, _, d4, d5⟩ :=
    lzCopy_spec t n s.gba (s.dPointer - (f : Int) - 1) s.dPointer s.remaining
  refine ⟨trivial, c1, c2, by omega, by rw [hheader, Nat.shiftLeft_add], d4, ?_, ?_⟩
  · intro x hx
    exact d5 x (by rw [c1]; exact hx)
  · intro j hj
    exact lzCopy_backref t f n s.gba s.dPointer s.remaining hrem j hj

/-- C21: in `_unLz77`, let the loop be at token `i` of a group whose flag byte `flag` has,
counting from the most significant bit, bit `i` set, with `k` output bytes written, the
stream bytes at the stream pointer being `A` then `B`, `n = (A >> 4) + 3` not exceeding the
remaining length and `f = ((A & 0x0F) << 8) | B` with `f + 1 <= k`.  Then the loop body
advances the stream pointer by 2 (modulo 2^32), appends exactly `n` bytes (the write
pointer moves by `n`, the remaining length drops by `n`, nothing outside the `n` bytes
changes), and afterwards `out[k + j] = out[k + j - f - 1]` for every `j < n`.  The copy
runs byte by byte: byte `j` of the run is byte `j % (f + 1)` of the `f + 1` bytes that
preceded it, so a run with `n > f + 1` repeats its own output.  The relation still holds
in the output the whole loop leaves, given the rounds it needs. -/
theorem unLz77_backref_token (t : LzTarget) (s : LzState) (dest : Int) (flag i k A B n f : Nat)
    (hi : i < 8) (hblocks : s.blocksRemaining = 8 - i) (hheader : s.blockheader = flag <<< i)
    (hflag : flag.testBit (7 - i) = true)
    (hk : s.dPointer = dest + (k : Int))
    (hA : A = GBALoadU8 s.gba s.sPointer)
    (hB : B = GBALoadU8 s.gba ((s.sPointer + 1) % 4294967296))
    (hn : n = (A >>> 4) + 3) (hf : f = ((A &&& 0x0F) <<< 8) ||| B)
    (hrem : n ≤ s.remaining) (hfk : f + 1 ≤ k) :
    (lzStep t s).sPointer = (s.sPointer + 2) % 4294967296 ∧
    (lzStep t s).dPointer = dest + ((k + n : Nat) : Int) ∧
    (lzStep t s).remaining = s.remaining - n ∧
    (lzStep t s).blocksRemaining = 8 - (i + 1) ∧
    (lzStep t s).blockheader = flag <<< (i + 1) ∧
    (lzStep t s).gba = t.setBuf s.gba (t.buf (lzStep t s).gba) ∧
    (∀ x : Int, (x < dest + (k : Int) ∨ dest + ((k + n : Nat) : Int) ≤ x) →
      t.buf (lzStep t s).gba x = t.buf s.gba x) ∧
    (∀ j, j < n →
      lzOut t (lzStep t s).gba dest (k + j) = lzOut t (lzStep t s).gba dest (k + j - f - 1)) ∧
    (∀ j, j < n →
      lzOut t (lzStep t s).gba dest (k + j) = lzOut t s.gba dest (k - (f + 1) + j % (f + 1))) ∧
    (∀ fuel, lzRounds s ≤ fuel → ∀ j, j < n →
      lzOut t (lzLoop t fuel s).gba dest (k + j)
        = lzOut t (lzLoop t fuel s).gba dest (k + j - f - 1)) := by
  obtain ⟨r1, r2, r3, r4, r5, r6, r7, r8⟩ :=
    lzStep_backref t s flag i A B n f hi hblocks hheader hflag hA hB hn hf hrem
  have hn3 : 3 ≤ n := by omega
  have e1 : ∀ j : Nat, dest + ((k + j : Nat) : Int) = s.dPointer + (j : Int) := by
    intro j; rw [hk]; push_cast; omega
  have e2 : ∀ j : Nat, dest + ((k + j - f - 1 : Nat) : Int)
      = s.dPointer + (j : Int) - (f : Int) - 1 := by
    intro j; rw [hk]; omega
  have hrel : ∀ j, j < n →
      lzOut t (lzStep t s).gba dest (k + j) = lzOut t (lzStep t s).gba dest (k + j - f - 1) := by
    intro j hj
    unfold lzOut
    rw [e1, e2]
    exact r8 j hj
  refine ⟨r1, by rw [r2, hk]; push_cast; omega, r3, r4, r5, r6, ?_, hrel, ?_, ?_⟩
  · intro x hx
    exact r7 x (by rw [hk]; push_cast at hx; omega)
  · intro j hj
    unfold lzOut
    have hmod : j % (f + 1) < f + 1 := Nat.mod_lt _ (by omega)
    have e3 : dest + ((k - (f + 1) + j % (f + 1) : Nat) : Int)
        = s.dPointer - (f : Int) - 1 + ((j % (f + 1) : Nat) : Int) := by
      rw [hk]; omega
    rw [e1, e3]
    exact backref_periodic (fun x => loadByte (t.buf (lzStep t s).gba) x)
      (fun x => loadByte (t.buf s.gba) x) s.dPointer f n r8
      (fun x hx => by show loadByte _ x = loadByte _ x; unfold loadByte; rw [r7 x (Or.inl hx)])
      j hj
  · intro fuel hfuel j hj
    have hpos : 0 < s.remaining := by omega
    obtain ⟨s1, _⟩ := lzStep_spec t s hpos
    cases fuel with
    | zero => omega
    | succ fuel =>
      have hl : lzLoop t (fuel + 1) s = lzLoop t fuel (lzStep t s) := by
        rw [lzLoop, if_pos hpos]
      obtain ⟨_, _, _, l4⟩ := lzLoop_spec t fuel (lzStep t s) (by omega)
      have := hrel j hj
      unfold lzOut at this ⊢
      unfold loadByte at this ⊢
      rw [hl, l4 _ (Or.inl (by rw [r2, e1]; omega)), l4 _ (Or.inl (by rw [r2, e2]; omega))]
      exact this

/-- Instance of `unLz77_backref_token` on the stream of `lzRefGBA`, at the third token of
the group (flag 0x20, two literals written): the reference 0x30, 0x01 has `n = 6`,
`f = 1`; the six bytes repeat the two literals three times, and SWI 0x11 leaves
AA BB AA BB AA BB AA BB at WRAM offsets 0..7. -/
theorem unLz77_backref_token_witness :
    ((lzStep LzTarget.wram ((lzStep LzTarget.wram)^[3] (lzInit lzRefGBA 0x08000000 0))).sPointer
      = 0x08000009) ∧
    (∀ j, j < 6 →
      lzOut LzTarget.wram (lzStep LzTarget.wram
          ((lzStep LzTarget.wram)^[3] (lzInit lzRefGBA 0x08000000 0))).gba 0 (2 + j)
        = lzOut LzTarget.wram (lzStep LzTarget.wram
          ((lzStep LzTarget.wram)^[3] (lzInit lzRefGBA 0x08000000 0))).gba 0 (2 + j - 1 - 1)) ∧
    (List.range 8).map (fun x => (GBASwi16 lzRefGBA 0x11).memory.wram (x : Int))
      = [0xAA, 0xBB, 0xAA, 0xBB, 0xAA, 0xBB, 0xAA, 0xBB] :=
  ⟨(unLz77_backref_token LzTarget.wram ((lzStep LzTarget.wram)^[3] (lzInit lzRefGBA 0x08000000 0))
      0 0x20 2 2 0x30 0x01 6 1 (by decide) (by decide) (by decide) (by decide) (by decide)
      (by decide) (by decide) (by decide) (by decide) (by decide) (by decide)).1,
    (unLz77_backref_token LzTarget.wram ((lzStep LzTarget.wram)^[3] (lzInit lzRefGBA 0x08000000 0))
      0 0x20 2 2 0x30 0x01 6 1 (by decide) (by decide) (by decide) (by decide) (by decide)
      (by decide) (by decide) (by decide) (by decide) (by decide) (by decide)).2.2.2.2.2.2.2.1,
    by decide⟩

/-! ## Every output byte is stored by a token -/

/-- A control write that enables a disabled channel with a timing other than immediate
only latches the channel record: scheduling does nothing. -/
theorem writeDMACNT_HI_timed (fuel : Nat) (g : GBA) (n : Fin 4) (control : Nat)
    (hdis : (g.memory.dma n).enable = 0) (hen : control % 65536 / 32768 % 2 ≠ 0)
    (htim : control % 65536 / 4096 % 4 ≠ 0) :
    GBAMemoryWriteDMACNT_HI fuel g n control
      = some (latchedGBA g n control, control % 65536) := by
  unfold GBAMemoryWriteDMACNT_HI GBAMemoryScheduleDMA
  simp only [GBADMA.enable, GBADMA.timing, GBADMA.drq, DMA_TIMING_NOW] at hdis ⊢
  rw [if_pos ⟨hdis, hen⟩, if_neg htim]
  simp only [Function.update_idem, Function.update_same]
  rfl

/-- Code behaviour behind C18: `GBAMemoryProcessEvents` subtracts `cycles` from `nextIRQ`
first and tests `enable && doIrq && nextIRQ` on the result (lines 406-407), so the test
does not see whether anything was pending.  A channel with `enable` and `doIrq` set and
`nextIRQ = 0`, which is what `GBAMemoryWriteDMACNT_HI` leaves, gets its interrupt raised
by the next call with a positive cycle count; in particular a control write that arms a
channel with a timing other than immediate transfers nothing, and the next call raises
the completion interrupt.  And a channel whose pending count equals `cycles` is not
raised by that call: its `nextIRQ` becomes 0. -/
theorem processEvents_spurious_irq :
    (∀ (gba : GBA) (n : Fin 4) (cycles : Int),
      (gba.memory.dma n).enable ≠ 0 → (gba.memory.dma n).doIrq ≠ 0 →
      (gba.memory.dma n).nextIRQ = 0 → 0 < cycles → cycles ≤ 2147483648 →
      List.count (irqOfChannel n) (GBAMemoryProcessEvents gba cycles).1.irqs
          = List.count (irqOfChannel n) gba.irqs + 1 ∧
        ((GBAMemoryProcessEvents gba cycles).1.memory.dma n).nextIRQ = INT_MAX) ∧
    (∀ (fuel : Nat) (gba : GBA) (n : Fin 4) (control : Nat) (cycles : Int),
      (gba.memory.dma n).enable = 0 → control % 65536 / 32768 % 2 ≠ 0 →
      control % 65536 / 16384 % 2 ≠ 0 → control % 65536 / 4096 % 4 ≠ 0 →
      0 < cycles → cycles ≤ 2147483648 →
      ∃ p, GBAMemoryWriteDMACNT_HI fuel gba n control = some p ∧
        p.1.memory.wram = gba.memory.wram ∧ p.1.memory.iwram = gba.memory.iwram ∧
        p.1.vram = gba.vram ∧ p.1.ioEvents = gba.ioEvents ∧ p.1.irqs = gba.irqs ∧
        List.count (irqOfChannel n) (GBAMemoryProcessEvents p.1 cycles).1.irqs
          = List.count (irqOfChannel n) gba.irqs + 1) ∧
    (∀ (gba : GBA) (n : Fin 4) (cycles : Int),
      (gba.memory.dma n).enable ≠ 0 → (gba.memory.dma n).doIrq ≠ 0 →
      (gba.memory.dma n).nextIRQ = cycles → 0 < cycles → cycles < 2147483648 →
      List.count (irqOfChannel n) (GBAMemoryProcessEvents gba cycles).1.irqs
          = List.count (irqOfChannel n) gba.irqs ∧
        ((GBAMemoryProcessEvents gba cycles).1.memory.dma n).nextIRQ = 0) := by
  have hidle : ∀ (gba : GBA) (n : Fin 4) (cycles : Int),
      (gba.memory.dma n).enable ≠ 0 → (gba.memory.dma n).doIrq ≠ 0 →
      (gba.memory.dma n).nextIRQ = 0 → 0 < cycles → cycles ≤ 2147483648 →
      List.count (irqOfChannel n) (GBAMemoryProcessEvents gba cycles).1.irqs
          = List.count (irqOfChannel n) gba.irqs + 1 ∧
        ((GBAMemoryProcessEvents gba cycles).1.memory.dma n).nextIRQ = INT_MAX := by
    intro gba n cycles hen hirq h0 hc1 hc2
    apply (processEvents_channel gba n cycles).1
    refine ⟨hen, hirq, ?_⟩
    rw [h0, wrapInt32_of_range _ (by omega)]
    omega
  refine ⟨hidle, ?_, ?_⟩
  · intro fuel gba n control cycles hdis hen hirq htim hc1 hc2
    refine ⟨_, writeDMACNT_HI_timed fuel gba n control hdis hen htim, rfl, rfl, rfl, rfl, rfl, ?_⟩
    exact (hidle (latchedGBA gba n control) n cycles
      (by rw [latchedGBA_dma]; exact hen) (by rw [latchedGBA_dma]; exact hirq)
      (by rw [latchedGBA_dma]; rfl) hc1 hc2).1
  · intro gba n cycles hen hirq heq hc1 hc2
    have h := (processEvents_channel gba n cycles).2 (by
      rintro ⟨_, _, hlt⟩
      rw [heq, sub_self] at hlt
      exact absurd hlt (by decide))
    rw [heq, sub_self] at h
    exact h

/-- Instances of `processEvents_spurious_irq`: channel 1 of a machine whose channels 0..2
are unprogrammed is armed by the control word 0xE000 (enable, IRQ, HBlank timing), the
write transfers nothing, and `GBAMemoryProcessEvents(5)` raises `IRQ_DMA1`; channel 3
with `nextIRQ = 0` is raised by a call with 5 cycles; channel 1 of `twoChannelGBA`, due in
3 cycles, is not raised by a call with 3 cycles. -/
theorem processEvents_spurious_irq_witness :
    (∃ p, GBAMemoryWriteDMACNT_HI 1 (dma3GBA 0) 1 0xE000 = some p ∧
      p.1.memory.wram = (dma3GBA 0).memory.wram ∧ p.1.memory.iwram = (dma3GBA 0).memory.iwram ∧
      p.1.vram = (dma3GBA 0).vram ∧ p.1.ioEvents = (dma3GBA 0).ioEvents ∧
      p.1.irqs = (dma3GBA 0).irqs ∧
      List.count (irqOfChannel 1) (GBAMemoryProcessEvents p.1 5).1.irqs
        = List.count (irqOfChannel 1) (dma3GBA 0).irqs + 1) ∧
    (List.count (irqOfChannel 3) (GBAMemoryProcessEvents (dma3GBA 0xC400) 5).1.irqs
        = List.count (irqOfChannel 3) (dma3GBA 0xC400).irqs + 1 ∧
      ((GBAMemoryProcessEvents (dma3GBA 0xC400) 5).1.memory.dma 3).nextIRQ = INT_MAX) ∧
    (List.count (irqOfChannel 1) (GBAMemoryProcessEvents twoChannelGBA 3).1.irqs
        = List.count (irqOfChannel 1) twoChannelGBA.irqs ∧
      ((GBAMemoryProcessEvents twoChannelGBA 3).1.memory.dma 1).nextIRQ = 0) ∧
    (GBAMemoryWriteDMACNT_HI 1 (dma3GBA 0) 1 0xE000).map
        (fun p => ((GBAMemoryProcessEvents p.1 5).1.irqs,
          (List.range 16).map (fun x => p.1.memory.wram (x : Int))))
      = some ([IRQ_DMA1], [0, 0, 0, 0, 0, 0, 0, 0, 0, 0, 0, 0, 0, 0, 0, 0]) :=
  ⟨processEvents_spurious_irq.2.1 1 (dma3GBA 0) 1 0xE000 5
      (by decide) (by decide) (by decide) (by decide) (by decide) (by decide),
    processEvents_spurious_irq.1 (dma3GBA 0xC400) 3 5
      (by decide) (by decide) (by decide) (by decide) (by decide),
    processEvents_spurious_irq.2.2 twoChannelGBA 1 3
      (by decide) (by decide) (by decide) (by decide) (by decide),
    by decide⟩

end Mgba
